import Mathlib

/-!
# JCompiler: the AST code generator of `compiler6/astree.c`

A shallow embedding of `genCodeFromASTree` (and of the tree dump `printASTree`
it calls for statement blocks), of the RV32 instructions it emits, and proofs
about the emitted code; then `newASTNode` of the same file, the recursive
parser of `hw2/recursiveParser.c` and the word count `processLine` of
`hw1/hw1.c`.

Conventions of the embedding.

* A C `int` of the compiler (`ival`, `hval`, the label counter `lid`) is an
  `Int`. The products `ival*4` and `(ival+2)*4` the generator prints are
  reduced to the 32-bit range by `wrapInt`, as the compiled code computes
  them. The increments `hval++` and `lid++` are not reduced: the embedding
  describes the runs in which the argument index and the label counter stay
  in the range of an `int`.
* A local variable that no statement has assigned is `none`; the one use of
  such a variable that is undefined behaviour in C (`code` printed with `%s`)
  sets the flag `Gen.undefined`.
* The text written to `out` is a list of `Asm` lines. Every constructor stands
  for one fixed `fprintf` format; `Asm.render` gives back the characters.
* Registers and memory words of the target machine are 32-bit: `Word` is
  `Fin 4294967296`, and every arithmetic result is reduced `% 4294967296`.
-/

namespace JCompiler

/-! ## The AST node model (`astree.h`) -/

/-- Modelled from the spec: the node kinds of `astree.h` (the header is not
among the sources). The thirteen kinds are the ones `genCodeFromASTree`
switches on; `other n` is any further enumerator value, which the `switch`
sends to its `default:` case. -/
inductive ASTNodeType where
  | AST_PROGRAM | AST_VARDECL | AST_FUNCTION | AST_SBLOCK | AST_FUNCALL
  | AST_ARGUMENT | AST_ASSIGNMENT | AST_WHILE | AST_IFTHEN | AST_EXPRESSION
  | AST_RELEXPR | AST_VARREF | AST_CONSTANT
  | other (n : Int)
  deriving DecidableEq, Repr

/-- Modelled from the spec: the value types of `astree.h`. `other n` is any
value of the C enum variable which is none of the four named ones. -/
inductive DataType where
  | T_INT | T_LONG | T_STRING | T_RETURNVAL
  | other (n : Int)
  deriving DecidableEq, Repr

/-- Modelled from the spec: the storage kinds of `astree.h`. `other n` is any
value of the C enum variable which is none of the four named ones. -/
inductive VarKind where
  | V_GLOBAL | V_GLARRAY | V_PARAM | V_LOCAL
  | other (n : Int)
  deriving DecidableEq, Repr

/-- An `ASTNode*`: either the null pointer or a node with its payload, its
three child slots `child[0..2]` and its `next` sibling. -/
inductive ASTNode where
  | null
  | node (type : ASTNodeType) (valType : DataType) (varKind : VarKind)
      (ival : Int) (strval : String) (child0 child1 child2 next : ASTNode)
  deriving DecidableEq, Repr

/-! ## The emitted text -/

/-- The registers the generator names. `a n` is printed `a%d`. -/
inductive Reg where
  | t0 | t1 | sp | fp | ra
  | a (n : Int)
  deriving DecidableEq, Repr

/-- One piece of text written to `out`. -/
inductive Asm where
  /-- Comment or blank lines, verbatim. -/
  | comment (text : String)
  /-- An assembler directive line, verbatim (`.data`, `.text`). -/
  | directive (text : String)
  /-- The text `outputDataSection()` writes (defined in `main.c`). -/
  | dataSection
  /-- A diagnostic, verbatim; it is not assembly. -/
  | diag (text : String)
  /-- The diagnostic ` Unknown Variable type (%d)`. -/
  | unknownVarType (vt : DataType)
  /-- The output of `printASTree(node, level, out)`. -/
  | treeDump (node : ASTNode) (level : Int)
  /-- The comment `#--funcall to %s--`. -/
  | cmtFuncall (name : String)
  /-- The comment `#--index: %d--`. -/
  | cmtIndex (ival : Int)
  /-- The comment `# Relational Expression (op %d,%c)`. -/
  | cmtRelExpr (ival : Int)
  /-- The line `.LL%d:`. -/
  | label (id : Int)
  /-- The line `%s:`. -/
  | symLabel (name : String)
  /-- The line `%s: .word 0`. -/
  | word0 (name : String)
  /-- The line `%s: .space %d`. -/
  | space (name : String) (bytes : Int)
  /-- The line `SC%d: .string %s`. -/
  | stringDecl (n : Int) (text : String)
  /-- The line `li rd, imm`. -/
  | li (rd : Reg) (imm : Int)
  /-- The line `la rd, %s`. -/
  | la (rd : Reg) (sym : String)
  /-- The line `la rd, .SC%d`. -/
  | laSC (rd : Reg) (n : Int)
  /-- The line `lw rd, off(base)`. -/
  | lw (rd : Reg) (off : Int) (base : Reg)
  /-- The line `lw rd, %s`. -/
  | lwSym (rd : Reg) (sym : String)
  /-- The line `sw rs, off(base)`. -/
  | sw (rs : Reg) (off : Int) (base : Reg)
  /-- The line `sw rs, %s, tmp`. -/
  | swSym (rs : Reg) (sym : String) (tmp : Reg)
  /-- The line `addi rd, rs, imm`. -/
  | addi (rd rs : Reg) (imm : Int)
  /-- The line `slli rd, rs, sh`. -/
  | slli (rd rs : Reg) (sh : Nat)
  /-- The line `%s rd, rs1, rs2` with the mnemonic held in the C variable
  `code`; `none` is the variable left uninitialised. -/
  | arith (code : Option String) (rd rs1 rs2 : Reg)
  /-- The line `mv rd, rs`. -/
  | mv (rd rs : Reg)
  /-- The line `b .LL%d`. -/
  | b (target : Int)
  /-- The line `%s rs1, rs2, .LL%d` with the mnemonic held in `code`. -/
  | branch (code : String) (rs1 rs2 : Reg) (target : Int)
  /-- The line `jal %s`. -/
  | jal (sym : String)
  /-- The line `ret`. -/
  | ret
  /-- The line `ecall`. -/
  | ecall
  deriving DecidableEq, Repr

/-! ## The generator -/

/-- The direction of a link from a node: one of the three child slots or the
sibling link. -/
inductive Dir where
  | c0 | c1 | c2 | next
  deriving DecidableEq, Repr

/-- The value of an `int` expression of the generator whose mathematical value
is `x`: `x` reduced to the range of a 32-bit two's-complement `int`. This is
what the compiled code computes; for `x` outside the range the C standard
leaves the behaviour undefined. -/
def wrapInt (x : Int) : Int := (x + 2147483648) % 4294967296 - 2147483648

/-- What one activation of `genCodeFromASTree` has done so far: the text it
wrote, the label counter, and two instruments: the values `getUniqueLabelID`
returned, in order, and the nodes the function was invoked on (each named by
its path from the node of the activation), in order. The flag `undefined`
tells that the activation has passed a never-assigned pointer to `fprintf`,
which is undefined behaviour: C says nothing about a run from that call on,
and the other fields then describe the run in which the call writes some text
and returns. -/
structure Gen where
  out : List Asm
  lid : Int
  issued : List Int
  visited : List (List Dir)
  undefined : Bool
  deriving DecidableEq, Repr

/-- The state on entry to an activation on a non-null node. -/
def Gen.enter (lid : Int) : Gen := ⟨[], lid, [], [[]], false⟩

/-- The state of an activation on the null pointer, which returns at once. -/
def Gen.skip (lid : Int) : Gen := ⟨[], lid, [], [], false⟩

/-- The C call `fprintf(out, ...)`. -/
def Gen.fprintf (g : Gen) (lines : List Asm) : Gen :=
  { g with out := g.out ++ lines }

/-- The C function `getUniqueLabelID`: `return lid++`. -/
def getUniqueLabelID (g : Gen) : Int × Gen :=
  (g.lid, { g with lid := g.lid + 1, issued := g.issued ++ [g.lid] })

/-- A recursive call on the node reached through `d`; `callee` is the call
with the label counter still to be supplied. -/
def Gen.call (g : Gen) (d : Dir) (callee : Int → Gen) : Gen :=
  let r := callee g.lid
  ⟨g.out ++ r.out, r.lid, g.issued ++ r.issued,
    g.visited ++ r.visited.map (fun p => d :: p), g.undefined || r.undefined⟩

/-- The C call `fprintf(out, "\t%s\tt0, t1, t0\n", code)` on the local variable
`code` (`none`: no statement has assigned it). With `code` never assigned the
pointer passed for `%s` is indeterminate and the call is undefined behaviour:
the flag `undefined` is set. -/
def Gen.fprintfCode (g : Gen) (code : Option String) : Gen :=
  { g with out := g.out ++ [.arith code .t0 .t1 .t0],
           undefined := g.undefined || code.isNone }

/-- The push `addi sp, sp, -4 / sw t0, 0(sp)`. -/
def pushT0 : List Asm := [.addi .sp .sp (-4), .sw .t0 0 .sp]

/-- The C function `genCodeFromASTree(node, hval, out)`, with the static
counter `lid` as an argument. -/
def genCodeFromASTree : ASTNode → Int → Int → Gen
  | .null, _, lid => Gen.skip lid
  | .node type valType varKind ival strval child0 child1 child2 next, hval, lid =>
    let g := Gen.enter lid
    let r : Gen × Int :=
      match type with
      | .AST_PROGRAM =>
        let g := g.fprintf [.comment "#\n# RISC-V assembly output\n#\n"]
        let g := g.fprintf [.comment "\n#\n# data section\n#\n", .directive "\t.data\n",
          .comment "#--string constants--\n"]
        let g := g.fprintf [.dataSection]
        let g := g.fprintf [.comment "\n#--Globals Declarations--\n"]
        let g := g.call .c0 (genCodeFromASTree child0 hval)
        let g := g.fprintf [.comment "\n\n#\n# Program Instructions\n#\n"]
        let g := g.fprintf [.directive "\t.text\n", .symLabel "program"]
        let g := g.call .c2 (genCodeFromASTree child2 hval)
        let g := g.fprintf [.li (.a 0) 0, .li (.a 7) 93, .ecall]
        let g := g.fprintf [.comment "\n#\n# Functions\n#\n\n"]
        let g := g.call .c1 (genCodeFromASTree child1 hval)
        let g := g.fprintf [.comment "\n#\n# Library functions\n#\n\n"]
        let g := g.fprintf
          [.comment "# Print a null-terminated string: arg: a0 == string address\n"]
        let g := g.fprintf [.symLabel "printStr", .li (.a 7) 4, .ecall, .ret]
        let g := g.fprintf [.comment "\n# Print a decimal integer: arg: a0 == value\n"]
        let g := g.fprintf [.symLabel "printInt", .li (.a 7) 1, .ecall, .ret]
        let g := g.fprintf [.comment "\n#Read in a decimal integer: return: a0 == value\n"]
        let g := g.fprintf [.symLabel "readInt", .li (.a 7) 5, .ecall, .ret]
        (g, hval)
      | .AST_VARDECL =>
        match valType with
        | .T_INT =>
          match varKind with
          | .V_GLOBAL => (g.fprintf [.word0 strval], hval)
          | .V_GLARRAY => (g.fprintf [.space strval (wrapInt (ival * 4))], hval)
          | .V_PARAM => (g.fprintf [.sw (.a ival) (wrapInt ((ival + 2) * 4)) .fp], hval)
          | .V_LOCAL => (g.fprintf [.sw (.a ival) (wrapInt ((ival + 2) * 4)) .fp], hval)
          | .other _ => (g.fprintf [.word0 strval], hval)
        | .T_STRING =>
          match varKind with
          | .V_GLOBAL => (g.fprintf [.stringDecl hval strval], hval)
          | _ => (g.fprintf [.sw (.a ival) (wrapInt ((ival + 2) * 4)) .fp], hval)
        | _ => (g.fprintf [.unknownVarType valType], hval)
      | .AST_FUNCTION =>
        let g := g.fprintf [.comment "\t#--FUNCTION--\n"]
        let g := g.fprintf [.symLabel strval, .addi .sp .sp (-128), .sw .fp 4 .sp]
        let g := g.fprintf [.sw .ra 0 .sp, .mv .fp .sp]
        let g := g.fprintf [.sw (.a 0) 8 .sp, .sw (.a 1) 12 .sp, .sw (.a 2) 16 .sp]
        let g := g.fprintf [.sw (.a 3) 20 .sp, .sw (.a 4) 24 .sp, .sw (.a 5) 28 .sp]
        let g := g.call .c1 (genCodeFromASTree child1 hval)
        let g := g.fprintf [.mv .sp .fp, .lw .fp 4 .sp]
        let g := g.fprintf [.lw .ra 0 .sp, .addi .sp .sp 128, .ret, .comment "\n"]
        (g, hval)
      | .AST_SBLOCK =>
        let g := g.fprintf [.diag "Statement block\n"]
        let g := g.fprintf [.treeDump child0 hval]
        (g, hval)
      | .AST_FUNCALL =>
        let g := g.fprintf [.cmtFuncall strval]
        let g := g.call .c0 (genCodeFromASTree child0 hval)
        let g := g.fprintf [.jal strval]
        (g, 0)
      | .AST_ARGUMENT =>
        let g := g.call .c0 (genCodeFromASTree child0 hval)
        let g := g.fprintf [.mv (.a hval) .t0]
        (g, hval + 1)
      | .AST_ASSIGNMENT =>
        let g := g.fprintf [.comment "\t#--assignment--\n"]
        let g := g.call .c0 (genCodeFromASTree child0 0)
        match varKind with
        | .V_GLOBAL => (g.fprintf [.swSym .t0 strval .t1], hval)
        | .V_PARAM => (g.fprintf [.sw .t0 (wrapInt ((ival + 2) * 4)) .fp], hval)
        | .V_LOCAL => (g.fprintf [.sw .t0 (wrapInt ((ival + 2) * 4)) .fp], hval)
        | .V_GLARRAY =>
          let g := g.fprintf [.comment "\t#--Array--\n"]
          let g := g.fprintf [.cmtIndex ival]
          let g := g.fprintf pushT0
          let g := g.call .c1 (genCodeFromASTree child1 0)
          let g := g.fprintf [.slli .t0 .t0 2, .la .t1 strval]
          let g := g.fprintf [.arith (some "add") .t1 .t1 .t0, .lw .t0 0 .sp]
          let g := g.fprintf [.addi .sp .sp 4, .sw .t0 0 .t1]
          (g, hval)
        | .other _ => (g.fprintf [.diag "Unknown variable kind assignment\n"], hval)
      | .AST_WHILE =>
        let (label1, g) := getUniqueLabelID g
        let (label2, g) := getUniqueLabelID g
        let g := g.fprintf [.comment "\t#--While loop--\n", .b label2]
        let g := g.fprintf [.label label1, .comment "\t#--body--\n"]
        let g := g.call .c1 (genCodeFromASTree child1 hval)
        let g := g.fprintf [.comment "\t#--condition--\n", .label label2]
        let g := g.call .c0 (genCodeFromASTree child0 label1)
        let g := g.fprintf [.comment "\t#--endloop--\n"]
        (g, hval)
      | .AST_IFTHEN =>
        let (label1, g) := getUniqueLabelID g
        let (label2, g) := getUniqueLabelID g
        let g := g.fprintf [.comment "\t#--ifthenelse--\n"]
        let g := g.call .c0 (genCodeFromASTree child0 label1)
        let g := g.fprintf [.comment "\t#--elsepart--\n"]
        let g := g.call .c2 (genCodeFromASTree child2 hval)
        let g := g.fprintf [.b label2, .label label1, .comment "\t#--ifpart--\n"]
        let g := g.call .c1 (genCodeFromASTree child1 hval)
        let g := g.fprintf [.label label2, .comment "\t#--endif--\n"]
        (g, hval)
      | .AST_EXPRESSION =>
        let g := g.fprintf [.comment "\t#--Binary OP Expression: "]
        let g := g.fprintf [.comment (if ival = 43 then "(+)--\n" else "(-)--\n")]
        let g := g.call .c0 (genCodeFromASTree child0 hval)
        let g := g.fprintf pushT0
        let g := g.call .c1 (genCodeFromASTree child1 hval)
        let g := g.fprintf [.lw .t1 0 .sp, .addi .sp .sp 4]
        let code : Option String :=
          if ival = 43 then some "add" else if ival = 45 then some "sub" else none
        let g := g.fprintf (if ival = 43 ∨ ival = 45 then [] else [.diag "unknown ADDOP\n"])
        let g := g.fprintfCode code
        (g, hval)
      | .AST_RELEXPR =>
        let g := g.fprintf [.cmtRelExpr ival]
        let g := g.call .c0 (genCodeFromASTree child0 0)
        let g := g.fprintf pushT0
        let g := g.call .c1 (genCodeFromASTree child1 0)
        let code : String :=
          if ival = 61 then "beq"
          else if ival = 33 then "bne"
          else if ival = 62 then "bgt"
          else if ival = 60 then "blt"
          else "unknown relop"
        let g := g.fprintf [.lw .t1 0 .sp, .addi .sp .sp 4, .branch code .t1 .t0 hval]
        (g, hval)
      | .AST_VARREF =>
        match varKind with
        | .V_GLOBAL => (g.fprintf [.lwSym .t0 strval], hval)
        | .V_PARAM => (g.fprintf [.lw .t0 (wrapInt ((ival + 2) * 4)) .fp], hval)
        | .V_LOCAL => (g.fprintf [.lw .t0 (wrapInt ((ival + 2) * 4)) .fp], hval)
        | .V_GLARRAY =>
          let g := g.fprintf [.comment "\t#--ArrayReference--\n"]
          let g := g.call .c0 (genCodeFromASTree child0 0)
          let g := g.fprintf [.slli .t0 .t0 2, .la .t1 strval]
          let g := g.fprintf [.arith (some "add") .t1 .t1 .t0, .lw .t0 0 .t1]
          (g, hval)
        | .other _ => (g.fprintf [.diag "Unknown variable kind assignment\n"], hval)
      | .AST_CONSTANT =>
        match valType with
        | .T_INT => (g.fprintf [.li .t0 ival], hval)
        | .T_STRING => (g.fprintf [.laSC .t0 ival], hval)
        | .T_RETURNVAL => (g.fprintf [.mv .t0 (.a hval)], hval)
        | _ => (g.fprintf [], hval)
      | .other _ => (g.fprintf [], hval)
    r.1.call .next (genCodeFromASTree next r.2)

/-! ## The tree dump and the characters of the output -/

/-- The C function `levelPrefix`: `level*INDENTAMT` blanks, at most 126. -/
def levelPrefix (level : Int) : String :=
  String.mk (List.replicate (min (level * 3).toNat 126) ' ')

/-- The conversion `%c` of an `int`: the character with its low byte as code. -/
def charOf (i : Int) : String := String.singleton (Char.ofNat (i % 256).toNat)

/-- The C function `printASTree(node, level, out)`: the characters it writes.
`enc` gives the numeric value of each `DataType` enumerator (they are set in
`astree.h`). -/
def printASTree (enc : DataType → Int) : ASTNode → Int → String
  | .null, _ => ""
  | .node type valType varKind ival strval child0 child1 child2 next, level =>
    levelPrefix level ++
    (match type with
      | .AST_PROGRAM =>
        "Whole Program AST:\n" ++
        levelPrefix (level + 1) ++ "--globalvars--\n" ++
        printASTree enc child0 (level + 1) ++
        levelPrefix (level + 1) ++ "--functions--\n" ++
        printASTree enc child1 (level + 1) ++
        levelPrefix (level + 1) ++ "--program--\n" ++
        printASTree enc child2 (level + 1)
      | .AST_VARDECL =>
        "Variable declaration (" ++ strval ++ ")" ++
        (if valType = .T_INT then
          (if varKind ≠ .V_GLARRAY then " type int\n"
            else " type int array size " ++ toString ival ++ "\n")
        else if valType = .T_LONG then " type long\n"
        else if valType = .T_STRING then " type string\n"
        else " type unknown (" ++ toString (enc valType) ++ ")\n")
      | .AST_FUNCTION =>
        "Function def (" ++ strval ++ ")\n" ++
        levelPrefix (level + 1) ++ "--params--\n" ++
        printASTree enc child0 (level + 1) ++
        levelPrefix (level + 1) ++ "--locals--\n" ++
        printASTree enc child2 (level + 1) ++
        levelPrefix (level + 1) ++ "--body--\n" ++
        printASTree enc child1 (level + 1)
      | .AST_SBLOCK =>
        "Statement block\n" ++ printASTree enc child0 (level + 1)
      | .AST_FUNCALL =>
        "Function call (" ++ strval ++ ")\n" ++ printASTree enc child0 (level + 1)
      | .AST_ARGUMENT =>
        "Funcall argument\n" ++ printASTree enc child0 (level + 1)
      | .AST_ASSIGNMENT =>
        "Assignment to (" ++ strval ++ ") " ++
        (if varKind = .V_GLARRAY then
          "array var\n" ++ levelPrefix (level + 1) ++ "--index--\n" ++
          printASTree enc child1 (level + 1)
        else "simple var\n") ++
        levelPrefix (level + 1) ++ "--right hand side--\n" ++
        printASTree enc child0 (level + 1)
      | .AST_WHILE =>
        "While loop\n" ++ printASTree enc child0 (level + 1) ++
        levelPrefix (level + 1) ++ "--body--\n" ++
        printASTree enc child1 (level + 1)
      | .AST_IFTHEN =>
        "If then\n" ++ printASTree enc child0 (level + 1) ++
        levelPrefix (level + 1) ++ "--ifpart--\n" ++
        printASTree enc child1 (level + 1) ++
        levelPrefix (level + 1) ++ "--elsepart--\n" ++
        printASTree enc child2 (level + 1)
      | .AST_EXPRESSION =>
        "Expression (op " ++ toString ival ++ "," ++ charOf ival ++ ")\n" ++
        printASTree enc child0 (level + 1) ++ printASTree enc child1 (level + 1)
      | .AST_RELEXPR =>
        "Relational Expression (op " ++ toString ival ++ "," ++ charOf ival ++ ")\n" ++
        printASTree enc child0 (level + 1) ++ printASTree enc child1 (level + 1)
      | .AST_VARREF =>
        "Variable ref (" ++ strval ++ ")" ++
        (if varKind = .V_GLARRAY then
          " array ref\n" ++ printASTree enc child0 (level + 1)
        else "\n")
      | .AST_CONSTANT =>
        if valType = .T_INT then "Int Constant = " ++ toString ival ++ "\n"
        else if valType = .T_STRING then "String Constant = (" ++ strval ++ ")\n"
        else if valType = .T_RETURNVAL then "Return Value\n"
        else "Unknown Constant\n"
      | .other _ => "Unknown AST node!\n") ++
    printASTree enc next level

/-- The name of a register as the generator prints it. -/
def Reg.render : Reg → String
  | .t0 => "t0"
  | .t1 => "t1"
  | .sp => "sp"
  | .fp => "fp"
  | .ra => "ra"
  | .a n => "a" ++ toString n

/-- The characters a piece of output stands for. `enc` is as in `printASTree`;
`data` is what `outputDataSection()` writes; `junk` is what `%s` prints for the
uninitialised `code`. -/
def Asm.render (enc : DataType → Int) (data junk : String) : Asm → String
  | .comment text => text
  | .directive text => text
  | .dataSection => data
  | .diag text => text
  | .unknownVarType vt => " Unknown Variable type (" ++ toString (enc vt) ++ ")\n"
  | .treeDump node level => printASTree enc node level
  | .cmtFuncall name => "\t#--funcall to " ++ name ++ "--\n"
  | .cmtIndex ival => "\t#--index: " ++ toString ival ++ "--\n"
  | .cmtRelExpr ival =>
    "\t# Relational Expression (op " ++ toString ival ++ "," ++ charOf ival ++ ")\n"
  | .label id => ".LL" ++ toString id ++ ":\n"
  | .symLabel name => name ++ ":\n"
  | .word0 name => name ++ ":\t.word\t0\n"
  | .space name bytes => name ++ ":\t.space\t" ++ toString bytes ++ "\n"
  | .stringDecl n text => "SC" ++ toString n ++ ":\t.string " ++ text ++ "\n"
  | .li rd imm => "\tli\t" ++ rd.render ++ ", " ++ toString imm ++ "\n"
  | .la rd sym => "\tla\t" ++ rd.render ++ ", " ++ sym ++ "\n"
  | .laSC rd n => "\tla\t" ++ rd.render ++ ", .SC" ++ toString n ++ "\n"
  | .lw rd off base =>
    "\tlw\t" ++ rd.render ++ ", " ++ toString off ++ "(" ++ base.render ++ ")\n"
  | .lwSym rd sym => "\tlw\t" ++ rd.render ++ ", " ++ sym ++ "\n"
  | .sw rs off base =>
    "\tsw\t" ++ rs.render ++ ", " ++ toString off ++ "(" ++ base.render ++ ")\n"
  | .swSym rs sym tmp => "\tsw\t" ++ rs.render ++ ", " ++ sym ++ ", " ++ tmp.render ++ "\n"
  | .addi rd rs imm =>
    "\taddi\t" ++ rd.render ++ ", " ++ rs.render ++ ", " ++ toString imm ++ "\n"
  | .slli rd rs sh =>
    "\tslli\t" ++ rd.render ++ ", " ++ rs.render ++ ", " ++ toString sh ++ "\n"
  | .arith code rd rs1 rs2 =>
    "\t" ++ code.getD junk ++ "\t" ++ rd.render ++ ", " ++ rs1.render ++ ", " ++
      rs2.render ++ "\n"
  | .mv rd rs => "\tmv\t" ++ rd.render ++ ", " ++ rs.render ++ "\n"
  | .b target => "\tb\t.LL" ++ toString target ++ "\n"
  | .branch code rs1 rs2 target =>
    "\t" ++ code ++ "\t" ++ rs1.render ++ ", " ++ rs2.render ++ ", .LL" ++
      toString target ++ "\n"
  | .jal sym => "\tjal\t" ++ sym ++ "\n"
  | .ret => "\tret\n"
  | .ecall => "\tecall\n"

/-- The characters of a whole output. -/
def renderAll (enc : DataType → Int) (data junk : String) (out : List Asm) : String :=
  String.join (out.map (Asm.render enc data junk))

/-! ## The target machine

The subset of RV32 the generator emits, over the emitted lines themselves: the
program counter is an index into the list of lines, a label is resolved to the
first line that defines it, and lines that are not instructions either do
nothing (comments, labels, section directives) or stop the machine
(diagnostics and data definitions). Memory is a map from byte addresses to
words; the generator only emits word accesses. -/

/-- A 32-bit register or memory word. -/
abbrev Word := Fin 4294967296

/-- The word holding the integer `i`, two's complement. -/
def Word.ofInt (i : Int) : Word := ⟨(i % 4294967296).toNat, by omega⟩

/-- The signed value of a word. -/
def Word.toInt (w : Word) : Int :=
  if w.val < 2147483648 then (w.val : Int) else (w.val : Int) - 4294967296

/-- Addition modulo 2^32. -/
def Word.add (x y : Word) : Word :=
  ⟨(x.val + y.val) % 4294967296, Nat.mod_lt _ (by decide)⟩

/-- Subtraction modulo 2^32. -/
def Word.sub (x y : Word) : Word :=
  ⟨(x.val + (4294967296 - y.val)) % 4294967296, Nat.mod_lt _ (by decide)⟩

/-- Left shift by `n` bits, modulo 2^32. -/
def Word.shl (x : Word) (n : Nat) : Word :=
  ⟨(x.val * 2 ^ n) % 4294967296, Nat.mod_lt _ (by decide)⟩

/-- Machine state: program counter (a line index), registers, memory. -/
structure Machine where
  pc : Nat
  reg : Reg → Word
  mem : Word → Word

/-- Write a register. -/
def Machine.setReg (s : Machine) (r : Reg) (v : Word) : Machine :=
  { s with reg := fun x => if x = r then v else s.reg x }

/-- Write a memory word. -/
def Machine.store (s : Machine) (addr v : Word) : Machine :=
  { s with mem := fun x => if x = addr then v else s.mem x }

/-- Go on to the next line. -/
def Machine.advance (s : Machine) : Machine := { s with pc := s.pc + 1 }

/-- The index of the first line equal to `l`. -/
def findLine (l : Asm) : List Asm → Option Nat
  | [] => none
  | x :: xs => if x = l then some 0 else (findLine l xs).map (fun n => n + 1)

/-- The upper part `%hi` of an address, as `lui` leaves it in a register. -/
def Word.hi (x : Word) : Word :=
  ⟨((x.val + 2048) / 4096 * 4096) % 4294967296, Nat.mod_lt _ (by decide)⟩

/-- Is the comparison named by a branch mnemonic true of `x` and `y`? The
order comparisons are signed. -/
def branchTaken (code : String) (x y : Word) : Option Bool :=
  if code = "beq" then some (decide (x = y))
  else if code = "bne" then some (decide (x ≠ y))
  else if code = "bgt" then some (decide (y.toInt < x.toInt))
  else if code = "blt" then some (decide (x.toInt < y.toInt))
  else none

/-- The effect of the line `i` of `prog` on state `s`; `none` when the line
cannot be executed. `addr` gives the address of each data symbol. The
pseudo-instruction `sw rs, sym, tmp` is taken as `lui tmp, %hi(sym)` followed
by `sw rs, %lo(sym)(tmp)`. -/
def execLine (addr : String → Word) (prog : List Asm) (i : Asm) (s : Machine) :
    Option Machine :=
  match i with
  | .comment _ => some s.advance
  | .directive _ => some s.advance
  | .cmtFuncall _ => some s.advance
  | .cmtIndex _ => some s.advance
  | .cmtRelExpr _ => some s.advance
  | .label _ => some s.advance
  | .symLabel _ => some s.advance
  | .dataSection => none
  | .diag _ => none
  | .unknownVarType _ => none
  | .treeDump _ _ => none
  | .word0 _ => none
  | .space _ _ => none
  | .stringDecl _ _ => none
  | .li rd imm => some (s.setReg rd (Word.ofInt imm)).advance
  | .la rd sym => some (s.setReg rd (addr sym)).advance
  | .laSC rd n => some (s.setReg rd (addr (".SC" ++ toString n))).advance
  | .lw rd off base =>
    some (s.setReg rd (s.mem ((s.reg base).add (Word.ofInt off)))).advance
  | .lwSym rd sym => some (s.setReg rd (s.mem (addr sym))).advance
  | .sw rs off base =>
    some (s.store ((s.reg base).add (Word.ofInt off)) (s.reg rs)).advance
  | .swSym rs sym tmp =>
    let s1 := s.setReg tmp (addr sym).hi
    some (s1.store (addr sym) (s1.reg rs)).advance
  | .addi rd rs imm => some (s.setReg rd ((s.reg rs).add (Word.ofInt imm))).advance
  | .slli rd rs sh => some (s.setReg rd ((s.reg rs).shl sh)).advance
  | .arith code rd rs1 rs2 =>
    if code = some "add" then some (s.setReg rd ((s.reg rs1).add (s.reg rs2))).advance
    else if code = some "sub" then
      some (s.setReg rd ((s.reg rs1).sub (s.reg rs2))).advance
    else none
  | .mv rd rs => some (s.setReg rd (s.reg rs)).advance
  | .b target =>
    match findLine (.label target) prog with
    | some n => some { s with pc := n }
    | none => none
  | .branch code rs1 rs2 target =>
    match branchTaken code (s.reg rs1) (s.reg rs2) with
    | some true =>
      match findLine (.label target) prog with
      | some n => some { s with pc := n }
      | none => none
    | some false => some s.advance
    | none => none
  | .jal sym =>
    match findLine (.symLabel sym) prog with
    | some n => some { s.setReg .ra (Word.ofInt (s.pc + 1)) with pc := n }
    | none => none
  | .ret => some { s with pc := (s.reg .ra).val }
  | .ecall => none

/-- One step: execute the line at the program counter. -/
def step (addr : String → Word) (prog : List Asm) (s : Machine) : Option Machine :=
  match prog[s.pc]? with
  | some i => execLine addr prog i s
  | none => none

/-- Exactly `n` steps. -/
def steps (addr : String → Word) (prog : List Asm) : Nat → Machine → Option Machine
  | 0, s => some s
  | n + 1, s =>
    match step addr prog s with
    | some s1 => steps addr prog n s1
    | none => none

/-- Run until control falls off the end of the program, for at most `fuel`
steps; `none` when the machine stops elsewhere or the fuel runs out. -/
def run (addr : String → Word) (prog : List Asm) : Nat → Machine → Option Machine
  | 0, s => if s.pc = prog.length then some s else none
  | fuel + 1, s =>
    if s.pc = prog.length then some s
    else
      match step addr prog s with
      | some s1 => run addr prog fuel s1
      | none => none

/-- As `run`, counting the steps taken at line `line`. -/
def runCount (addr : String → Word) (prog : List Asm) (line : Nat) :
    Nat → Machine → Option (Machine × Nat)
  | 0, s => if s.pc = prog.length then some (s, 0) else none
  | fuel + 1, s =>
    if s.pc = prog.length then some (s, 0)
    else
      match step addr prog s with
      | some s1 =>
        match runCount addr prog line fuel s1 with
        | some (s2, k) => some (s2, if s.pc = line then k + 1 else k)
        | none => none
      | none => none

/-! ## Instruments of the proofs -/

/-- The number of label identifiers the generator requests for a tree. -/
def labelCount : ASTNode → Nat
  | .null => 0
  | .node type _ varKind _ _ child0 child1 child2 next =>
    (match type with
      | .AST_PROGRAM => labelCount child0 + labelCount child2 + labelCount child1
      | .AST_FUNCTION => labelCount child1
      | .AST_FUNCALL => labelCount child0
      | .AST_ARGUMENT => labelCount child0
      | .AST_ASSIGNMENT =>
        labelCount child0 +
          (match varKind with | .V_GLARRAY => labelCount child1 | _ => 0)
      | .AST_WHILE => 2 + labelCount child1 + labelCount child0
      | .AST_IFTHEN => 2 + labelCount child0 + labelCount child2 + labelCount child1
      | .AST_EXPRESSION => labelCount child0 + labelCount child1
      | .AST_RELEXPR => labelCount child0 + labelCount child1
      | .AST_VARREF => (match varKind with | .V_GLARRAY => labelCount child0 | _ => 0)
      | _ => 0) + labelCount next

/-- The identifiers `lo, lo+1, ..., lo+n-1`. -/
def labelRange (lo : Int) : Nat → List Int
  | 0 => []
  | n + 1 => lo :: labelRange (lo + 1) n

/-- The identifier of a label line `.LL%d:`. -/
def Asm.labelId : Asm → Option Int
  | .label id => some id
  | _ => none

/-- The identifiers of the label lines `.LL%d:` of a piece of output, in order. -/
def labelDefs (out : List Asm) : List Int := out.filterMap Asm.labelId

/-- Lines whose effect does not depend on the rest of the program: everything
but jumps, branches, calls and returns. -/
def Asm.straight : Asm → Bool
  | .b _ => false
  | .branch _ _ _ _ => false
  | .jal _ => false
  | .ret => false
  | _ => true

/-- Execute a list of lines one after the other (the meaning of a piece of
straight-line code). -/
def execSeq (addr : String → Word) : List Asm → Machine → Option Machine
  | [], s => some s
  | i :: rest, s =>
    match execLine addr [] i s with
    | some s1 => execSeq addr rest s1
    | none => none

/-- The piece of code `code` sits in `prog` from line `pc` on. -/
def CodeAt (prog : List Asm) : Nat → List Asm → Prop
  | _, [] => True
  | pc, i :: rest => prog[pc]? = some i ∧ CodeAt prog (pc + 1) rest

/-- Expression trees built only from Int constants and `+`/`-` binary
expressions, no node having a sibling. -/
def isArith : ASTNode → Bool
  | .null => false
  | .node type valType _ ival _ child0 child1 _ next =>
    match type with
    | .AST_CONSTANT => decide (valType = .T_INT) && decide (next = .null)
    | .AST_EXPRESSION =>
      decide (ival = 43 ∨ ival = 45) && decide (next = .null) &&
        isArith child0 && isArith child1
    | _ => false

/-- The value of an arithmetic expression tree: left operand plus, or minus,
right operand, modulo 2^32. -/
def evalArith : ASTNode → Word
  | .null => 0
  | .node type _ _ ival _ child0 child1 _ _ =>
    match type with
    | .AST_CONSTANT => Word.ofInt ival
    | .AST_EXPRESSION =>
      if ival = 43 then (evalArith child0).add (evalArith child1)
      else (evalArith child0).sub (evalArith child1)
    | _ => 0

/-- The number of stack words the code of an arithmetic expression has pushed
at the deepest point of its evaluation. -/
def stackWords : ASTNode → Nat
  | .null => 0
  | .node type _ _ _ _ child0 child1 _ _ =>
    match type with
    | .AST_EXPRESSION => max (stackWords child0) (1 + stackWords child1)
    | _ => 0

/-- The node `Constant(n)` of value type Int. -/
def intConst (n : Int) : ASTNode :=
  .node .AST_CONSTANT .T_INT .V_GLOBAL n "" .null .null .null .null

/-- The node `BinaryExpr(op, l, r)`. -/
def binExpr (op : Int) (l r : ASTNode) : ASTNode :=
  .node .AST_EXPRESSION .T_INT .V_GLOBAL op "" l r .null .null

/-- The tree `BinaryExpr('+', Constant(3), Constant(4))`. -/
def sumThreeFour : ASTNode := binExpr 43 (intConst 3) (intConst 4)

/-- The node `Assignment` to element `index` of the global array `name`. -/
def arrayAssign (name : String) (rhs index : ASTNode) : ASTNode :=
  .node .AST_ASSIGNMENT .T_INT .V_GLARRAY 0 name rhs index .null .null

/-- The node `VarRef` of the global variable `name`. -/
def globalRef (name : String) : ASTNode :=
  .node .AST_VARREF .T_INT .V_GLOBAL 0 name .null .null .null .null

/-- The node `RelationalExpr(op, l, r)`. -/
def relExpr (op : Int) (l r : ASTNode) : ASTNode :=
  .node .AST_RELEXPR .T_INT .V_GLOBAL op "" l r .null .null

/-- The node `Assignment` of `rhs` to the global variable `name`. -/
def globalAssign (name : String) (rhs : ASTNode) : ASTNode :=
  .node .AST_ASSIGNMENT .T_INT .V_GLOBAL 0 name rhs .null .null .null

/-- The node `WhileLoop(cond, body)`. -/
def whileLoop (cond body : ASTNode) : ASTNode :=
  .node .AST_WHILE .T_INT .V_GLOBAL 0 "" cond body .null .null

/-- The loop `while (i < c) i = i + 1` on the global variable `i`. -/
def countingLoop (i : String) (c : Int) : ASTNode :=
  whileLoop (relExpr 60 (globalRef i) (intConst c))
    (globalAssign i (binExpr 43 (globalRef i) (intConst 1)))

/-- The node `IfThenElse(cond, thenBody, elseBody)`. -/
def ifThenElse (cond thenBody elseBody : ASTNode) : ASTNode :=
  .node .AST_IFTHEN .T_INT .V_GLOBAL 0 "" cond thenBody elseBody .null

/-- The statement `if (1 < 2) x = 1 else x = 2`. -/
def ifExample : ASTNode :=
  ifThenElse (relExpr 60 (intConst 1) (intConst 2)) (globalAssign "x" (intConst 1))
    (globalAssign "x" (intConst 2))

/-- The node reached from `t` by following `next` links `n` times (the null
pointer once the list has ended). -/
def nthSibling : ASTNode → Nat → ASTNode
  | t, 0 => t
  | .null, _ + 1 => .null
  | .node _ _ _ _ _ _ _ _ next, n + 1 => nthSibling next n

/-- The child slot `child[0]` of a node. -/
def ASTNode.child0 : ASTNode → ASTNode
  | .null => .null
  | .node _ _ _ _ _ c0 _ _ _ => c0

/-- Is this an `Argument` node? -/
def isArgument : ASTNode → Bool
  | .node .AST_ARGUMENT _ _ _ _ _ _ _ _ => true
  | _ => false

/-- The node `Argument(expr)` followed by the arguments `rest`. -/
def argument (expr rest : ASTNode) : ASTNode :=
  .node .AST_ARGUMENT .T_INT .V_GLOBAL 0 "" expr .null .null rest

/-- The node `FunctionCall` of `name` with the argument list `args`. -/
def funCall (name : String) (args : ASTNode) : ASTNode :=
  .node .AST_FUNCALL .T_INT .V_GLOBAL 0 name args .null .null .null

/-- The call `f(1, g(2))`: the second argument of the call of `f` is a call. -/
def nestedCall : ASTNode :=
  funCall "f" (argument (intConst 1) (argument (funCall "g" (argument (intConst 2) .null)) .null))

/-- The node `VarRef` of the parameter or local in frame slot `i`. -/
def slotRef (kind : VarKind) (i : Int) : ASTNode :=
  .node .AST_VARREF .T_INT kind i "" .null .null .null .null

/-- The node `Function` `name` with body `body`. -/
def function (name : String) (params body locals : ASTNode) : ASTNode :=
  .node .AST_FUNCTION .T_INT .V_GLOBAL 0 name params body locals .null

/-- The node reached from `t` through the link `d` (the null pointer from the
null pointer). -/
def ASTNode.follow : ASTNode → Dir → ASTNode
  | .null, _ => .null
  | .node _ _ _ _ _ c0 _ _ _, .c0 => c0
  | .node _ _ _ _ _ _ c1 _ _, .c1 => c1
  | .node _ _ _ _ _ _ _ c2 _, .c2 => c2
  | .node _ _ _ _ _ _ _ _ nx, .next => nx

/-- The node at the end of a path of links from `t`. -/
def ASTNode.at : ASTNode → List Dir → ASTNode
  | t, [] => t
  | t, d :: p => (t.follow d).at p

/-- The number of nodes of a tree. -/
def nodeCount : ASTNode → Nat
  | .null => 0
  | .node _ _ _ _ _ c0 c1 c2 nx => 1 + nodeCount c0 + nodeCount c1 + nodeCount c2 + nodeCount nx

/-- The child slots the data model lists for a kind of node: is slot `d` one of
them? (`next` may be populated on every node.) -/
def slotListed : ASTNodeType → Dir → Bool
  | _, .next => true
  | .AST_PROGRAM, _ => true
  | .AST_FUNCTION, _ => true
  | .AST_IFTHEN, _ => true
  | .AST_SBLOCK, .c0 => true
  | .AST_FUNCALL, .c0 => true
  | .AST_ARGUMENT, .c0 => true
  | .AST_VARREF, .c0 => true
  | .AST_ASSIGNMENT, .c0 => true
  | .AST_ASSIGNMENT, .c1 => true
  | .AST_WHILE, .c0 => true
  | .AST_WHILE, .c1 => true
  | .AST_EXPRESSION, .c0 => true
  | .AST_EXPRESSION, .c1 => true
  | .AST_RELEXPR, .c0 => true
  | .AST_RELEXPR, .c1 => true
  | _, _ => false

/-- Well-formed trees: every node is of one of the thirteen kinds and its
populated child slots are among those listed for its kind. -/
def wellFormed : ASTNode → Bool
  | .null => true
  | .node type _ _ _ _ c0 c1 c2 nx =>
    (match type with | .other _ => false | _ => true) &&
    (slotListed type .c0 || decide (c0 = .null)) &&
    (slotListed type .c1 || decide (c1 = .null)) &&
    (slotListed type .c2 || decide (c2 = .null)) &&
    wellFormed c0 && wellFormed c1 && wellFormed c2 && wellFormed nx

/-- The links `genCodeFromASTree` calls itself through, from a node of the
given kind and storage kind. -/
def descends : ASTNodeType → VarKind → Dir → Bool
  | _, _, .next => true
  | .AST_PROGRAM, _, _ => true
  | .AST_FUNCTION, _, .c1 => true
  | .AST_FUNCALL, _, .c0 => true
  | .AST_ARGUMENT, _, .c0 => true
  | .AST_ASSIGNMENT, _, .c0 => true
  | .AST_ASSIGNMENT, .V_GLARRAY, .c1 => true
  | .AST_WHILE, _, .c0 => true
  | .AST_WHILE, _, .c1 => true
  | .AST_IFTHEN, _, _ => true
  | .AST_EXPRESSION, _, .c0 => true
  | .AST_EXPRESSION, _, .c1 => true
  | .AST_RELEXPR, _, .c0 => true
  | .AST_RELEXPR, _, .c1 => true
  | .AST_VARREF, .V_GLARRAY, .c0 => true
  | _, _, _ => false

/-- The paths from `t` that lead to a node along links the generator calls
itself through. -/
def reached : ASTNode → List Dir → Bool
  | .null, _ => false
  | .node _ _ _ _ _ _ _ _ _, [] => true
  | .node type _ varKind _ _ c0 c1 c2 nx, d :: p =>
    descends type varKind d &&
      (match d with
        | .c0 => reached c0 p
        | .c1 => reached c1 p
        | .c2 => reached c2 p
        | .next => reached nx p)

/-- The node `VarDecl` of the Int parameter `name` in frame slot `i`. -/
def paramDecl (name : String) (i : Int) : ASTNode :=
  .node .AST_VARDECL .T_INT .V_PARAM i name .null .null .null .null

/-- The node `Program(globals, functions, main)`. -/
def program (globals functions main : ASTNode) : ASTNode :=
  .node .AST_PROGRAM .T_INT .V_GLOBAL 0 "" globals functions main .null

/-- A program with the one function `f(x) { x = 1 }` and no main statements. -/
def oneParamProgram : ASTNode :=
  program .null
    (function "f" (paramDecl "x" 0)
      (.node .AST_ASSIGNMENT .T_INT .V_PARAM 0 "x" (intConst 1) .null .null .null) .null)
    .null

/-- The paths of the nodes `genCodeFromASTree` is invoked on, in the order of the
invocations. -/
def traversal : ASTNode → List (List Dir)
  | .null => []
  | .node type _ varKind _ _ c0 c1 c2 nx =>
    [] ::
    ((match type with
      | .AST_PROGRAM =>
        (traversal c0).map (fun p => .c0 :: p) ++ (traversal c2).map (fun p => .c2 :: p) ++
          (traversal c1).map (fun p => .c1 :: p)
      | .AST_FUNCTION => (traversal c1).map (fun p => .c1 :: p)
      | .AST_FUNCALL => (traversal c0).map (fun p => .c0 :: p)
      | .AST_ARGUMENT => (traversal c0).map (fun p => .c0 :: p)
      | .AST_ASSIGNMENT =>
        (traversal c0).map (fun p => .c0 :: p) ++
          (match varKind with
            | .V_GLARRAY => (traversal c1).map (fun p => .c1 :: p)
            | _ => [])
      | .AST_WHILE =>
        (traversal c1).map (fun p => .c1 :: p) ++ (traversal c0).map (fun p => .c0 :: p)
      | .AST_IFTHEN =>
        (traversal c0).map (fun p => .c0 :: p) ++ (traversal c2).map (fun p => .c2 :: p) ++
          (traversal c1).map (fun p => .c1 :: p)
      | .AST_EXPRESSION =>
        (traversal c0).map (fun p => .c0 :: p) ++ (traversal c1).map (fun p => .c1 :: p)
      | .AST_RELEXPR =>
        (traversal c0).map (fun p => .c0 :: p) ++ (traversal c1).map (fun p => .c1 :: p)
      | .AST_VARREF =>
        (match varKind with
          | .V_GLARRAY => (traversal c0).map (fun p => .c0 :: p)
          | _ => [])
      | _ => []) ++ (traversal nx).map (fun p => .next :: p))

/-- Run through a piece of code keeping the number of open `push` lines: a
`push` line opens one, a `pop` line closes one; `none` when a `pop` line comes
with none open. -/
def balance (push pop : Asm) : List Asm → Nat → Option Nat
  | [], d => some d
  | i :: rest, d =>
    if i = push then balance push pop rest (d + 1)
    else if i = pop then (if d = 0 then none else balance push pop rest (d - 1))
    else balance push pop rest d

/-- Is this a `Function` node? -/
def isFunction : ASTNode → Bool
  | .node .AST_FUNCTION _ _ _ _ _ _ _ _ => true
  | _ => false

/-- The number of `Function` nodes the generator is invoked on. -/
def functionCount : ASTNode → Nat
  | .null => 0
  | .node type _ varKind _ _ c0 c1 c2 nx =>
    (match type with
      | .AST_PROGRAM => functionCount c0 + functionCount c2 + functionCount c1
      | .AST_FUNCTION => 1 + functionCount c1
      | .AST_FUNCALL => functionCount c0
      | .AST_ARGUMENT => functionCount c0
      | .AST_ASSIGNMENT =>
        functionCount c0 +
          (match varKind with | .V_GLARRAY => functionCount c1 | _ => 0)
      | .AST_WHILE => functionCount c1 + functionCount c0
      | .AST_IFTHEN => functionCount c0 + functionCount c2 + functionCount c1
      | .AST_EXPRESSION => functionCount c0 + functionCount c1
      | .AST_RELEXPR => functionCount c0 + functionCount c1
      | .AST_VARREF => (match varKind with | .V_GLARRAY => functionCount c0 | _ => 0)
      | _ => 0) + functionCount nx

/-- The amount a line adds to `sp` when it is an `addi sp, sp, imm`, else 0. -/
def Asm.spStep : Asm → Int
  | .addi .sp .sp imm => imm
  | _ => 0

/-- As `balance`, for the lines `addi sp, sp, -k` (open) and `addi sp, sp, k`
(close). -/
def balanceBy (k : Int) : List Asm → Nat → Option Nat
  | [], d => some d
  | i :: rest, d =>
    if i.spStep = -k then balanceBy k rest (d + 1)
    else if i.spStep = k then (if d = 0 then none else balanceBy k rest (d - 1))
    else balanceBy k rest d

/-! ## Node allocation (`newASTNode`) -/

/-- Modelled from the spec: the number of child slots of a node, which
`astree.h` sets (the header is not among the sources); the data model has
three child slots. -/
def ASTNUMCHILDREN : Nat := 3

/-- Modelled from the spec: the C struct behind an `ASTNode*`, with the fields
`newASTNode` assigns. `strval` is a `char*` (`none` is the null pointer),
`strNeedsFreed` an `int`, `next` and the entries of `child` are node pointers
(`ASTNode.null` is the null pointer). -/
structure ASTNodeRec where
  type : ASTNodeType
  valType : DataType
  varKind : VarKind
  ival : Int
  strval : Option String
  strNeedsFreed : Int
  next : ASTNode
  child : List ASTNode
  deriving DecidableEq, Repr

/-- The loop `for (i=0; i < ASTNUMCHILDREN; i++) node->child[i] = 0;`, from
`i` on, with `n` rounds left. -/
def clearChildren : Nat → Nat → ASTNodeRec → ASTNodeRec
  | 0, _, node => node
  | n + 1, i, node => clearChildren n (i + 1) { node with child := node.child.set i .null }

/-- The C function `newASTNode(type)`. `malloc` is the result of the call
`malloc(sizeof(ASTNode))`: `none` is the null pointer, `some g` a block whose
contents `g` are whatever the memory held. -/
def newASTNode (malloc : Option ASTNodeRec) (type : ASTNodeType) : Option ASTNodeRec :=
  match malloc with
  | none => none
  | some node =>
    let node := { node with type := type }
    let node := { node with valType := .T_INT }
    let node := { node with varKind := .V_GLOBAL }
    let node := { node with ival := 0 }
    let node := { node with strval := none }
    let node := { node with strNeedsFreed := 0 }
    let node := { node with next := .null }
    let node := clearChildren ASTNUMCHILDREN 0 node
    some node

/-! ## The recursive parser (`hw2/recursiveParser.c`) -/

namespace RecursiveParser

/-- One `printf` of the parser. -/
inductive ParseEvent where
  /-- The text `Number of a's: (%d)\nNumber of b's: (%d)\n`. -/
  | counts (countA countB : Int)
  /-- The text `Syntax error at (%c) at (%d)\n`: the lookahead printed with
  `%c` (`none` is `EOF`) and the number `num + 1` (`none` when `num` comes from
  a variable that was never assigned). -/
  | syntaxError (lookahead : Option Char) (num : Option Int)
  deriving DecidableEq, Repr

/-- The state of the process: the global `lookahead` (`none` is `EOF`), the
characters of standard input not read yet, and what was printed so far. -/
structure PState where
  lookahead : Option Char
  stdin : List Char
  out : List ParseEvent
  deriving DecidableEq, Repr

/-- How a call ends: it returns a value in a state, or the process has exited
with a status, having printed `out`. -/
inductive Run (α : Type) where
  | ret (value : α) (s : PState)
  | exit (status : Int) (out : List ParseEvent)
  deriving DecidableEq, Repr

/-- The statement `lookahead = getchar();`: the next character of standard
input, or `EOF` when there is none. -/
def PState.getchar (s : PState) : PState :=
  { s with lookahead := s.stdin.head?, stdin := s.stdin.tail }

/-- The state in which the characters `l` are still to be parsed: the first
is the lookahead, the others are unread (lookahead `EOF` for no characters). -/
def PState.standingAt (l : List Char) (out : List ParseEvent) : PState :=
  ⟨l.head?, l.tail, out⟩

/-- The C function `match(terminal, num)`. -/
def match_ (terminal : Char) (num : Option Int) (s : PState) : Run Unit :=
  if s.lookahead = some terminal then .ret () s.getchar
  else .exit 1 (s.out ++ [.syntaxError s.lookahead (num.map (fun n => n + 1))])

/-- The C function `nontermA()`, with a bound `fuel` on the depth of the
recursion (`none`: the bound was reached). The argument `num` of its call of
`match` is an unassigned variable. -/
def nontermA : Nat → PState → Option (Run Int)
  | 0, _ => none
  | fuel + 1, s =>
    if s.lookahead = some 'a' then
      match match_ 'a' none s with
      | .exit status out => some (.exit status out)
      | .ret _ s =>
        match nontermA fuel s with
        | none => none
        | some (.exit status out) => some (.exit status out)
        | some (.ret r s) => some (.ret (1 + r) s)
    else some (.ret 0 s)

/-- The C function `nontermB(numA)`, with a bound `fuel` on the depth of the
recursion. The argument `num + numA` of its call of `match` is computed from
an unassigned variable. -/
def nontermB : Nat → Int → PState → Option (Run Int)
  | 0, _, _ => none
  | fuel + 1, numA, s =>
    if s.lookahead = some 'b' then
      match match_ 'b' none s with
      | .exit status out => some (.exit status out)
      | .ret _ s =>
        match nontermB fuel numA s with
        | none => none
        | some (.exit status out) => some (.exit status out)
        | some (.ret r s) => some (.ret (1 + r) s)
    else some (.ret 0 s)

/-- The C function `nontermS()`; `depth` bounds the recursion of `nontermA`
and `nontermB`. -/
def nontermS (depth : Nat) (s : PState) : Option (Run Unit) :=
  match nontermA depth s with
  | none => none
  | some (.exit status out) => some (.exit status out)
  | some (.ret countA s) =>
    match nontermB depth countA s with
    | none => none
    | some (.exit status out) => some (.exit status out)
    | some (.ret countB s) =>
      let s := { s with out := s.out ++ [.counts countA countB] }
      some (match_ '\n' (some (countA + countB)) s)

/-- The loop `do { nontermS(); } while (lookahead != EOF);` of `main` followed
by `return 0;`, with a bound `fuel` on the number of rounds. -/
def mainLoop (depth : Nat) : Nat → PState → Option (Run Int)
  | 0, _ => none
  | fuel + 1, s =>
    match nontermS depth s with
    | none => none
    | some (.exit status out) => some (.exit status out)
    | some (.ret _ s) => if s.lookahead ≠ none then mainLoop depth fuel s else some (.ret 0 s)

/-- The C function `main` on the standard input `input`. -/
def main (depth fuel : Nat) (input : List Char) : Option (Run Int) :=
  mainLoop depth fuel (PState.getchar ⟨none, input, []⟩)

/-- The line of `n` letters `a`, then `m` letters `b`, then a newline. -/
def abLine (nm : Nat × Nat) : List Char :=
  List.replicate nm.1 'a' ++ List.replicate nm.2 'b' ++ ['\n']

/-- The lines `abLine` of a list of pairs, one after the other. -/
def abLines : List (Nat × Nat) → List Char
  | [] => []
  | nm :: rest => abLine nm ++ abLines rest

/-- The report `counts n m` the parser prints for the line of `(n, m)`. -/
def report (nm : Nat × Nat) : ParseEvent := .counts nm.1 nm.2

end RecursiveParser

/-! ## The word count of a line (`hw1/hw1.c`) -/

namespace WordCount

/-- Is the character one of the delimiters of the string `" \t\n\r"`? -/
def isDelim (c : Char) : Bool := c = ' ' || c = '\t' || c = '\n' || c = '\r'

/-- The C library function `strtok` with the delimiters `" \t\n\r"`, as the C
standard describes it, on the characters from the position it starts at (the
string passed, or the position saved by the previous call) up to the
terminating NUL. `none` is the null pointer; `some (tok, save)` is a token with
its characters `tok` and the characters `save` from the position saved for the
next call on. -/
def strtok (s : List Char) : Option (List Char × List Char) :=
  match s.dropWhile isDelim with
  | [] => none
  | c :: r =>
    some ((c :: r).takeWhile (fun x => !isDelim x),
      ((c :: r).dropWhile (fun x => !isDelim x)).tail)

/-- The loop `while (tok != NULL) { wordCount++; tok = strtok(NULL, ...); }` of
`processLine` followed by `return wordCount;`, with a bound `fuel` on the
number of rounds (`none`: the bound was reached). -/
def countLoop : Nat → Option (List Char × List Char) → Int → Option Int
  | 0, _, _ => none
  | fuel + 1, tok, wordCount =>
    match tok with
    | none => some wordCount
    | some (_, save) => countLoop fuel (strtok save) (wordCount + 1)

/-- The C function `processLine(str1)` on the characters of `str1` before its
terminating NUL. -/
def processLine (fuel : Nat) (str1 : List Char) : Option Int :=
  let wordCount : Int := 0
  let tok := strtok str1
  if tok = none then some wordCount
  else countLoop fuel tok wordCount

/-- The maximal non-empty runs of non-delimiter characters of a string: the
non-empty pieces between its delimiters. -/
def words (s : List Char) : List (List Char) :=
  (s.splitOnP (fun c => isDelim c)).filter (fun w => !w.isEmpty)

end WordCount

/-! # Theorems -/

/-! ## The fields of a generator state -/

@[simp]
theorem Gen.fprintf_out (g : Gen) (l : List Asm) : (g.fprintf l).out = g.out ++ l := rfl
@[simp]
theorem Gen.fprintf_lid (g : Gen) (l : List Asm) : (g.fprintf l).lid = g.lid := rfl
@[simp]
theorem Gen.fprintf_issued (g : Gen) (l : List Asm) :
    (g.fprintf l).issued = g.issued := rfl
@[simp]
theorem Gen.fprintf_visited (g : Gen) (l : List Asm) :
    (g.fprintf l).visited = g.visited := rfl
@[simp]
theorem Gen.call_out (g : Gen) (d : Dir) (c : Int → Gen) :
    (g.call d c).out = g.out ++ (c g.lid).out := rfl
@[simp]
theorem Gen.call_lid (g : Gen) (d : Dir) (c : Int → Gen) :
    (g.call d c).lid = (c g.lid).lid := rfl
@[simp]
theorem Gen.call_issued (g : Gen) (d : Dir) (c : Int → Gen) :
    (g.call d c).issued = g.issued ++ (c g.lid).issued := rfl
@[simp]
theorem Gen.call_visited (g : Gen) (d : Dir) (c : Int → Gen) :
    (g.call d c).visited = g.visited ++ (c g.lid).visited.map (fun p => d :: p) := rfl
@[simp]
theorem Gen.fprintfCode_out (g : Gen) (code : Option String) :
    (g.fprintfCode code).out = g.out ++ [.arith code .t0 .t1 .t0] := rfl
@[simp]
theorem Gen.fprintfCode_lid (g : Gen) (code : Option String) :
    (g.fprintfCode code).lid = g.lid := rfl
@[simp]
theorem Gen.fprintfCode_issued (g : Gen) (code : Option String) :
    (g.fprintfCode code).issued = g.issued := rfl
@[simp]
theorem Gen.fprintfCode_visited (g : Gen) (code : Option String) :
    (g.fprintfCode code).visited = g.visited := rfl
@[simp]
theorem Gen.fprintfCode_undefined (g : Gen) (code : Option String) :
    (g.fprintfCode code).undefined = (g.undefined || code.isNone) := rfl
@[simp]
theorem Gen.fprintf_undefined (g : Gen) (l : List Asm) :
    (g.fprintf l).undefined = g.undefined := rfl
@[simp]
theorem Gen.call_undefined (g : Gen) (d : Dir) (c : Int → Gen) :
    (g.call d c).undefined = (g.undefined || (c g.lid).undefined) := rfl
@[simp]
theorem Gen.enter_undefined (lid : Int) : (Gen.enter lid).undefined = false := rfl
@[simp]
theorem getUniqueLabelID_undefined (g : Gen) :
    (getUniqueLabelID g).2.undefined = g.undefined := rfl

/-- A value in the range of an `int` is left as it is. -/
theorem wrapInt_eq (x : Int) (h0 : -2147483648 ≤ x) (h1 : x < 2147483648) : wrapInt x = x := by
  unfold wrapInt
  omega

@[simp]
theorem Gen.enter_out (lid : Int) : (Gen.enter lid).out = [] := rfl
@[simp]
theorem Gen.enter_lid (lid : Int) : (Gen.enter lid).lid = lid := rfl
@[simp]
theorem Gen.enter_issued (lid : Int) : (Gen.enter lid).issued = [] := rfl
@[simp]
theorem Gen.enter_visited (lid : Int) : (Gen.enter lid).visited = [[]] := rfl
@[simp]
theorem getUniqueLabelID_fst (g : Gen) : (getUniqueLabelID g).1 = g.lid := rfl
@[simp]
theorem getUniqueLabelID_out (g : Gen) : (getUniqueLabelID g).2.out = g.out := rfl
@[simp]
theorem getUniqueLabelID_lid (g : Gen) : (getUniqueLabelID g).2.lid = g.lid + 1 := rfl
@[simp]
theorem getUniqueLabelID_issued (g : Gen) :
    (getUniqueLabelID g).2.issued = g.issued ++ [g.lid] := rfl
@[simp]
theorem getUniqueLabelID_visited (g : Gen) :
    (getUniqueLabelID g).2.visited = g.visited := rfl

/-- The label counter after generating a tree. -/
theorem gen_lid (t : ASTNode) : ∀ h lid : Int,
    (genCodeFromASTree t h lid).lid = lid + (labelCount t : Int) := by
  induction t with
  | null => intro h lid; simp [genCodeFromASTree, Gen.skip, labelCount]
  | node ty vt vk iv sv c0 c1 c2 nx ih0 ih1 ih2 ihn =>
    intro h lid
    cases ty
    case AST_VARDECL =>
      cases vt <;> cases vk <;> simp [genCodeFromASTree, labelCount, ihn]
    case AST_ASSIGNMENT =>
      cases vk <;> simp [genCodeFromASTree, labelCount, ih0, ih1, ihn] <;> omega
    case AST_VARREF =>
      cases vk <;> simp [genCodeFromASTree, labelCount, ih0, ihn]
      omega
    case AST_CONSTANT =>
      cases vt <;> simp [genCodeFromASTree, labelCount, ihn]
    all_goals
      simp [genCodeFromASTree, labelCount, ih0, ih1, ih2, ihn]
      try omega

/-! ## The machine -/

@[simp]
theorem Machine.setReg_pc (s : Machine) (r : Reg) (v : Word) :
    (s.setReg r v).pc = s.pc := rfl
@[simp]
theorem Machine.setReg_mem (s : Machine) (r : Reg) (v : Word) :
    (s.setReg r v).mem = s.mem := rfl
@[simp]
theorem Machine.setReg_reg (s : Machine) (r : Reg) (v : Word) (x : Reg) :
    (s.setReg r v).reg x = if x = r then v else s.reg x := rfl
@[simp]
theorem Machine.store_pc (s : Machine) (a v : Word) : (s.store a v).pc = s.pc := rfl
@[simp]
theorem Machine.store_reg (s : Machine) (a v : Word) : (s.store a v).reg = s.reg := rfl
@[simp]
theorem Machine.store_mem (s : Machine) (a v x : Word) :
    (s.store a v).mem x = if x = a then v else s.mem x := rfl
@[simp]
theorem Machine.advance_pc (s : Machine) : s.advance.pc = s.pc + 1 := rfl
@[simp]
theorem Machine.advance_reg (s : Machine) : s.advance.reg = s.reg := rfl
@[simp]
theorem Machine.advance_mem (s : Machine) : s.advance.mem = s.mem := rfl

theorem steps_add (addr : String → Word) (prog : List Asm) (m n : Nat) :
    ∀ s : Machine, steps addr prog (m + n) s =
      (match steps addr prog m s with
        | some s1 => steps addr prog n s1
        | none => none) := by
  induction m with
  | zero => intro s; simp [steps]
  | succ m ih =>
    intro s
    rw [Nat.add_right_comm]
    simp only [steps]
    cases hs : step addr prog s with
    | none => rfl
    | some s1 => exact ih s1

theorem run_of_steps (addr : String → Word) (prog : List Asm) (n : Nat) :
    ∀ (s s' : Machine) (fuel : Nat), steps addr prog n s = some s' →
      s'.pc = prog.length → n ≤ fuel → run addr prog fuel s = some s' := by
  induction n with
  | zero =>
    intro s s' fuel hs hpc _
    simp only [steps, Option.some.injEq] at hs
    subst hs
    cases fuel <;> simp [run, hpc]
  | succ n ih =>
    intro s s' fuel hs hpc hle
    simp only [steps] at hs
    cases h1 : step addr prog s with
    | none => simp [h1] at hs
    | some s1 =>
      simp only [h1] at hs
      have hne : s.pc ≠ prog.length := by
        intro h
        simp [step, h] at h1
      obtain ⟨f, rfl⟩ : ∃ f, fuel = f + 1 := ⟨fuel - 1, by omega⟩
      simp only [run, hne, if_false, h1]
      exact ih s1 s' f hs hpc (by omega)

theorem codeAt_append (prog : List Asm) (a b : List Asm) :
    ∀ pc, CodeAt prog pc (a ++ b) ↔ CodeAt prog pc a ∧ CodeAt prog (pc + a.length) b := by
  induction a with
  | nil => intro pc; simp [CodeAt]
  | cons i a ih =>
    intro pc
    have h := ih (pc + 1)
    have e : pc + 1 + a.length = pc + (a.length + 1) := by omega
    rw [e] at h
    show (prog[pc]? = some i ∧ CodeAt prog (pc + 1) (a ++ b)) ↔
      (prog[pc]? = some i ∧ CodeAt prog (pc + 1) a) ∧ CodeAt prog (pc + (a.length + 1)) b
    rw [h, and_assoc]

theorem codeAt_middle (code post : List Asm) :
    ∀ pre : List Asm, CodeAt (pre ++ code ++ post) pre.length code := by
  induction code with
  | nil => intro pre; trivial
  | cons i code ih =>
    intro pre
    refine ⟨?_, ?_⟩
    · have e : pre ++ i :: code ++ post = pre ++ (i :: (code ++ post)) := by simp
      rw [e, List.getElem?_append_right (le_refl _)]
      simp
    · have h := ih (pre ++ [i])
      simpa using h

theorem codeAt_self (prog : List Asm) : CodeAt prog 0 prog := by
  have h := codeAt_middle prog [] []
  simpa using h

theorem execLine_straight (addr : String → Word) (prog : List Asm) (i : Asm) (s : Machine)
    (hi : i.straight = true) : execLine addr prog i s = execLine addr [] i s := by
  cases i <;> simp [Asm.straight] at hi <;> rfl

theorem execLine_straight_pc (addr : String → Word) (i : Asm) (s s1 : Machine)
    (hi : i.straight = true) (h : execLine addr [] i s = some s1) : s1.pc = s.pc + 1 := by
  cases i <;> simp [Asm.straight] at hi <;> simp [execLine] at h <;> try (subst h; rfl)
  split_ifs at h <;> simp at h <;> subst h <;> rfl

theorem steps_straight (addr : String → Word) (prog : List Asm) (code : List Asm) :
    ∀ s : Machine, (∀ i ∈ code, i.straight = true) → CodeAt prog s.pc code →
      steps addr prog code.length s = execSeq addr code s := by
  induction code with
  | nil => intro s _ _; rfl
  | cons i code ih =>
    intro s hst hc
    have hi : i.straight = true := hst i (by simp)
    obtain ⟨hget, hrest⟩ := hc
    simp only [List.length_cons, steps, step, hget, execSeq, execLine_straight addr prog i s hi]
    cases h1 : execLine addr [] i s with
    | none => rfl
    | some s1 =>
      have hpc := execLine_straight_pc addr i s s1 hi h1
      simp only
      apply ih s1 (fun j hj => hst j (by simp [hj]))
      rw [hpc]; exact hrest

theorem execSeq_append (addr : String → Word) (a b : List Asm) :
    ∀ s : Machine, execSeq addr (a ++ b) s =
      (match execSeq addr a s with
        | some s1 => execSeq addr b s1
        | none => none) := by
  induction a with
  | nil => intro s; rfl
  | cons i a ih =>
    intro s
    simp only [List.cons_append, execSeq]
    cases h1 : execLine addr [] i s with
    | none => rfl
    | some s1 => exact ih s1

/-! ## Arithmetic expressions -/

theorem gen_const_out (vk : VarKind) (iv : Int) (sv : String) (c0 c1 c2 : ASTNode)
    (h lid : Int) :
    (genCodeFromASTree (.node .AST_CONSTANT .T_INT vk iv sv c0 c1 c2 .null) h lid).out =
      [.li .t0 iv] := by
  simp [genCodeFromASTree, Gen.skip]

theorem gen_expr_out (vt : DataType) (vk : VarKind) (iv : Int) (sv : String)
    (c0 c1 c2 : ASTNode) (h lid : Int) :
    (genCodeFromASTree (.node .AST_EXPRESSION vt vk iv sv c0 c1 c2 .null) h lid).out =
      [.comment "\t#--Binary OP Expression: ",
        .comment (if iv = 43 then "(+)--\n" else "(-)--\n")] ++
      (genCodeFromASTree c0 h lid).out ++ pushT0 ++
      (genCodeFromASTree c1 h (lid + labelCount c0)).out ++
      [.lw .t1 0 .sp, .addi .sp .sp 4] ++
      (if iv = 43 ∨ iv = 45 then [] else [.diag "unknown ADDOP\n"]) ++
      [.arith (if iv = 43 then some "add" else if iv = 45 then some "sub" else none)
        .t0 .t1 .t0] := by
  simp [genCodeFromASTree, Gen.skip, gen_lid]

theorem arith_straight (e : ASTNode) : ∀ h lid : Int, isArith e = true →
    ∀ i ∈ (genCodeFromASTree e h lid).out, i.straight = true := by
  induction e with
  | null => intro h lid he; simp [isArith] at he
  | node ty vt vk iv sv c0 c1 c2 nx ih0 ih1 _ _ =>
    intro h lid he
    cases ty <;> simp [isArith] at he
    case AST_CONSTANT =>
      obtain ⟨rfl, rfl⟩ := he
      rw [gen_const_out]
      simp [Asm.straight]
    case AST_EXPRESSION =>
      obtain ⟨⟨⟨hop, rfl⟩, h0⟩, h1⟩ := he
      rw [gen_expr_out]
      simp only [hop, if_true, List.append_nil, List.forall_mem_append]
      refine ⟨⟨⟨⟨⟨?_, ih0 h lid h0⟩, ?_⟩, ih1 h _ h1⟩, ?_⟩, ?_⟩
      · intro i hi; simp at hi; rcases hi with rfl | rfl <;> rfl
      · intro i hi; simp [pushT0] at hi; rcases hi with rfl | rfl <;> rfl
      · intro i hi; simp at hi; rcases hi with rfl | rfl <;> rfl
      · intro i hi; simp at hi; subst hi; rfl

theorem ofInt_neg4_val : (Word.ofInt (-4)).val = 4294967292 := by decide

theorem ofInt_4_val : (Word.ofInt 4).val = 4 := by decide

theorem ofInt_0_val : (Word.ofInt 0).val = 0 := by decide

theorem Word.add_val (x y : Word) : (x.add y).val = (x.val + y.val) % 4294967296 := rfl

theorem Word.add_ofInt_zero (x : Word) : x.add (Word.ofInt 0) = x := by
  apply Fin.ext
  have := x.isLt
  simp only [Word.add_val, ofInt_0_val]
  omega

/-- What the code of an arithmetic expression does: `t0` gets the value, every
register but `t0` and `t1` is kept, and so is every memory word outside the
stack words below `sp` that the evaluation uses. -/
theorem execSeq_arith (addr : String → Word) (e : ASTNode) :
    ∀ (h lid : Int) (s : Machine), isArith e = true → stackWords e ≤ 1073741824 →
      ∃ s', execSeq addr (genCodeFromASTree e h lid).out s = some s' ∧
        s'.pc = s.pc + (genCodeFromASTree e h lid).out.length ∧
        s'.reg .t0 = evalArith e ∧
        (∀ r, r ≠ .t0 → r ≠ .t1 → s'.reg r = s.reg r) ∧
        (∀ a : Word,
          (∀ k, 1 ≤ k → k ≤ stackWords e →
            a.val ≠ ((s.reg .sp).val + 4294967296 - 4 * k) % 4294967296) →
          s'.mem a = s.mem a) := by
  induction e with
  | null => intro h lid s he; simp [isArith] at he
  | node ty vt vk iv sv c0 c1 c2 nx ih0 ih1 _ _ =>
    intro h lid s he hroom
    cases ty <;> simp [isArith] at he
    case AST_CONSTANT =>
      obtain ⟨rfl, rfl⟩ := he
      rw [gen_const_out]
      refine ⟨(s.setReg .t0 (Word.ofInt iv)).advance, rfl, rfl, ?_, ?_, ?_⟩
      · simp [evalArith]
      · intro r h0 _; simp [h0]
      · intro a _; rfl
    case AST_EXPRESSION =>
      obtain ⟨⟨⟨hop, rfl⟩, h0⟩, h1⟩ := he
      simp only [stackWords] at hroom
      have hr0 : stackWords c0 ≤ 1073741824 := by omega
      have hr1 : stackWords c1 < 1073741824 := by omega
      rw [gen_expr_out]
      simp only [hop, if_true, List.append_nil]
      obtain ⟨sa, hsa, hpa, hta, hra, hma⟩ := ih0 h lid (s.advance.advance) h0 hr0
      have hspa : sa.reg .sp = s.reg .sp := hra .sp (by decide) (by decide)
      let sp1 : Word := (s.reg .sp).add (Word.ofInt (-4))
      have hsp1 : sp1.val = ((s.reg .sp).val + 4294967292) % 4294967296 := by
        simp only [sp1, Word.add_val, ofInt_neg4_val]
      let sb : Machine := ((sa.setReg .sp sp1).advance.store sp1 (sa.reg .t0)).advance
      have e2 : execSeq addr pushT0 sa = some sb := by
        simp only [pushT0, execSeq, execLine, Machine.advance_reg, Machine.setReg_reg,
          if_true, hspa, Word.add_ofInt_zero, sb, sp1]
        rfl
      obtain ⟨sc, hsc, hpc, htc, hrc, hmc⟩ := ih1 h (lid + labelCount c0) sb h1 (by omega)
      have hsb_sp : sb.reg .sp = sp1 := by simp [sb]
      have hspc : sc.reg .sp = sp1 := by rw [hrc .sp (by decide) (by decide), hsb_sp]
      have hsp := (s.reg .sp).isLt
      have hmem1 : sc.mem sp1 = evalArith c0 := by
        rw [hmc sp1]
        · simp [sb, hta]
        · intro k hk1 hk2
          rw [hsb_sp]
          have := sp1.isLt
          omega
      let opv : Word := if iv = 43 then (evalArith c0).add (evalArith c1)
        else (evalArith c0).sub (evalArith c1)
      let sd : Machine :=
        ((sc.setReg .t1 (evalArith c0)).advance.setReg .sp (s.reg .sp)).advance
      have e3 : execSeq addr [.lw .t1 0 .sp, .addi .sp .sp 4] sc = some sd := by
        have hback : sp1.add (Word.ofInt 4) = s.reg .sp := by
          apply Fin.ext
          simp only [Word.add_val, ofInt_4_val, hsp1]
          omega
        simp only [execSeq, execLine, Machine.advance_reg, Machine.setReg_reg, if_true, hspc,
          Word.add_ofInt_zero, hmem1, sd]
        rw [if_neg (by decide), hback]
      have e4 : execSeq addr
          [.arith (if iv = 43 then some "add" else if iv = 45 then some "sub" else none)
            .t0 .t1 .t0] sd = some (sd.setReg .t0 opv).advance := by
        have ht1 : sd.reg .t1 = evalArith c0 := by simp [sd]
        have ht0 : sd.reg .t0 = evalArith c1 := by simp [sd, htc]
        rcases hop with rfl | rfl <;> simp [execSeq, execLine, ht0, ht1, opv]
      refine ⟨(sd.setReg .t0 opv).advance, ?_, ?_, ?_, ?_, ?_⟩
      · simp only [execSeq_append, hsa, e2, hsc, e3, e4]
        have e1 : ∀ c1 c2 : String, execSeq addr [.comment c1, .comment c2] s =
            some s.advance.advance := fun _ _ => rfl
        rw [e1]
        simp only [hsa, e2, hsc, e3, e4]
      · simp only [Machine.advance_pc, Machine.setReg_pc, sd, hpc, sb, Machine.store_pc, hpa,
          List.length_append, List.length_cons, List.length_nil, pushT0]
        omega
      · simp [opv, evalArith]
      · intro r hr0' hr1'
        simp only [Machine.advance_reg, Machine.setReg_reg, hr0', hr1', if_false, sd]
        by_cases hsp' : r = .sp
        · simp [hsp']
        · simp only [hsp', if_false]
          rw [hrc r hr0' hr1']
          simp only [sb, Machine.advance_reg, Machine.store_reg, Machine.setReg_reg, hsp',
            if_false]
          rw [hra r hr0' hr1']
          rfl
      · intro a ha
        simp only [Machine.advance_mem, Machine.setReg_mem, sd]
        have ha1 : a ≠ sp1 := by
          intro heq
          have := ha 1 (le_refl _) (by simp [stackWords])
          rw [heq, hsp1] at this
          omega
        rw [hmc a]
        · simp only [sb, Machine.advance_mem, Machine.store_mem, ha1, if_false,
            Machine.setReg_mem]
          rw [hma a]
          · rfl
          · intro k hk1 hk2
            exact ha k hk1 (by simp [stackWords]; omega)
        · intro k hk1 hk2
          rw [hsb_sp, hsp1]
          have := ha (k + 1) (by omega) (by simp [stackWords]; omega)
          omega

/-- C1: for an arithmetic expression tree (Int constants and `+`/`-` binary
expressions, no siblings), running its code to the end leaves the value of the
expression in `t0` and `sp` as it was. The word stack of the machine is its
memory below `sp`; `hroom` says that it holds the words the code has pushed at
any one time (2^30 words are the whole 32-bit address space). -/
theorem arith_expr_correct (addr : String → Word) (e : ASTNode) (h lid : Int) (s : Machine)
    (he : isArith e = true) (hroom : stackWords e ≤ 1073741824) (hpc : s.pc = 0) :
    ∃ s', run addr (genCodeFromASTree e h lid).out
        (genCodeFromASTree e h lid).out.length s = some s' ∧
      s'.reg .t0 = evalArith e ∧ s'.reg .sp = s.reg .sp := by
  obtain ⟨s', hs, hpc', ht, hr, _⟩ := execSeq_arith addr e h lid s he hroom
  refine ⟨s', ?_, ht, hr .sp (by decide) (by decide)⟩
  apply run_of_steps addr _ _ s s' _ _ (by rw [hpc', hpc, Nat.zero_add]) (le_refl _)
  rw [steps_straight addr _ _ s (arith_straight e h lid he) (by rw [hpc]; exact codeAt_self _)]
  exact hs

/-- C1 at `3 + 4`: the code leaves 7 in `t0`. -/
theorem arith_expr_correct_witness :
    ∃ s', run (fun _ => 0) (genCodeFromASTree sumThreeFour 0 100).out
        (genCodeFromASTree sumThreeFour 0 100).out.length
        ⟨0, fun r => if r = .sp then 2147479552 else 0, fun _ => 0⟩ = some s' ∧
      s'.reg .t0 = 7 ∧ s'.reg .sp = 2147479552 :=
  arith_expr_correct (fun _ => 0) sumThreeFour 0 100
    ⟨0, fun r => if r = .sp then 2147479552 else 0, fun _ => 0⟩ (by decide) (by decide) rfl

/-! ## Assignment to an array element -/

theorem gen_assign_array_out (vt : DataType) (iv : Int) (name : String)
    (rhs idx c2 : ASTNode) (h lid : Int) :
    (genCodeFromASTree (.node .AST_ASSIGNMENT vt .V_GLARRAY iv name rhs idx c2 .null) h lid).out =
      [.comment "\t#--assignment--\n"] ++ (genCodeFromASTree rhs 0 lid).out ++
      [.comment "\t#--Array--\n", .cmtIndex iv] ++ pushT0 ++
      (genCodeFromASTree idx 0 (lid + labelCount rhs)).out ++
      [.slli .t0 .t0 2, .la .t1 name, .arith (some "add") .t1 .t1 .t0, .lw .t0 0 .sp,
        .addi .sp .sp 4, .sw .t0 0 .t1] := by
  simp [genCodeFromASTree, Gen.skip, gen_lid]

/-- C2: for an assignment to an element of a global array whose right-hand
side and index are arithmetic expression trees, running the code to the end
stores the value of the right-hand side in the word at address
`base + 4 * index` (modulo 2^32) and leaves `sp` as it was, whatever the index
code does to `t0` and `t1`. As in C1, `hroom1` and `hroom2` say that the memory
below `sp` holds the words pushed at any one time: those of the right-hand
side, and the saved right-hand side with those of the index. -/
theorem array_assign_correct (addr : String → Word) (vt : DataType) (iv : Int)
    (name : String) (rhs idx c2 : ASTNode) (h lid : Int) (s : Machine)
    (hrhs : isArith rhs = true) (hidx : isArith idx = true)
    (hroom1 : stackWords rhs ≤ 1073741824) (hroom2 : 1 + stackWords idx ≤ 1073741824)
    (hpc : s.pc = 0) :
    ∃ s', run addr
        (genCodeFromASTree (.node .AST_ASSIGNMENT vt .V_GLARRAY iv name rhs idx c2 .null)
          h lid).out
        (genCodeFromASTree (.node .AST_ASSIGNMENT vt .V_GLARRAY iv name rhs idx c2 .null)
          h lid).out.length s = some s' ∧
      (∀ a : Word, a.val = ((addr name).val + 4 * (evalArith idx).val) % 4294967296 →
        s'.mem a = evalArith rhs) ∧
      s'.reg .sp = s.reg .sp := by
  obtain ⟨sa, hsa, hpa, hta, hra, _⟩ := execSeq_arith addr rhs 0 lid s.advance hrhs hroom1
  have hspa : sa.reg .sp = s.reg .sp := hra .sp (by decide) (by decide)
  let sp1 : Word := (s.reg .sp).add (Word.ofInt (-4))
  have hsp1 : sp1.val = ((s.reg .sp).val + 4294967292) % 4294967296 := by
    simp only [sp1, Word.add_val, ofInt_neg4_val]
  let sb : Machine :=
    ((sa.advance.advance.setReg .sp sp1).advance.store sp1 (sa.reg .t0)).advance
  have e2 : execSeq addr pushT0 sa.advance.advance = some sb := by
    simp only [pushT0, execSeq, execLine, Machine.advance_reg, Machine.setReg_reg,
      if_true, hspa, Word.add_ofInt_zero, sb, sp1]
    rfl
  obtain ⟨sc, hsc, hpc', htc, hrc, hmc⟩ :=
    execSeq_arith addr idx 0 (lid + labelCount rhs) sb hidx (by omega)
  have hsb_sp : sb.reg .sp = sp1 := by simp [sb]
  have hspc : sc.reg .sp = sp1 := by rw [hrc .sp (by decide) (by decide), hsb_sp]
  have hsp := (s.reg .sp).isLt
  have hmem1 : sc.mem sp1 = evalArith rhs := by
    rw [hmc sp1]
    · simp [sb, hta]
    · intro k hk1 hk2
      rw [hsb_sp]
      have := sp1.isLt
      omega
  have hback : sp1.add (Word.ofInt 4) = s.reg .sp := by
    apply Fin.ext
    simp only [Word.add_val, ofInt_4_val, hsp1]
    omega
  let tgt : Word := (addr name).add ((evalArith idx).shl 2)
  let sd : Machine :=
    ((((((sc.setReg .t0 ((evalArith idx).shl 2)).advance.setReg .t1 (addr name)).advance.setReg
      .t1 tgt).advance.setReg .t0 (evalArith rhs)).advance.setReg .sp
        (s.reg .sp)).advance.store tgt (evalArith rhs)).advance
  have e3 : execSeq addr [.slli .t0 .t0 2, .la .t1 name, .arith (some "add") .t1 .t1 .t0,
      .lw .t0 0 .sp, .addi .sp .sp 4, .sw .t0 0 .t1] sc = some sd := by
    simp [execSeq, execLine, hspc, htc, Word.add_ofInt_zero, hmem1, hback, sd, tgt]
  have hall : execSeq addr
      (genCodeFromASTree (.node .AST_ASSIGNMENT vt .V_GLARRAY iv name rhs idx c2 .null)
        h lid).out s = some sd := by
    rw [gen_assign_array_out]
    have e0 : execSeq addr [.comment "\t#--assignment--\n"] s = some s.advance := rfl
    have e1 : execSeq addr [.comment "\t#--Array--\n", .cmtIndex iv] sa =
        some sa.advance.advance := rfl
    simp only [execSeq_append, e0, hsa, e1, e2, hsc, e3]
  have hstraight : ∀ i ∈ (genCodeFromASTree
      (.node .AST_ASSIGNMENT vt .V_GLARRAY iv name rhs idx c2 .null) h lid).out,
      i.straight = true := by
    rw [gen_assign_array_out]
    simp only [List.forall_mem_append]
    refine ⟨⟨⟨⟨⟨?_, arith_straight rhs 0 lid hrhs⟩, ?_⟩, ?_⟩, arith_straight idx 0 _ hidx⟩, ?_⟩
    · intro i hi; simp at hi; subst hi; rfl
    · intro i hi; simp at hi; rcases hi with rfl | rfl <;> rfl
    · intro i hi; simp [pushT0] at hi; rcases hi with rfl | rfl <;> rfl
    · intro i hi; simp at hi
      rcases hi with rfl | rfl | rfl | rfl | rfl | rfl <;> rfl
  have hpcd : sd.pc = (genCodeFromASTree
      (.node .AST_ASSIGNMENT vt .V_GLARRAY iv name rhs idx c2 .null) h lid).out.length := by
    rw [gen_assign_array_out]
    simp only [sd, Machine.advance_pc, Machine.setReg_pc, Machine.store_pc, hpc', sb, hpa, hpc,
      List.length_append, List.length_cons, List.length_nil, pushT0]
  refine ⟨sd, ?_, ?_, ?_⟩
  · apply run_of_steps addr _ _ s sd _ _ hpcd (le_refl _)
    rw [steps_straight addr _ _ s hstraight (by rw [hpc]; exact codeAt_self _)]
    exact hall
  · intro a ha
    have hat : a = tgt := by
      apply Fin.ext
      rw [ha]
      show _ = ((addr name).val + ((evalArith idx).val * 2 ^ 2) % 4294967296) % 4294967296
      omega
    rw [hat]
    simp [sd]
  · simp [sd]

/-- C2 at right-hand side `9` and index `1 + 1`: the code stores 9 at byte
offset 8 from the base of `arr`. -/
theorem array_assign_correct_witness :
    ∃ s', run (fun _ => 4096)
        (genCodeFromASTree (arrayAssign "arr" (intConst 9)
          (binExpr 43 (intConst 1) (intConst 1))) 0 100).out
        (genCodeFromASTree (arrayAssign "arr" (intConst 9)
          (binExpr 43 (intConst 1) (intConst 1))) 0 100).out.length
        ⟨0, fun r => if r = .sp then 2147479552 else 0, fun _ => 0⟩ = some s' ∧
      s'.mem 4104 = 9 ∧ s'.reg .sp = 2147479552 := by
  obtain ⟨s', h1, h2, h3⟩ := array_assign_correct (fun _ => 4096) .T_INT 0 "arr" (intConst 9)
    (binExpr 43 (intConst 1) (intConst 1)) .null 0 100
    ⟨0, fun r => if r = .sp then 2147479552 else 0, fun _ => 0⟩
    (by decide) (by decide) (by decide) (by decide) rfl
  exact ⟨s', h1, h2 4104 (by decide), h3⟩

/-! ## The counting loop -/

theorem countingLoop_out (i : String) (c h lid : Int) :
    (genCodeFromASTree (countingLoop i c) h lid).out =
      [.comment "\t#--While loop--\n", .b (lid + 1)] ++
      [.label lid, .comment "\t#--body--\n"] ++
      [.comment "\t#--assignment--\n", .comment "\t#--Binary OP Expression: ",
        .comment "(+)--\n", .lwSym .t0 i, .addi .sp .sp (-4), .sw .t0 0 .sp, .li .t0 1,
        .lw .t1 0 .sp, .addi .sp .sp 4, .arith (some "add") .t0 .t1 .t0, .swSym .t0 i .t1,
        .comment "\t#--condition--\n"] ++
      [.label (lid + 1)] ++
      [.cmtRelExpr 60, .lwSym .t0 i, .addi .sp .sp (-4), .sw .t0 0 .sp, .li .t0 c,
        .lw .t1 0 .sp, .addi .sp .sp 4] ++
      [.branch "blt" .t1 .t0 lid] ++ [.comment "\t#--endloop--\n"] := by
  simp [countingLoop, whileLoop, relExpr, globalRef, intConst, globalAssign, binExpr,
    genCodeFromASTree, Gen.skip, pushT0]

theorem runCount_step (addr : String → Word) (prog : List Asm) (line fuel : Nat)
    (s s1 : Machine) (h1 : step addr prog s = some s1) :
    runCount addr prog line (fuel + 1) s =
      (match runCount addr prog line fuel s1 with
        | some (s2, k) => some (s2, if s.pc = line then k + 1 else k)
        | none => none) := by
  have hne : s.pc ≠ prog.length := by
    intro h
    simp [step, h] at h1
  simp only [runCount, hne, if_false, h1]

theorem runCount_straight (addr : String → Word) (prog : List Asm) (line : Nat)
    (code : List Asm) :
    ∀ (s s1 : Machine) (fuel : Nat), (∀ i ∈ code, i.straight = true) →
      CodeAt prog s.pc code → execSeq addr code s = some s1 →
      runCount addr prog line (code.length + fuel) s =
        (match runCount addr prog line fuel s1 with
          | some (s2, k) =>
            some (s2, if s.pc ≤ line ∧ line < s.pc + code.length then k + 1 else k)
          | none => none) := by
  induction code with
  | nil =>
    intro s s1 fuel _ _ he
    simp only [execSeq, Option.some.injEq] at he
    subst he
    simp only [List.length_nil, Nat.zero_add, Nat.add_zero]
    cases runCount addr prog line fuel s with
    | none => rfl
    | some p =>
      have : ¬ (s.pc ≤ line ∧ line < s.pc) := by omega
      simp [this]
  | cons i code ih =>
    intro s s1 fuel hst hc he
    have hi : i.straight = true := hst i (by simp)
    obtain ⟨hget, hrest⟩ := hc
    simp only [execSeq] at he
    cases h1 : execLine addr [] i s with
    | none => simp [h1] at he
    | some sm =>
      simp only [h1] at he
      have hpc := execLine_straight_pc addr i s sm hi h1
      have hstep : step addr prog s = some sm := by
        simp only [step, hget, execLine_straight addr prog i s hi, h1]
      have e : (i :: code).length + fuel = (code.length + fuel) + 1 := by
        simp only [List.length_cons]; omega
      rw [e, runCount_step addr prog line _ s sm hstep,
        ih sm s1 fuel (fun j hj => hst j (by simp [hj])) (by rw [hpc]; exact hrest) he]
      cases runCount addr prog line fuel s1 with
      | none => rfl
      | some p =>
        simp only [hpc, List.length_cons]
        by_cases ha : s.pc = line
        · have : ¬ (s.pc + 1 ≤ line ∧ line < s.pc + 1 + code.length) := by omega
          have hb : s.pc ≤ line ∧ line < s.pc + (code.length + 1) := by omega
          simp [ha, this, hb]
        · by_cases hb : s.pc + 1 ≤ line ∧ line < s.pc + 1 + code.length
          · have hb' : s.pc ≤ line ∧ line < s.pc + (code.length + 1) := by omega
            simp [ha, hb, hb']
          · have hb' : ¬ (s.pc ≤ line ∧ line < s.pc + (code.length + 1)) := by omega
            simp [ha, hb, hb']

theorem Word.toInt_ofInt (c : Int) (h1 : -2147483648 ≤ c) (h2 : c < 2147483648) :
    (Word.ofInt c).toInt = c := by
  simp only [Word.toInt, Word.ofInt]
  split_ifs <;> omega

theorem Word.toInt_add_one (w : Word) (h : w.toInt < 2147483647) :
    (w.add (Word.ofInt 1)).toInt = w.toInt + 1 := by
  have hw := w.isLt
  have h1 : (Word.ofInt 1).val = 1 := by decide
  simp only [Word.toInt, Word.add_val, h1] at *
  split_ifs at * <;> omega

theorem Word.toInt_inj (x y : Word) (h : x.toInt = y.toInt) : x = y := by
  apply Fin.ext
  have hx := x.isLt
  have hy := y.isLt
  simp only [Word.toInt] at h
  split_ifs at h <;> omega

/-- The lines of the counting loop from the body label to the condition label. -/
theorem loop_body_seg (addr : String → Word) (i : String) (lid : Int) (s : Machine) :
    ∃ s1, execSeq addr
        [.label lid, .comment "\t#--body--\n",
          .comment "\t#--assignment--\n", .comment "\t#--Binary OP Expression: ",
          .comment "(+)--\n", .lwSym .t0 i, .addi .sp .sp (-4), .sw .t0 0 .sp, .li .t0 1,
          .lw .t1 0 .sp, .addi .sp .sp 4, .arith (some "add") .t0 .t1 .t0, .swSym .t0 i .t1,
          .comment "\t#--condition--\n"] s = some s1 ∧
      s1.pc = s.pc + 14 ∧ s1.mem (addr i) = (s.mem (addr i)).add (Word.ofInt 1) ∧
      s1.reg .sp = s.reg .sp := by
  have hsp := (s.reg .sp).isLt
  have hback : ((s.reg .sp).add (Word.ofInt (-4))).add (Word.ofInt 4) = s.reg .sp := by
    apply Fin.ext
    simp only [Word.add_val, ofInt_4_val, ofInt_neg4_val]
    omega
  refine ⟨_, rfl, ?_, ?_, ?_⟩
  · simp [Nat.add_assoc]
  · simp [Word.add_ofInt_zero]
  · simp [Word.add_ofInt_zero, hback]

/-- The lines of the counting loop from the condition label to the branch. -/
theorem loop_cond_seg (addr : String → Word) (i : String) (c lid : Int) (s : Machine) :
    ∃ s1, execSeq addr
        [.label (lid + 1), .cmtRelExpr 60, .lwSym .t0 i, .addi .sp .sp (-4), .sw .t0 0 .sp,
          .li .t0 c, .lw .t1 0 .sp, .addi .sp .sp 4] s = some s1 ∧
      s1.pc = s.pc + 8 ∧ s1.mem (addr i) = s.mem (addr i) ∧
      s1.reg .t1 = s.mem (addr i) ∧ s1.reg .t0 = Word.ofInt c ∧
      s1.reg .sp = s.reg .sp := by
  have hsp := (s.reg .sp).isLt
  have hback : ((s.reg .sp).add (Word.ofInt (-4))).add (Word.ofInt 4) = s.reg .sp := by
    apply Fin.ext
    simp only [Word.add_val, ofInt_4_val, ofInt_neg4_val]
    omega
  refine ⟨_, rfl, ?_, ?_, ?_, ?_, ?_⟩
  · simp [Nat.add_assoc]
  · simp [Word.add_ofInt_zero]
  · simp [Word.add_ofInt_zero]
  · simp
  · simp [Word.add_ofInt_zero, hback]

theorem counting_loop_iter (addr : String → Word) (i : String) (c lid : Int)
    (hc1 : -2147483648 ≤ c) (hc2 : c < 2147483648) (prog : List Asm)
    (hprog : prog =
      [.comment "\t#--While loop--\n", .b (lid + 1)] ++
      [.label lid, .comment "\t#--body--\n",
        .comment "\t#--assignment--\n", .comment "\t#--Binary OP Expression: ",
        .comment "(+)--\n", .lwSym .t0 i, .addi .sp .sp (-4), .sw .t0 0 .sp, .li .t0 1,
        .lw .t1 0 .sp, .addi .sp .sp 4, .arith (some "add") .t0 .t1 .t0, .swSym .t0 i .t1,
        .comment "\t#--condition--\n"] ++
      [.label (lid + 1), .cmtRelExpr 60, .lwSym .t0 i, .addi .sp .sp (-4), .sw .t0 0 .sp,
        .li .t0 c, .lw .t1 0 .sp, .addi .sp .sp 4] ++
      [.branch "blt" .t1 .t0 lid] ++ [.comment "\t#--endloop--\n"]) :
    ∀ (n : Nat) (s : Machine), s.pc = 16 → (c - (s.mem (addr i)).toInt).toNat = n →
      ∃ fuel s', runCount addr prog 4 fuel s = some (s', n) ∧
        (s'.mem (addr i)).toInt = max (s.mem (addr i)).toInt c ∧
        s'.reg .sp = s.reg .sp := by
  have hcode : CodeAt prog 0 prog := codeAt_self prog
  have hlen : prog.length = 26 := by rw [hprog]; rfl
  have hfind : findLine (.label lid) prog = some 2 := by
    rw [hprog]; simp [findLine]
  rw [hprog] at hcode
  simp only [codeAt_append, List.length_cons, List.length_nil, List.length_append,
    Nat.zero_add] at hcode
  rw [← hprog] at hcode
  obtain ⟨⟨⟨⟨_, hA⟩, hB⟩, hbr, _⟩, hend, _⟩ := hcode
  have stA : ∀ j ∈ [Asm.label lid, .comment "\t#--body--\n",
        .comment "\t#--assignment--\n", .comment "\t#--Binary OP Expression: ",
        .comment "(+)--\n", .lwSym .t0 i, .addi .sp .sp (-4), .sw .t0 0 .sp, .li .t0 1,
        .lw .t1 0 .sp, .addi .sp .sp 4, .arith (some "add") .t0 .t1 .t0, .swSym .t0 i .t1,
        .comment "\t#--condition--\n"], j.straight = true := by
    intro j hj
    simp at hj
    rcases hj with rfl | rfl | rfl | rfl | rfl | rfl | rfl | rfl | rfl | rfl | rfl | rfl |
      rfl | rfl <;> rfl
  have stB : ∀ j ∈ [Asm.label (lid + 1), .cmtRelExpr 60, .lwSym .t0 i, .addi .sp .sp (-4),
        .sw .t0 0 .sp, .li .t0 c, .lw .t1 0 .sp, .addi .sp .sp 4], j.straight = true := by
    intro j hj
    simp at hj
    rcases hj with rfl | rfl | rfl | rfl | rfl | rfl | rfl | rfl <;> rfl
  intro n
  induction n with
  | zero =>
    intro s hpc hn
    obtain ⟨s1, hs1, hpc1, hm1, ht1, ht0, hsp1⟩ := loop_cond_seg addr i c lid s
    have hnot : ¬ ((s.mem (addr i)).toInt < c) := by omega
    have hstep : step addr prog s1 = some s1.advance := by
      have hg : prog[s1.pc]? = some (.branch "blt" .t1 .t0 lid) := by
        rw [hpc1, hpc]; exact hbr
      simp [step, hg, execLine, branchTaken, ht1, ht0, Word.toInt_ofInt c hc1 hc2, hnot]
    have hstep2 : step addr prog s1.advance = some s1.advance.advance := by
      have hg : prog[s1.advance.pc]? = some (.comment "\t#--endloop--\n") := by
        rw [Machine.advance_pc, hpc1, hpc]; exact hend
      simp only [step, hg, execLine]
    have hfin : runCount addr prog 4 0 s1.advance.advance = some (s1.advance.advance, 0) := by
      simp [runCount, hpc1, hpc, hlen]
    refine ⟨8 + (0 + 1 + 1), s1.advance.advance, ?_, ?_, ?_⟩
    · have h8 := runCount_straight addr prog 4 _ s s1 (0 + 1 + 1) stB
        (by rw [hpc]; exact hB) hs1
      simp only [List.length_cons, List.length_nil, Nat.zero_add] at h8
      rw [h8, runCount_step addr prog 4 _ s1 _ hstep,
        runCount_step addr prog 4 _ s1.advance _ hstep2, hfin]
      simp [hpc, hpc1]
    · simp only [Machine.advance_mem, hm1]
      omega
    · simp only [Machine.advance_reg, hsp1]
  | succ k ih =>
    intro s hpc hn
    obtain ⟨s1, hs1, hpc1, hm1, ht1, ht0, hsp1⟩ := loop_cond_seg addr i c lid s
    have hlt : (s.mem (addr i)).toInt < c := by omega
    have hstep : step addr prog s1 = some { s1 with pc := 2 } := by
      have hg : prog[s1.pc]? = some (.branch "blt" .t1 .t0 lid) := by
        rw [hpc1, hpc]; exact hbr
      simp [step, hg, execLine, branchTaken, ht1, ht0, Word.toInt_ofInt c hc1 hc2, hlt, hfind]
    obtain ⟨s3, hs3, hpc3, hm3, hsp3⟩ := loop_body_seg addr i lid { s1 with pc := 2 }
    have hw : ((s.mem (addr i)).add (Word.ofInt 1)).toInt = (s.mem (addr i)).toInt + 1 :=
      Word.toInt_add_one _ (by omega)
    have hm3' : s3.mem (addr i) = (s.mem (addr i)).add (Word.ofInt 1) := by
      rw [hm3]; show (s1.mem (addr i)).add _ = _; rw [hm1]
    obtain ⟨fuel, s', hrun, hmem, hsp⟩ := ih s3 (by rw [hpc3]) (by rw [hm3', hw]; omega)
    refine ⟨8 + (14 + fuel + 1), s', ?_, ?_, ?_⟩
    · have h8 := runCount_straight addr prog 4 _ s s1 (14 + fuel + 1) stB
        (by rw [hpc]; exact hB) hs1
      have h14 := runCount_straight addr prog 4 _ { s1 with pc := 2 } s3 fuel stA hA hs3
      simp only [List.length_cons, List.length_nil, Nat.zero_add] at h8 h14
      rw [h8, runCount_step addr prog 4 _ s1 _ hstep, h14, hrun]
      simp [hpc, hpc1]
    · rw [hmem, hm3', hw]
      omega
    · rw [hsp, hsp3]
      exact hsp1

/-- C3: the code of `while (i < c) i = i + 1` on a global `i`, with `c` a signed
32-bit constant: run from its first line it reaches its end, having executed
the first line of the body (line 4 of the code, where the code of the body
starts) exactly `max 0 (c - v)` times, `v` being the signed value of `i` on
entry, and leaves `max v c` in `i`. -/
theorem counting_loop_correct (addr : String → Word) (i : String) (c h lid : Int)
    (s : Machine) (hc1 : -2147483648 ≤ c) (hc2 : c < 2147483648) (hpc : s.pc = 0) :
    CodeAt (genCodeFromASTree (countingLoop i c) h lid).out 4
      (genCodeFromASTree (globalAssign i (binExpr 43 (globalRef i) (intConst 1)))
        h (lid + 2)).out ∧
    ∃ (fuel : Nat) (s' : Machine) (k : Nat),
      runCount addr (genCodeFromASTree (countingLoop i c) h lid).out 4 fuel s = some (s', k) ∧
      (k : Int) = max 0 (c - (s.mem (addr i)).toInt) ∧
      (s'.mem (addr i)).toInt = max (s.mem (addr i)).toInt c := by
  refine ⟨?_, ?_⟩
  · rw [countingLoop_out]
    have e : (genCodeFromASTree (globalAssign i (binExpr 43 (globalRef i) (intConst 1)))
        h (lid + 2)).out =
        [.comment "\t#--assignment--\n", .comment "\t#--Binary OP Expression: ",
          .comment "(+)--\n", .lwSym .t0 i, .addi .sp .sp (-4), .sw .t0 0 .sp, .li .t0 1,
          .lw .t1 0 .sp, .addi .sp .sp 4, .arith (some "add") .t0 .t1 .t0,
          .swSym .t0 i .t1] := by
      simp [globalRef, intConst, globalAssign, binExpr, genCodeFromASTree, Gen.skip, pushT0]
    rw [e]
    simp [CodeAt]
  · have hprog := countingLoop_out i c h lid
    simp only [List.append_assoc, List.cons_append, List.nil_append] at hprog
    have hprog' : (genCodeFromASTree (countingLoop i c) h lid).out =
        [.comment "\t#--While loop--\n", .b (lid + 1)] ++
        [.label lid, .comment "\t#--body--\n",
          .comment "\t#--assignment--\n", .comment "\t#--Binary OP Expression: ",
          .comment "(+)--\n", .lwSym .t0 i, .addi .sp .sp (-4), .sw .t0 0 .sp, .li .t0 1,
          .lw .t1 0 .sp, .addi .sp .sp 4, .arith (some "add") .t0 .t1 .t0, .swSym .t0 i .t1,
          .comment "\t#--condition--\n"] ++
        [.label (lid + 1), .cmtRelExpr 60, .lwSym .t0 i, .addi .sp .sp (-4), .sw .t0 0 .sp,
          .li .t0 c, .lw .t1 0 .sp, .addi .sp .sp 4] ++
        [.branch "blt" .t1 .t0 lid] ++ [.comment "\t#--endloop--\n"] := by
      rw [hprog]; rfl
    generalize (genCodeFromASTree (countingLoop i c) h lid).out = prog at hprog'
    have hstep0 : step addr prog s = some s.advance := by
      have hg : prog[s.pc]? = some (.comment "\t#--While loop--\n") := by
        rw [hpc, hprog']; rfl
      simp only [step, hg, execLine]
    have hfind : findLine (.label (lid + 1)) prog = some 16 := by
      rw [hprog']; simp [findLine]
    have hstep1 : step addr prog s.advance = some { s.advance with pc := 16 } := by
      have hg : prog[s.advance.pc]? = some (.b (lid + 1)) := by
        rw [Machine.advance_pc, hpc, hprog']; rfl
      simp only [step, hg, execLine, hfind]
    obtain ⟨fuel, s', hrun, hmem, _⟩ := counting_loop_iter addr i c lid hc1 hc2 prog hprog'
      (c - (s.mem (addr i)).toInt).toNat { s.advance with pc := 16 } rfl rfl
    refine ⟨fuel + 1 + 1, s', (c - (s.mem (addr i)).toInt).toNat, ?_, ?_, ?_⟩
    · rw [runCount_step addr prog 4 _ s _ hstep0,
        runCount_step addr prog 4 _ s.advance _ hstep1, hrun]
      simp [hpc]
    · omega
    · exact hmem

/-- C3 at `c = 5`: with `i = 5` on entry the body runs zero times, with `i = 0`
five times, and `i` ends as 5. -/
theorem counting_loop_correct_witness :
    (∃ (fuel : Nat) (s' : Machine) (k : Nat),
      runCount (fun _ => 4096) (genCodeFromASTree (countingLoop "i" 5) 0 100).out 4 fuel
        ⟨0, fun _ => 0, fun a => if a = 4096 then 5 else 0⟩ = some (s', k) ∧
      (k : Int) = 0 ∧ (s'.mem 4096).toInt = 5) ∧
    (∃ (fuel : Nat) (s' : Machine) (k : Nat),
      runCount (fun _ => 4096) (genCodeFromASTree (countingLoop "i" 5) 0 100).out 4 fuel
        ⟨0, fun _ => 0, fun _ => 0⟩ = some (s', k) ∧
      (k : Int) = 5 ∧ (s'.mem 4096).toInt = 5) :=
  ⟨(counting_loop_correct (fun _ => 4096) "i" 5 0 100
      ⟨0, fun _ => 0, fun a => if a = 4096 then 5 else 0⟩ (by decide) (by decide) rfl).2,
    (counting_loop_correct (fun _ => 4096) "i" 5 0 100
      ⟨0, fun _ => 0, fun _ => 0⟩ (by decide) (by decide) rfl).2⟩

/-! ## Labels -/

theorem labelRange_zero (lo : Int) : labelRange lo 0 = [] := rfl

theorem labelRange_succ (lo : Int) (n : Nat) :
    labelRange lo (n + 1) = lo :: labelRange (lo + 1) n := by
  rw [labelRange]

theorem labelRange_append (lo : Int) (m n : Nat) :
    labelRange lo (m + n) = labelRange lo m ++ labelRange (lo + m) n := by
  induction m generalizing lo with
  | zero => simp [labelRange_zero]
  | succ m ih =>
    rw [Nat.add_right_comm, labelRange_succ, labelRange_succ, ih]
    simp only [List.cons_append, List.cons.injEq, true_and]
    congr 2
    push_cast
    ring

theorem mem_labelRange (n : Nat) : ∀ (lo x : Int),
    x ∈ labelRange lo n ↔ lo ≤ x ∧ x < lo + n := by
  induction n with
  | zero => intro lo x; simp [labelRange_zero]
  | succ n ih =>
    intro lo x
    rw [labelRange_succ, List.mem_cons, ih]
    push_cast
    omega

theorem labelRange_pairwise (n : Nat) : ∀ lo : Int,
    List.Pairwise (fun x y => x < y) (labelRange lo n) := by
  induction n with
  | zero => intro lo; simp [labelRange_zero]
  | succ n ih =>
    intro lo
    rw [labelRange_succ, List.pairwise_cons]
    refine ⟨?_, ih (lo + 1)⟩
    intro y hy
    rw [mem_labelRange] at hy
    omega

/-- The identifiers `getUniqueLabelID` returns while a tree is generated. -/
theorem gen_issued (t : ASTNode) : ∀ h lid : Int,
    (genCodeFromASTree t h lid).issued = labelRange lid (labelCount t) := by
  induction t with
  | null => intro h lid; simp [genCodeFromASTree, Gen.skip, labelCount, labelRange_zero]
  | node ty vt vk iv sv c0 c1 c2 nx ih0 ih1 ih2 ihn =>
    intro h lid
    cases ty
    case AST_VARDECL =>
      cases vt <;> cases vk <;> simp [genCodeFromASTree, labelCount, ihn]
    case AST_ASSIGNMENT =>
      cases vk <;>
        simp [genCodeFromASTree, labelCount, ih0, ih1, ihn, gen_lid, labelRange_append,
          add_assoc]
    case AST_VARREF =>
      cases vk <;>
        simp [genCodeFromASTree, labelCount, ih0, ihn, gen_lid, labelRange_append,
          labelRange_zero]
    case AST_CONSTANT =>
      cases vt <;> simp [genCodeFromASTree, labelCount, ihn]
    case AST_WHILE =>
      simp [genCodeFromASTree, labelCount, ih0, ih1, ihn, gen_lid, labelRange_append,
        labelRange_succ, labelRange_zero, add_assoc]
    case AST_IFTHEN =>
      simp [genCodeFromASTree, labelCount, ih0, ih1, ih2, ihn, gen_lid, labelRange_append,
        labelRange_succ, labelRange_zero, add_assoc]
    all_goals
      simp [genCodeFromASTree, labelCount, ih0, ih1, ih2, ihn, gen_lid, labelRange_append,
        labelRange_zero, add_assoc]
theorem labelDefs_append (a b : List Asm) : labelDefs (a ++ b) = labelDefs a ++ labelDefs b :=
  List.filterMap_append _ _ _

theorem labelDefs_nil : labelDefs [] = [] := rfl

theorem labelDefs_cons (i : Asm) (l : List Asm) :
    labelDefs (i :: l) = (match i.labelId with | some x => [x] | none => []) ++ labelDefs l := by
  cases h : i.labelId <;> simp [labelDefs, List.filterMap_cons, h]

theorem labelDefs_ite (c : Prop) [Decidable c] (d : String) :
    labelDefs (if c then [] else [Asm.diag d]) = [] := by
  split_ifs <;> rfl

/-- Every issued identifier is the identifier of as many label lines of the
output as it was issued times. -/
theorem gen_labelDefs_count (x : Int) (t : ASTNode) : ∀ h lid : Int,
    (labelDefs (genCodeFromASTree t h lid).out).count x =
      (labelRange lid (labelCount t)).count x := by
  induction t with
  | null => intro h lid; simp [genCodeFromASTree, Gen.skip, labelCount, labelRange_zero, labelDefs_nil]
  | node ty vt vk iv sv c0 c1 c2 nx ih0 ih1 ih2 ihn =>
    intro h lid
    cases ty
    case AST_VARDECL =>
      cases vt <;> cases vk <;>
        simp [genCodeFromASTree, labelCount, ihn, labelDefs_append, labelDefs_cons, labelDefs_nil, Asm.labelId]
    case AST_ASSIGNMENT =>
      cases vk <;>
        simp [genCodeFromASTree, labelCount, ih0, ih1, ihn, gen_lid, labelRange_append,
          add_assoc, labelDefs_append, labelDefs_cons, labelDefs_nil, Asm.labelId, pushT0]
    case AST_VARREF =>
      cases vk <;>
        simp [genCodeFromASTree, labelCount, ih0, ihn, gen_lid, labelRange_append,
          labelRange_zero, labelDefs_append, labelDefs_cons, labelDefs_nil, Asm.labelId]
    case AST_CONSTANT =>
      cases vt <;> simp [genCodeFromASTree, labelCount, ihn, labelDefs_append, labelDefs_cons, labelDefs_nil, Asm.labelId]
    case AST_WHILE =>
      simp [genCodeFromASTree, labelCount, ih0, ih1, ihn, gen_lid, labelRange_append,
        labelRange_succ, labelRange_zero, add_assoc, labelDefs_append, labelDefs_cons, labelDefs_nil, Asm.labelId,
        List.count_cons]
    case AST_IFTHEN =>
      simp [genCodeFromASTree, labelCount, ih0, ih1, ih2, ihn, gen_lid, labelRange_append,
        labelRange_succ, labelRange_zero, add_assoc, labelDefs_append, labelDefs_cons, labelDefs_nil, Asm.labelId,
        List.count_cons]
    case AST_PROGRAM =>
      simp [genCodeFromASTree, labelCount, ih0, ih1, ih2, ihn, gen_lid, labelRange_append,
        labelRange_zero, add_assoc, labelDefs_append, labelDefs_cons, labelDefs_nil, Asm.labelId, pushT0, labelDefs_ite]
    case AST_FUNCTION =>
      simp [genCodeFromASTree, labelCount, ih0, ih1, ih2, ihn, gen_lid, labelRange_append,
        labelRange_zero, add_assoc, labelDefs_append, labelDefs_cons, labelDefs_nil, Asm.labelId, pushT0, labelDefs_ite]
    case AST_SBLOCK =>
      simp [genCodeFromASTree, labelCount, ih0, ih1, ih2, ihn, gen_lid, labelRange_append,
        labelRange_zero, add_assoc, labelDefs_append, labelDefs_cons, labelDefs_nil, Asm.labelId, pushT0, labelDefs_ite]
    case AST_FUNCALL =>
      simp [genCodeFromASTree, labelCount, ih0, ih1, ih2, ihn, gen_lid, labelRange_append,
        labelRange_zero, add_assoc, labelDefs_append, labelDefs_cons, labelDefs_nil, Asm.labelId, pushT0, labelDefs_ite]
    case AST_ARGUMENT =>
      simp [genCodeFromASTree, labelCount, ih0, ih1, ih2, ihn, gen_lid, labelRange_append,
        labelRange_zero, add_assoc, labelDefs_append, labelDefs_cons, labelDefs_nil, Asm.labelId, pushT0, labelDefs_ite]
    case AST_EXPRESSION =>
      simp [genCodeFromASTree, labelCount, ih0, ih1, ih2, ihn, gen_lid, labelRange_append,
        labelRange_zero, add_assoc, labelDefs_append, labelDefs_cons, labelDefs_nil, Asm.labelId, pushT0, labelDefs_ite]
    case AST_RELEXPR =>
      simp [genCodeFromASTree, labelCount, ih0, ih1, ih2, ihn, gen_lid, labelRange_append,
        labelRange_zero, add_assoc, labelDefs_append, labelDefs_cons, labelDefs_nil, Asm.labelId, pushT0, labelDefs_ite]
    case other =>
      simp [genCodeFromASTree, labelCount, ih0, ih1, ih2, ihn, gen_lid, labelRange_append,
        labelRange_zero, add_assoc, labelDefs_append, labelDefs_cons, labelDefs_nil, Asm.labelId, pushT0, labelDefs_ite]

theorem gen_labelDefs_perm (t : ASTNode) (h lid : Int) :
    (labelDefs (genCodeFromASTree t h lid).out).Perm (genCodeFromASTree t h lid).issued := by
  rw [gen_issued, List.perm_iff_count]
  intro x
  exact gen_labelDefs_count x t h lid

theorem gen_labelDefs_mem (t : ASTNode) (h lid x : Int)
    (hx : x ∈ labelDefs (genCodeFromASTree t h lid).out) :
    lid ≤ x ∧ x < lid + labelCount t := by
  rw [(gen_labelDefs_perm t h lid).mem_iff, gen_issued, mem_labelRange] at hx
  exact hx

theorem findLine_label (x : Int) (b : List Asm) : ∀ a : List Asm, x ∉ labelDefs a →
    findLine (.label x) (a ++ .label x :: b) = some a.length := by
  intro a
  induction a with
  | nil => intro _; simp [findLine]
  | cons i a ih =>
    intro hx
    rw [labelDefs_cons, List.mem_append, not_or] at hx
    have hne : i ≠ .label x := by
      rintro rfl
      simp [Asm.labelId] at hx
    simp [findLine, hne, ih hx.2]

/-! ## If-then-else -/

theorem gen_ifthen_out (vt : DataType) (vk : VarKind) (iv : Int) (sv : String)
    (c0 c1 c2 nx : ASTNode) (h lid : Int) :
    (genCodeFromASTree (.node .AST_IFTHEN vt vk iv sv c0 c1 c2 nx) h lid).out =
      [.comment "\t#--ifthenelse--\n"] ++
      (genCodeFromASTree c0 lid (lid + 2)).out ++
      [.comment "\t#--elsepart--\n"] ++
      (genCodeFromASTree c2 h (genCodeFromASTree c0 lid (lid + 2)).lid).out ++
      [.b (lid + 1), .label lid, .comment "\t#--ifpart--\n"] ++
      (genCodeFromASTree c1 h
        (genCodeFromASTree c2 h (genCodeFromASTree c0 lid (lid + 2)).lid).lid).out ++
      [.label (lid + 1), .comment "\t#--endif--\n"] ++
      (genCodeFromASTree nx h (genCodeFromASTree c1 h
        (genCodeFromASTree c2 h (genCodeFromASTree c0 lid (lid + 2)).lid).lid).lid).out := by
  simp [genCodeFromASTree, add_assoc]

theorem gen_ifthen_issued (vt : DataType) (vk : VarKind) (iv : Int) (sv : String)
    (c0 c1 c2 nx : ASTNode) (h lid : Int) :
    (genCodeFromASTree (.node .AST_IFTHEN vt vk iv sv c0 c1 c2 nx) h lid).issued =
      lid :: (lid + 1) ::
      ((genCodeFromASTree c0 lid (lid + 2)).issued ++
      (genCodeFromASTree c2 h (genCodeFromASTree c0 lid (lid + 2)).lid).issued ++
      (genCodeFromASTree c1 h
        (genCodeFromASTree c2 h (genCodeFromASTree c0 lid (lid + 2)).lid).lid).issued ++
      (genCodeFromASTree nx h (genCodeFromASTree c1 h
        (genCodeFromASTree c2 h (genCodeFromASTree c0 lid (lid + 2)).lid).lid).lid).issued) := by
  simp [genCodeFromASTree, add_assoc]

/-- C4: the code of an `IfThenElse` node. Its two labels `L1 = lid` and
`L2 = lid + 1` are the next two values of `getUniqueLabelID` and differ; the
output is the condition generated with helper value `L1`, the else body, `b L2`,
the line of `L1`, the then body, the line of `L2` (then the siblings); and the
`b L2` after the else body moves the machine past the then body, to the line
of `L2`. -/
theorem ifthenelse_layout (addr : String → Word) (vt : DataType) (vk : VarKind) (iv : Int)
    (sv : String) (c0 c1 c2 nx : ASTNode) (h lid : Int) :
    lid ≠ lid + 1 ∧
    (genCodeFromASTree (.node .AST_IFTHEN vt vk iv sv c0 c1 c2 nx) h lid).issued =
      lid :: (lid + 1) ::
      ((genCodeFromASTree c0 lid (lid + 2)).issued ++
      (genCodeFromASTree c2 h (genCodeFromASTree c0 lid (lid + 2)).lid).issued ++
      (genCodeFromASTree c1 h
        (genCodeFromASTree c2 h (genCodeFromASTree c0 lid (lid + 2)).lid).lid).issued ++
      (genCodeFromASTree nx h (genCodeFromASTree c1 h
        (genCodeFromASTree c2 h (genCodeFromASTree c0 lid (lid + 2)).lid).lid).lid).issued) ∧
    (genCodeFromASTree (.node .AST_IFTHEN vt vk iv sv c0 c1 c2 nx) h lid).out =
      [.comment "\t#--ifthenelse--\n"] ++
      (genCodeFromASTree c0 lid (lid + 2)).out ++
      [.comment "\t#--elsepart--\n"] ++
      (genCodeFromASTree c2 h (genCodeFromASTree c0 lid (lid + 2)).lid).out ++
      [.b (lid + 1), .label lid, .comment "\t#--ifpart--\n"] ++
      (genCodeFromASTree c1 h
        (genCodeFromASTree c2 h (genCodeFromASTree c0 lid (lid + 2)).lid).lid).out ++
      [.label (lid + 1), .comment "\t#--endif--\n"] ++
      (genCodeFromASTree nx h (genCodeFromASTree c1 h
        (genCodeFromASTree c2 h (genCodeFromASTree c0 lid (lid + 2)).lid).lid).lid).out ∧
    ∀ s : Machine,
      s.pc = 2 + (genCodeFromASTree c0 lid (lid + 2)).out.length +
        (genCodeFromASTree c2 h (genCodeFromASTree c0 lid (lid + 2)).lid).out.length →
      step addr (genCodeFromASTree (.node .AST_IFTHEN vt vk iv sv c0 c1 c2 nx) h lid).out s =
        some { s with pc := s.pc + 3 + (genCodeFromASTree c1 h
          (genCodeFromASTree c2 h (genCodeFromASTree c0 lid (lid + 2)).lid).lid).out.length } ∧
      (genCodeFromASTree (.node .AST_IFTHEN vt vk iv sv c0 c1 c2 nx) h lid).out[s.pc + 3 +
          (genCodeFromASTree c1 h
            (genCodeFromASTree c2 h (genCodeFromASTree c0 lid (lid + 2)).lid).lid).out.length]? =
        some (.label (lid + 1)) := by
  refine ⟨by omega, gen_ifthen_issued vt vk iv sv c0 c1 c2 nx h lid,
    gen_ifthen_out vt vk iv sv c0 c1 c2 nx h lid, ?_⟩
  intro s hpc
  rw [gen_ifthen_out]
  generalize hcond : genCodeFromASTree c0 lid (lid + 2) = cond at hpc ⊢
  generalize hels : genCodeFromASTree c2 h cond.lid = els at hpc ⊢
  generalize hthn : genCodeFromASTree c1 h els.lid = thn at hpc ⊢
  generalize genCodeFromASTree nx h thn.lid = sib
  have hc := gen_labelDefs_mem c0 lid (lid + 2) (lid + 1)
  have he := gen_labelDefs_mem c2 h cond.lid (lid + 1)
  have ht := gen_labelDefs_mem c1 h els.lid (lid + 1)
  have hl1 := gen_lid c0 lid (lid + 2)
  have hl2 := gen_lid c2 h cond.lid
  rw [hcond] at hc hl1
  rw [hels] at he hl2
  rw [hthn] at ht
  have hfind : findLine (.label (lid + 1))
      (([.comment "\t#--ifthenelse--\n"] ++ cond.out ++ [.comment "\t#--elsepart--\n"] ++
        els.out ++ [.b (lid + 1), .label lid, .comment "\t#--ifpart--\n"] ++ thn.out) ++
        .label (lid + 1) :: ([.comment "\t#--endif--\n"] ++ sib.out)) =
      some (s.pc + 3 + thn.out.length) := by
    rw [findLine_label]
    · simp only [List.length_append, List.length_cons, List.length_nil, hpc]
      congr 1
      omega
    · simp only [labelDefs_append, labelDefs_cons, labelDefs_nil, Asm.labelId, List.mem_append,
        List.nil_append, List.append_nil, List.mem_singleton]
      intro hm
      rcases hm with ((hm | hm) | hm) | hm
      · have := hc hm; omega
      · have := he hm; omega
      · omega
      · have := ht hm; omega
  have hget : ([.comment "\t#--ifthenelse--\n"] ++ cond.out ++ [.comment "\t#--elsepart--\n"] ++
        els.out ++ [.b (lid + 1), .label lid, .comment "\t#--ifpart--\n"] ++ thn.out ++
        [.label (lid + 1), .comment "\t#--endif--\n"] ++ sib.out)[s.pc]? =
      some (.b (lid + 1)) := by
    have e : [Asm.comment "\t#--ifthenelse--\n"] ++ cond.out ++
        [.comment "\t#--elsepart--\n"] ++ els.out ++
        [.b (lid + 1), .label lid, .comment "\t#--ifpart--\n"] ++ thn.out ++
        [.label (lid + 1), .comment "\t#--endif--\n"] ++ sib.out =
        ([Asm.comment "\t#--ifthenelse--\n"] ++ cond.out ++
          [.comment "\t#--elsepart--\n"] ++ els.out) ++ (.b (lid + 1) ::
          ([.label lid, .comment "\t#--ifpart--\n"] ++ thn.out ++
          [.label (lid + 1), .comment "\t#--endif--\n"] ++ sib.out)) := by
      simp
    rw [e, List.getElem?_append_right (by simp [hpc]; omega)]
    have : s.pc - ([Asm.comment "\t#--ifthenelse--\n"] ++ cond.out ++
        [Asm.comment "\t#--elsepart--\n"] ++ els.out).length = 0 := by
      simp [hpc]; omega
    rw [this]
    rfl
  have e2 : [Asm.comment "\t#--ifthenelse--\n"] ++ cond.out ++
      [.comment "\t#--elsepart--\n"] ++ els.out ++
      [.b (lid + 1), .label lid, .comment "\t#--ifpart--\n"] ++ thn.out ++
      [.label (lid + 1), .comment "\t#--endif--\n"] ++ sib.out =
      ([.comment "\t#--ifthenelse--\n"] ++ cond.out ++ [.comment "\t#--elsepart--\n"] ++
        els.out ++ [.b (lid + 1), .label lid, .comment "\t#--ifpart--\n"] ++ thn.out) ++
        .label (lid + 1) :: ([.comment "\t#--endif--\n"] ++ sib.out) := by
    simp
  refine ⟨?_, ?_⟩
  · simp only [step, hget, execLine]
    rw [e2, hfind]
  · rw [e2, List.getElem?_append_right (by simp [hpc]; omega)]
    have : s.pc + 3 + thn.out.length - ([Asm.comment "\t#--ifthenelse--\n"] ++ cond.out ++
        [Asm.comment "\t#--elsepart--\n"] ++ els.out ++
        [Asm.b (lid + 1), Asm.label lid, Asm.comment "\t#--ifpart--\n"] ++
        thn.out).length = 0 := by
      simp [hpc]; omega
    rw [this]
    rfl

/-- C4 at `if (1 < 2) x = 1 else x = 2` with labels 100 and 101: the `b .LL101`
at line 13, after the else body, moves the machine to line 19, the line of
`.LL101`. -/
theorem ifthenelse_layout_witness :
    step (fun _ => 0) (genCodeFromASTree ifExample 0 100).out ⟨13, fun _ => 0, fun _ => 0⟩ =
        some ⟨19, fun _ => 0, fun _ => 0⟩ ∧
      (genCodeFromASTree ifExample 0 100).out[19]? = some (.label 101) :=
  (ifthenelse_layout (fun _ => 0) .T_INT .V_GLOBAL 0 "" (relExpr 60 (intConst 1) (intConst 2))
    (globalAssign "x" (intConst 1)) (globalAssign "x" (intConst 2)) .null 0 100).2.2.2
    ⟨13, fun _ => 0, fun _ => 0⟩ rfl

/-! ## Siblings and the program layout -/

/-- C9: on the null pointer nothing is emitted; on a node the output is the
output for the node with its `next` link detached, followed by the output for
`node.next`, generated with helper value `h + 1` after an `Argument`, `0` after
a `FunctionCall` and `h` after any other kind of node (the label counter going
on from where the node left it). -/
theorem sibling_continuation :
    (∀ h lid : Int, (genCodeFromASTree .null h lid).out = []) ∧
    ∀ (ty : ASTNodeType) (vt : DataType) (vk : VarKind) (iv : Int) (sv : String)
      (c0 c1 c2 nx : ASTNode) (h lid : Int),
      (genCodeFromASTree (.node ty vt vk iv sv c0 c1 c2 nx) h lid).out =
        (genCodeFromASTree (.node ty vt vk iv sv c0 c1 c2 .null) h lid).out ++
        (genCodeFromASTree nx
          (if ty = .AST_ARGUMENT then h + 1 else if ty = .AST_FUNCALL then 0 else h)
          (genCodeFromASTree (.node ty vt vk iv sv c0 c1 c2 .null) h lid).lid).out := by
  refine ⟨fun h lid => rfl, ?_⟩
  intro ty vt vk iv sv c0 c1 c2 nx h lid
  cases ty
  case AST_VARDECL =>
    cases vt <;> cases vk <;> simp [genCodeFromASTree, Gen.skip]
  case AST_ASSIGNMENT =>
    cases vk <;> simp [genCodeFromASTree, Gen.skip]
  case AST_VARREF =>
    cases vk <;> simp [genCodeFromASTree, Gen.skip]
  case AST_CONSTANT =>
    cases vt <;> simp [genCodeFromASTree, Gen.skip]
  all_goals simp [genCodeFromASTree, Gen.skip]

/-- C10: the output for a `Program` node, in order: the data-section header
(with the text of `outputDataSection`), the global declarations (child 0), the
text-section header and the entry label `program:`, the main statements
(child 2), the exit sequence `li a0, 0 / li a7, 93 / ecall`, the function
definitions (child 1), the three library routines (and then the output for the
siblings of the node, if it has any). -/
theorem program_layout (vt : DataType) (vk : VarKind) (iv : Int) (sv : String)
    (c0 c1 c2 nx : ASTNode) (h lid : Int) :
    (genCodeFromASTree (.node .AST_PROGRAM vt vk iv sv c0 c1 c2 nx) h lid).out =
      [.comment "#\n# RISC-V assembly output\n#\n",
        .comment "\n#\n# data section\n#\n", .directive "\t.data\n",
        .comment "#--string constants--\n", .dataSection,
        .comment "\n#--Globals Declarations--\n"] ++
      (genCodeFromASTree c0 h lid).out ++
      [.comment "\n\n#\n# Program Instructions\n#\n", .directive "\t.text\n",
        .symLabel "program"] ++
      (genCodeFromASTree c2 h (genCodeFromASTree c0 h lid).lid).out ++
      [.li (.a 0) 0, .li (.a 7) 93, .ecall] ++
      [.comment "\n#\n# Functions\n#\n\n"] ++
      (genCodeFromASTree c1 h
        (genCodeFromASTree c2 h (genCodeFromASTree c0 h lid).lid).lid).out ++
      [.comment "\n#\n# Library functions\n#\n\n",
        .comment "# Print a null-terminated string: arg: a0 == string address\n",
        .symLabel "printStr", .li (.a 7) 4, .ecall, .ret,
        .comment "\n# Print a decimal integer: arg: a0 == value\n",
        .symLabel "printInt", .li (.a 7) 1, .ecall, .ret,
        .comment "\n#Read in a decimal integer: return: a0 == value\n",
        .symLabel "readInt", .li (.a 7) 5, .ecall, .ret] ++
      (genCodeFromASTree nx h
        (genCodeFromASTree c1 h
          (genCodeFromASTree c2 h (genCodeFromASTree c0 h lid).lid).lid).lid).out := by
  simp [genCodeFromASTree]

/-! ## Call arguments -/

theorem gen_argument_out (vt : DataType) (vk : VarKind) (iv : Int) (sv : String)
    (c0 c1 c2 nx : ASTNode) (h lid : Int) :
    (genCodeFromASTree (.node .AST_ARGUMENT vt vk iv sv c0 c1 c2 nx) h lid).out =
      (genCodeFromASTree c0 h lid).out ++ [.mv (.a h) .t0] ++
      (genCodeFromASTree nx (h + 1) (genCodeFromASTree c0 h lid).lid).out := by
  simp [genCodeFromASTree]

theorem gen_funcall_out (vt : DataType) (vk : VarKind) (iv : Int) (sv : String)
    (c0 c1 c2 nx : ASTNode) (h lid : Int) :
    (genCodeFromASTree (.node .AST_FUNCALL vt vk iv sv c0 c1 c2 nx) h lid).out =
      [.cmtFuncall sv] ++ (genCodeFromASTree c0 h lid).out ++ [.jal sv] ++
      (genCodeFromASTree nx 0 (genCodeFromASTree c0 h lid).lid).out := by
  simp [genCodeFromASTree]

/-- The code of a list of `Argument` nodes generated with helper value `h`: the
expression of argument `i` is generated with helper value `h + i` and followed
by the move of `t0` into register `a(h+i)`. -/
theorem arglist_registers (i : Nat) : ∀ (args : ASTNode) (h lid : Int),
    (∀ j, j ≤ i → isArgument (nthSibling args j) = true) →
    ∃ (pre post : List Asm) (l : Int),
      (genCodeFromASTree args h lid).out =
        pre ++ (genCodeFromASTree (nthSibling args i).child0 (h + i) l).out ++
          [.mv (.a (h + i)) .t0] ++ post := by
  induction i with
  | zero =>
    intro args h lid hargs
    have h0 := hargs 0 (le_refl _)
    cases args with
    | null => simp [nthSibling, isArgument] at h0
    | node ty vt vk iv sv c0 c1 c2 nx =>
      cases ty <;> simp [nthSibling, isArgument] at h0
      refine ⟨[], (genCodeFromASTree nx (h + 1) (genCodeFromASTree c0 h lid).lid).out, lid, ?_⟩
      rw [gen_argument_out]
      simp [nthSibling, ASTNode.child0]
  | succ i ih =>
    intro args h lid hargs
    have h0 := hargs 0 (Nat.zero_le _)
    cases args with
    | null => simp [nthSibling, isArgument] at h0
    | node ty vt vk iv sv c0 c1 c2 nx =>
      cases ty <;> simp [nthSibling, isArgument] at h0
      obtain ⟨pre, post, l, hout⟩ := ih nx (h + 1) (genCodeFromASTree c0 h lid).lid
        (fun j hj => by
          have := hargs (j + 1) (by omega)
          simpa [nthSibling] using this)
      refine ⟨(genCodeFromASTree c0 h lid).out ++ [.mv (.a h) .t0] ++ pre, post, l, ?_⟩
      rw [gen_argument_out, hout]
      have e : h + 1 + (i : Int) = h + ((i + 1 : Nat) : Int) := by push_cast; ring
      simp only [nthSibling, e, List.append_assoc]

/-- The argument registers of a call: a `FunctionCall` node generated with
helper value `h` emits its `#--funcall--` comment, the code of its argument
list generated with helper value `h`, and its `jal` (its siblings are generated
with helper value 0); in the code of the argument list, for each argument `i`
the code of the argument's expression (generated with helper value `h + i`) is
followed by the move of `t0` into register `a(h+i)`. -/
theorem funcall_arg_moves (vt : DataType) (vk : VarKind) (iv : Int) (name : String)
    (args c1 c2 nx : ASTNode) (h lid : Int) (i : Nat)
    (hargs : ∀ j, j ≤ i → isArgument (nthSibling args j) = true) :
    (genCodeFromASTree (.node .AST_FUNCALL vt vk iv name args c1 c2 nx) h lid).out =
      [.cmtFuncall name] ++ (genCodeFromASTree args h lid).out ++ [.jal name] ++
        (genCodeFromASTree nx 0 (genCodeFromASTree args h lid).lid).out ∧
    ∃ (pre post : List Asm) (l : Int),
      (genCodeFromASTree args h lid).out =
        pre ++ (genCodeFromASTree (nthSibling args i).child0 (h + i) l).out ++
          [.mv (.a (h + i)) .t0] ++ post :=
  ⟨gen_funcall_out vt vk iv name args c1 c2 nx h lid, arglist_registers i args h lid hargs⟩

/-- C5 fails for a call nested in an argument that is not the first. The tree
`f(1, g(2))` generated from the root with helper value 0 gives nine lines, in
which the argument of `g` is moved into `a1`, not `a0` (line 5, between
`#--funcall to g--` and `jal g`): the call of `g` is generated with helper
value 1. Run from its first line, the code reaches `jal g` (line 6) with `a0`
holding 1, the first argument of `f`, and the argument 2 of `g` in `a1`; a
function reads its first parameter from `a0`. -/
theorem nested_call_registers (addr : String → Word) (reg : Reg → Word) (mem : Word → Word) :
    (genCodeFromASTree nestedCall 0 100).out =
      [.cmtFuncall "f", .li .t0 1, .mv (.a 0) .t0,
        .cmtFuncall "g", .li .t0 2, .mv (.a 1) .t0, .jal "g",
        .mv (.a 1) .t0, .jal "f"] ∧
    ∃ s', steps addr (genCodeFromASTree nestedCall 0 100).out 6 ⟨0, reg, mem⟩ = some s' ∧
      s'.pc = 6 ∧ (genCodeFromASTree nestedCall 0 100).out[6]? = some (.jal "g") ∧
      s'.reg (.a 0) = Word.ofInt 1 ∧ s'.reg (.a 1) = Word.ofInt 2 := by
  have hout : (genCodeFromASTree nestedCall 0 100).out =
      [.cmtFuncall "f", .li .t0 1, .mv (.a 0) .t0,
        .cmtFuncall "g", .li .t0 2, .mv (.a 1) .t0, .jal "g",
        .mv (.a 1) .t0, .jal "f"] := by decide
  refine ⟨hout, ?_⟩
  rw [hout]
  refine ⟨_, rfl, rfl, rfl, ?_, ?_⟩
  · simp [Machine.advance, Machine.setReg]
  · simp [Machine.advance, Machine.setReg]

/-! ## Parameter slots -/

theorem gen_function_out (vt : DataType) (vk : VarKind) (iv : Int) (name : String)
    (c0 c1 c2 nx : ASTNode) (h lid : Int) :
    (genCodeFromASTree (.node .AST_FUNCTION vt vk iv name c0 c1 c2 nx) h lid).out =
      [.comment "\t#--FUNCTION--\n", .symLabel name, .addi .sp .sp (-128), .sw .fp 4 .sp,
        .sw .ra 0 .sp, .mv .fp .sp, .sw (.a 0) 8 .sp, .sw (.a 1) 12 .sp, .sw (.a 2) 16 .sp,
        .sw (.a 3) 20 .sp, .sw (.a 4) 24 .sp, .sw (.a 5) 28 .sp] ++
      (genCodeFromASTree c1 h lid).out ++
      [.mv .sp .fp, .lw .fp 4 .sp, .lw .ra 0 .sp, .addi .sp .sp 128, .ret, .comment "\n"] ++
      (genCodeFromASTree nx h (genCodeFromASTree c1 h lid).lid).out := by
  simp [genCodeFromASTree]

theorem Word.add_ofInt_ne (w : Word) (m n : Int) (hm0 : 0 ≤ m) (hm : m < 4294967296)
    (hn0 : 0 ≤ n) (hn : n < 4294967296) (hne : m ≠ n) :
    w.add (Word.ofInt m) ≠ w.add (Word.ofInt n) := by
  intro h
  have h' := congrArg Fin.val h
  have hw := w.isLt
  simp only [Word.add_val, Word.ofInt] at h'
  omega

/-- The state after the prologue of a function: every argument register `a i`,
`0 ≤ i ≤ 5`, is in the frame word at offset `(i + 2) * 4` from `fp`. -/
theorem prologue_spills (addr : String → Word) (name : String) (s : Machine) :
    ∃ s1, execSeq addr
        [.comment "\t#--FUNCTION--\n", .symLabel name, .addi .sp .sp (-128), .sw .fp 4 .sp,
          .sw .ra 0 .sp, .mv .fp .sp, .sw (.a 0) 8 .sp, .sw (.a 1) 12 .sp, .sw (.a 2) 16 .sp,
          .sw (.a 3) 20 .sp, .sw (.a 4) 24 .sp, .sw (.a 5) 28 .sp] s = some s1 ∧
      s1.pc = s.pc + 12 ∧
      ∀ i : Int, 0 ≤ i → i ≤ 5 →
        s1.mem ((s1.reg .fp).add (Word.ofInt ((i + 2) * 4))) = s.reg (.a i) := by
  refine ⟨_, rfl, ?_, ?_⟩
  · simp [Nat.add_assoc]
  · intro i h0 h5
    have hne := Word.add_ofInt_ne ((s.reg .sp).add (Word.ofInt (-128)))
    obtain rfl | rfl | rfl | rfl | rfl | rfl : i = 0 ∨ i = 1 ∨ i = 2 ∨ i = 3 ∨ i = 4 ∨ i = 5 := by
      omega
    all_goals
      simp [hne 8 12, hne 8 16, hne 8 20, hne 8 24, hne 8 28, hne 12 16, hne 12 20, hne 12 24,
        hne 12 28, hne 16 20, hne 16 24, hne 16 28, hne 20 24, hne 20 28, hne 24 28]

/-- C6: frame slot `i`, `0 ≤ i ≤ 5`, of a parameter or local. The prologue of a
`Function` stores `a i` at offset `(i + 2) * 4` from `sp` (line `6 + i` of the
function's code), after `mv fp, sp`; a `VarRef` of the slot is the load
`lw t0, (i+2)*4(fp)` and an `Assignment` to it ends with the store
`sw t0, (i+2)*4(fp)`; the offset lies in the 128-byte frame above the two save
slots 0 and 4 and differs from the offset of every other slot; and running the
code of a function whose body is the `VarRef` through that load (13 lines)
leaves in `t0` the value `a i` had on entry. -/
theorem param_slot_offsets (addr : String → Word) (kind : VarKind) (i : Int)
    (hk : kind = .V_PARAM ∨ kind = .V_LOCAL) (h0 : 0 ≤ i) (h5 : i ≤ 5)
    (vt vt1 vt2 : DataType) (vk : VarKind) (iv : Int) (name sv1 sv2 : String)
    (params locals rhs d0 d1 d2 e1 e2 : ASTNode) (h lid : Int) (s : Machine)
    (hpc : s.pc = 0) :
    (genCodeFromASTree (.node .AST_FUNCTION vt vk iv name params
        (.node .AST_VARREF vt1 kind i sv1 d0 d1 d2 .null) locals .null) h lid).out[5]? =
      some (.mv .fp .sp) ∧
    (genCodeFromASTree (.node .AST_FUNCTION vt vk iv name params
        (.node .AST_VARREF vt1 kind i sv1 d0 d1 d2 .null) locals .null) h lid).out[6 + i.toNat]? =
      some (.sw (.a i) ((i + 2) * 4) .sp) ∧
    (genCodeFromASTree (.node .AST_VARREF vt1 kind i sv1 d0 d1 d2 .null) h lid).out =
      [.lw .t0 ((i + 2) * 4) .fp] ∧
    (genCodeFromASTree (.node .AST_ASSIGNMENT vt2 kind i sv2 rhs e1 e2 .null) h lid).out =
      [.comment "\t#--assignment--\n"] ++ (genCodeFromASTree rhs 0 lid).out ++
        [.sw .t0 ((i + 2) * 4) .fp] ∧
    (8 ≤ (i + 2) * 4 ∧ (i + 2) * 4 + 4 ≤ 128) ∧
    (∀ j : Int, 0 ≤ j → j ≤ 5 → j ≠ i → (j + 2) * 4 ≠ (i + 2) * 4) ∧
    ∃ s', steps addr (genCodeFromASTree (.node .AST_FUNCTION vt vk iv name params
        (.node .AST_VARREF vt1 kind i sv1 d0 d1 d2 .null) locals .null) h lid).out 13 s =
        some s' ∧
      s'.reg .fp = s'.reg .sp ∧ s'.reg .t0 = s.reg (.a i) := by
  have hw : wrapInt ((i + 2) * 4) = (i + 2) * 4 := wrapInt_eq _ (by omega) (by omega)
  have hvar : (genCodeFromASTree (.node .AST_VARREF vt1 kind i sv1 d0 d1 d2 .null) h lid).out =
      [.lw .t0 ((i + 2) * 4) .fp] := by
    rcases hk with rfl | rfl <;> simp [genCodeFromASTree, Gen.skip, hw]
  have hfun := gen_function_out vt vk iv name params
    (.node .AST_VARREF vt1 kind i sv1 d0 d1 d2 .null) locals .null h lid
  rw [hvar] at hfun
  refine ⟨?_, ?_, hvar, ?_, by omega, by intro j _ _ hj; omega, ?_⟩
  · rw [hfun]; rfl
  · rw [hfun]
    obtain rfl | rfl | rfl | rfl | rfl | rfl : i = 0 ∨ i = 1 ∨ i = 2 ∨ i = 3 ∨ i = 4 ∨ i = 5 := by
      omega
    all_goals rfl
  · rcases hk with rfl | rfl <;> simp [genCodeFromASTree, Gen.skip, hw]
  · obtain ⟨s1, hs1, hpc1, hmem⟩ := prologue_spills addr name s
    have hfp : s1.reg .fp = s1.reg .sp := by
      simp only [execSeq, execLine, Option.some.injEq] at hs1
      rw [← hs1]
      simp
    let s2 : Machine :=
      (s1.setReg .t0 (s1.mem ((s1.reg .fp).add (Word.ofInt ((i + 2) * 4))))).advance
    have hload : execSeq addr [.lw .t0 ((i + 2) * 4) .fp] s1 = some s2 := rfl
    have hseq : execSeq addr
        ([.comment "\t#--FUNCTION--\n", .symLabel name, .addi .sp .sp (-128), .sw .fp 4 .sp,
          .sw .ra 0 .sp, .mv .fp .sp, .sw (.a 0) 8 .sp, .sw (.a 1) 12 .sp, .sw (.a 2) 16 .sp,
          .sw (.a 3) 20 .sp, .sw (.a 4) 24 .sp, .sw (.a 5) 28 .sp] ++
          [.lw .t0 ((i + 2) * 4) .fp]) s = some s2 := by
      rw [execSeq_append, hs1]
      exact hload
    refine ⟨s2, ?_, ?_, ?_⟩
    · rw [hfun, ← hseq]
      have hst : ∀ j ∈ ([Asm.comment "\t#--FUNCTION--\n", .symLabel name,
          .addi .sp .sp (-128), .sw .fp 4 .sp, .sw .ra 0 .sp, .mv .fp .sp, .sw (.a 0) 8 .sp,
          .sw (.a 1) 12 .sp, .sw (.a 2) 16 .sp, .sw (.a 3) 20 .sp, .sw (.a 4) 24 .sp,
          .sw (.a 5) 28 .sp] ++ [.lw .t0 ((i + 2) * 4) .fp]), j.straight = true := by
        intro j hj
        simp at hj
        rcases hj with rfl | rfl | rfl | rfl | rfl | rfl | rfl | rfl | rfl | rfl | rfl | rfl |
          rfl <;> rfl
      have hc := codeAt_middle
        ([Asm.comment "\t#--FUNCTION--\n", .symLabel name,
          .addi .sp .sp (-128), .sw .fp 4 .sp, .sw .ra 0 .sp, .mv .fp .sp, .sw (.a 0) 8 .sp,
          .sw (.a 1) 12 .sp, .sw (.a 2) 16 .sp, .sw (.a 3) 20 .sp, .sw (.a 4) 24 .sp,
          .sw (.a 5) 28 .sp] ++ [.lw .t0 ((i + 2) * 4) .fp])
        ([.mv .sp .fp, .lw .fp 4 .sp, .lw .ra 0 .sp, .addi .sp .sp 128, .ret, .comment "\n"] ++
          (genCodeFromASTree .null h
            (genCodeFromASTree (.node .AST_VARREF vt1 kind i sv1 d0 d1 d2 .null) h lid).lid).out)
        []
      have hsteps := steps_straight addr _ _ s hst (by rw [hpc]; exact hc)
      simp only [List.nil_append, List.append_assoc, List.length_append, List.length_cons,
        List.length_nil] at hsteps ⊢
      exact hsteps
    · simp only [s2, Machine.advance_reg, Machine.setReg_reg]
      rw [if_neg (by decide), if_neg (by decide)]
      exact hfp
    · simp only [s2, Machine.advance_reg, Machine.setReg_reg, if_true]
      exact hmem i h0 h5

/-- C6 on a call with arguments `(1, 2, 3)`: a body reading parameter 0, 1 or 2
gets 1, 2 or 3 in `t0`. -/
theorem param_slot_offsets_witness :
    (∃ s', steps (fun _ => 0) (genCodeFromASTree
        (function "f" .null (slotRef .V_PARAM 0) .null) 0 100).out 13
        ⟨0, fun r => if r = .a 0 then 1 else if r = .a 1 then 2 else if r = .a 2 then 3 else 0,
          fun _ => 0⟩ = some s' ∧ s'.reg .t0 = 1) ∧
    (∃ s', steps (fun _ => 0) (genCodeFromASTree
        (function "f" .null (slotRef .V_PARAM 1) .null) 0 100).out 13
        ⟨0, fun r => if r = .a 0 then 1 else if r = .a 1 then 2 else if r = .a 2 then 3 else 0,
          fun _ => 0⟩ = some s' ∧ s'.reg .t0 = 2) ∧
    (∃ s', steps (fun _ => 0) (genCodeFromASTree
        (function "f" .null (slotRef .V_PARAM 2) .null) 0 100).out 13
        ⟨0, fun r => if r = .a 0 then 1 else if r = .a 1 then 2 else if r = .a 2 then 3 else 0,
          fun _ => 0⟩ = some s' ∧ s'.reg .t0 = 3) := by
  refine ⟨?_, ?_, ?_⟩
  · obtain ⟨s', h1, _, h2⟩ := (param_slot_offsets (fun _ => 0) .V_PARAM 0 (Or.inl rfl)
      (by decide) (by decide) .T_INT .T_INT .T_INT .V_GLOBAL 0 "f" "" "" .null .null .null
      .null .null .null .null .null 0 100
      ⟨0, fun r => if r = .a 0 then 1 else if r = .a 1 then 2 else if r = .a 2 then 3 else 0,
        fun _ => 0⟩ rfl).2.2.2.2.2.2
    exact ⟨s', h1, h2⟩
  · obtain ⟨s', h1, _, h2⟩ := (param_slot_offsets (fun _ => 0) .V_PARAM 1 (Or.inl rfl)
      (by decide) (by decide) .T_INT .T_INT .T_INT .V_GLOBAL 0 "f" "" "" .null .null .null
      .null .null .null .null .null 0 100
      ⟨0, fun r => if r = .a 0 then 1 else if r = .a 1 then 2 else if r = .a 2 then 3 else 0,
        fun _ => 0⟩ rfl).2.2.2.2.2.2
    exact ⟨s', h1, h2⟩
  · obtain ⟨s', h1, _, h2⟩ := (param_slot_offsets (fun _ => 0) .V_PARAM 2 (Or.inl rfl)
      (by decide) (by decide) .T_INT .T_INT .T_INT .V_GLOBAL 0 "f" "" "" .null .null .null
      .null .null .null .null .null 0 100
      ⟨0, fun r => if r = .a 0 then 1 else if r = .a 1 then 2 else if r = .a 2 then 3 else 0,
        fun _ => 0⟩ rfl).2.2.2.2.2.2
    exact ⟨s', h1, h2⟩

/-! ## Label identifiers -/

theorem gen_while_issued (vt : DataType) (vk : VarKind) (iv : Int) (sv : String)
    (c0 c1 c2 nx : ASTNode) (h lid : Int) :
    (genCodeFromASTree (.node .AST_WHILE vt vk iv sv c0 c1 c2 nx) h lid).issued =
      lid :: (lid + 1) ::
      ((genCodeFromASTree c1 h (lid + 2)).issued ++
      (genCodeFromASTree c0 lid (genCodeFromASTree c1 h (lid + 2)).lid).issued ++
      (genCodeFromASTree nx h
        (genCodeFromASTree c0 lid (genCodeFromASTree c1 h (lid + 2)).lid).lid).issued) := by
  simp [genCodeFromASTree, add_assoc]

/-- C7: the values `getUniqueLabelID` returns while a tree is generated are
strictly increasing in the order of issue, hence pairwise distinct; the label
lines of the output carry exactly the issued identifiers, each once; and a
`WhileLoop` or `IfThenElse` node takes the next two of them, `lid` and
`lid + 1`, for its two label lines before anything is issued for its children
and siblings. -/
theorem label_ids_distinct (t : ASTNode) (h lid : Int) :
    List.Pairwise (fun x y => x < y) (genCodeFromASTree t h lid).issued ∧
    (genCodeFromASTree t h lid).issued.Nodup ∧
    (labelDefs (genCodeFromASTree t h lid).out).Perm (genCodeFromASTree t h lid).issued ∧
    (labelDefs (genCodeFromASTree t h lid).out).Nodup ∧
    (∀ (vt : DataType) (vk : VarKind) (iv : Int) (sv : String) (c0 c1 c2 nx : ASTNode),
      ∃ rest, (genCodeFromASTree (.node .AST_WHILE vt vk iv sv c0 c1 c2 nx) h lid).issued =
          lid :: (lid + 1) :: rest ∧
        .label lid ∈ (genCodeFromASTree (.node .AST_WHILE vt vk iv sv c0 c1 c2 nx) h lid).out ∧
        .label (lid + 1) ∈
          (genCodeFromASTree (.node .AST_WHILE vt vk iv sv c0 c1 c2 nx) h lid).out) ∧
    (∀ (vt : DataType) (vk : VarKind) (iv : Int) (sv : String) (c0 c1 c2 nx : ASTNode),
      ∃ rest, (genCodeFromASTree (.node .AST_IFTHEN vt vk iv sv c0 c1 c2 nx) h lid).issued =
          lid :: (lid + 1) :: rest ∧
        .label lid ∈ (genCodeFromASTree (.node .AST_IFTHEN vt vk iv sv c0 c1 c2 nx) h lid).out ∧
        .label (lid + 1) ∈
          (genCodeFromASTree (.node .AST_IFTHEN vt vk iv sv c0 c1 c2 nx) h lid).out) := by
  have hp : List.Pairwise (fun x y => x < y) (genCodeFromASTree t h lid).issued := by
    rw [gen_issued]; exact labelRange_pairwise _ _
  have hn : (genCodeFromASTree t h lid).issued.Nodup :=
    hp.imp (fun hxy => ne_of_lt hxy)
  refine ⟨hp, hn, gen_labelDefs_perm t h lid, (gen_labelDefs_perm t h lid).nodup_iff.mpr hn,
    ?_, ?_⟩
  · intro vt vk iv sv c0 c1 c2 nx
    refine ⟨_, gen_while_issued vt vk iv sv c0 c1 c2 nx h lid, ?_, ?_⟩ <;>
      simp [genCodeFromASTree]
  · intro vt vk iv sv c0 c1 c2 nx
    refine ⟨_, gen_ifthen_issued vt vk iv sv c0 c1 c2 nx h lid, ?_, ?_⟩ <;>
      simp [genCodeFromASTree]

/-! ## The traversal -/

/-- C8 fails on a function with a parameter: the program with the one function
`f(x) { x = 1 }` is well-formed and has five nodes, and the generator is
invoked on four of them; the `VarDecl` of the parameter (child 0 of the
`Function`, at path `c1, c0`) is a node of the tree and is not visited. -/
theorem param_decl_not_visited :
    wellFormed oneParamProgram = true ∧ nodeCount oneParamProgram = 5 ∧
    (genCodeFromASTree oneParamProgram 0 100).visited =
      [[], [.c1], [.c1, .c1], [.c1, .c1, .c0]] ∧
    oneParamProgram.at [.c1, .c0] = paramDecl "x" 0 := by
  decide

/-- The invocation log of the generator does not depend on the helper value or
the label counter. -/
theorem gen_visited (t : ASTNode) : ∀ h lid : Int,
    (genCodeFromASTree t h lid).visited = traversal t := by
  induction t with
  | null => intro h lid; simp [genCodeFromASTree, Gen.skip, traversal]
  | node ty vt vk iv sv c0 c1 c2 nx ih0 ih1 ih2 ihn =>
    intro h lid
    cases ty
    case AST_VARDECL =>
      cases vt <;> cases vk <;> simp [genCodeFromASTree, traversal, ihn]
    case AST_ASSIGNMENT =>
      cases vk <;> simp [genCodeFromASTree, traversal, ih0, ih1, ihn]
    case AST_VARREF =>
      cases vk <;> simp [genCodeFromASTree, traversal, ih0, ihn]
    case AST_CONSTANT =>
      cases vt <;> simp [genCodeFromASTree, traversal, ihn]
    all_goals simp [genCodeFromASTree, traversal, ih0, ih1, ih2, ihn]

theorem mem_map_cons (d e : Dir) (q : List Dir) (v : List (List Dir)) :
    (e :: q) ∈ v.map (fun p => d :: p) ↔ e = d ∧ q ∈ v := by
  simp only [List.mem_map, List.cons.injEq]
  constructor
  · rintro ⟨a, ha, rfl, rfl⟩; exact ⟨rfl, ha⟩
  · rintro ⟨rfl, hq⟩; exact ⟨q, hq, rfl, rfl⟩

theorem nil_not_mem_map_cons (d : Dir) (v : List (List Dir)) :
    [] ∉ v.map (fun p => d :: p) := by
  simp

theorem nodup_map_cons (d : Dir) (v : List (List Dir)) :
    (v.map (fun p => d :: p)).Nodup ↔ v.Nodup :=
  List.nodup_map_iff (fun _ _ hab => (List.cons.inj hab).2)

theorem disjoint_map_cons (d e : Dir) (hde : d ≠ e) (v w : List (List Dir)) :
    List.Disjoint (v.map (fun p => d :: p)) (w.map (fun p => e :: p)) := by
  intro p hv hw
  simp only [List.mem_map] at hv hw
  obtain ⟨a, _, rfl⟩ := hv
  obtain ⟨b, _, hb⟩ := hw
  exact hde (List.cons.inj hb).1.symm

theorem traversal_nodup (t : ASTNode) : (traversal t).Nodup := by
  induction t with
  | null => simp [traversal]
  | node ty vt vk iv sv c0 c1 c2 nx ih0 ih1 ih2 ihn =>
    cases ty
    case AST_ASSIGNMENT =>
      cases vk <;>
        simp [traversal, List.nodup_append, nodup_map_cons, ih0, ih1, ihn,
          disjoint_map_cons, List.disjoint_append_left, List.disjoint_append_right]
    case AST_VARREF =>
      cases vk <;>
        simp [traversal, List.nodup_append, nodup_map_cons, ih0, ihn,
          disjoint_map_cons, List.disjoint_append_left, List.disjoint_append_right]
    all_goals
      simp [traversal, List.nodup_append, nodup_map_cons, ih0, ih1, ih2, ihn,
        disjoint_map_cons, List.disjoint_append_left, List.disjoint_append_right]

theorem traversal_mem (t : ASTNode) :
    ∀ p, p ∈ traversal t ↔ reached t p = true := by
  induction t with
  | null => intro p; simp [traversal, reached]
  | node ty vt vk iv sv c0 c1 c2 nx i0 i1 i2 inx =>
    intro p
    cases p with
    | nil => simp [traversal, reached]
    | cons d q =>
      cases ty
      case AST_ASSIGNMENT =>
        cases vk <;> cases d <;>
          simp [traversal, reached, descends, mem_map_cons, i0, i1, inx]
      case AST_VARREF =>
        cases vk <;> cases d <;>
          simp [traversal, reached, descends, mem_map_cons, i0, inx]
      all_goals
        cases d <;> simp [traversal, reached, descends, mem_map_cons, i0, i1, i2, inx]

theorem traversal_length (t : ASTNode) : (traversal t).length ≤ nodeCount t := by
  induction t with
  | null => simp [traversal]
  | node ty vt vk iv sv c0 c1 c2 nx ih0 ih1 ih2 ihn =>
    cases ty
    case AST_ASSIGNMENT =>
      cases vk <;> simp [traversal, nodeCount] <;> omega
    case AST_VARREF =>
      cases vk <;> simp [traversal, nodeCount] <;> omega
    all_goals
      simp [traversal, nodeCount]
      omega

theorem reached_at (p : List Dir) : ∀ t : ASTNode, reached t p = true → t.at p ≠ .null := by
  induction p with
  | nil =>
    intro t ht
    cases t with
    | null => simp [reached] at ht
    | node ty vt vk iv sv c0 c1 c2 nx => simp [ASTNode.at]
  | cons d q ih =>
    intro t ht
    cases t with
    | null => simp [reached] at ht
    | node ty vt vk iv sv c0 c1 c2 nx =>
      simp only [reached, Bool.and_eq_true] at ht
      cases d <;> exact ih _ ht.2

/-- C8, as the code has it, on every tree: the generator is a total function
(it returns on every tree); it is invoked at most once on each node; the nodes
it is invoked on are exactly those reached from the root through `next` links
and through the child slots it calls itself on (`descends`: not the parameter
and local lists of a `Function`, children 0 and 2, and not the statements of a
`StatementBlock`, which `printASTree` prints); each of them is a node of the
tree, so there are at most as many invocations as nodes. -/
theorem visits_reached_once (t : ASTNode) (h lid : Int) :
    (genCodeFromASTree t h lid).visited.Nodup ∧
    (∀ p, p ∈ (genCodeFromASTree t h lid).visited ↔ reached t p = true) ∧
    (∀ p, p ∈ (genCodeFromASTree t h lid).visited → t.at p ≠ .null) ∧
    (genCodeFromASTree t h lid).visited.length ≤ nodeCount t := by
  rw [gen_visited]
  refine ⟨traversal_nodup t, traversal_mem t, ?_, traversal_length t⟩
  intro p hp
  exact reached_at p t ((traversal_mem t p).mp hp)

/-- C8 on the program with the one function `f(x) { x = 1 }`: the four
invocations are on four different nodes, and the path `c1, c1` (the body of
the function) is among them. -/
theorem visits_reached_once_witness :
    (genCodeFromASTree oneParamProgram 0 100).visited.Nodup ∧
    ([Dir.c1, Dir.c1] ∈ (genCodeFromASTree oneParamProgram 0 100).visited ↔
      reached oneParamProgram [.c1, .c1] = true) ∧
    (genCodeFromASTree oneParamProgram 0 100).visited.length ≤ 5 :=
  have w := visits_reached_once oneParamProgram 0 100
  ⟨w.1, w.2.1 [.c1, .c1], w.2.2.2⟩

/-! ## Variable declarations -/

/-- C15: a `VarDecl` node of value type Int with name `s` and integer value `n`
emits one line (followed by the output for its siblings): `s: .word 0` for
storage kind Global; `s: .space` with the `int` product `n*4` for GlobalArray;
the store of `a<n>` at the `int` offset `(n+2)*4` from `fp` for Parameter and
for Local. The `int` product is `n*4`, and the offset `(n+2)*4`, when that
value is in the range of a 32-bit `int`. Beyond it the line is not the one the
claim gives: for `n = 536870912` the generator prints `.space -2147483648`, not
a reservation of `n*4 = 2147483648` bytes. -/
theorem vardecl_int_line (enc : DataType → Int) (data junk : String) (s : String) (n : Int)
    (c0 c1 c2 nx : ASTNode) (h lid : Int) :
    ((genCodeFromASTree (.node .AST_VARDECL .T_INT .V_GLOBAL n s c0 c1 c2 nx) h lid).out =
        [.word0 s] ++ (genCodeFromASTree nx h lid).out ∧
      Asm.render enc data junk (.word0 s) = s ++ ":\t.word\t0\n") ∧
    ((genCodeFromASTree (.node .AST_VARDECL .T_INT .V_GLARRAY n s c0 c1 c2 nx) h lid).out =
        [.space s (wrapInt (n * 4))] ++ (genCodeFromASTree nx h lid).out ∧
      Asm.render enc data junk (.space s (wrapInt (n * 4))) =
        s ++ ":\t.space\t" ++ toString (wrapInt (n * 4)) ++ "\n" ∧
      (-2147483648 ≤ n * 4 → n * 4 < 2147483648 → wrapInt (n * 4) = n * 4)) ∧
    ((genCodeFromASTree (.node .AST_VARDECL .T_INT .V_PARAM n s c0 c1 c2 nx) h lid).out =
        [.sw (.a n) (wrapInt ((n + 2) * 4)) .fp] ++ (genCodeFromASTree nx h lid).out ∧
      (genCodeFromASTree (.node .AST_VARDECL .T_INT .V_LOCAL n s c0 c1 c2 nx) h lid).out =
        [.sw (.a n) (wrapInt ((n + 2) * 4)) .fp] ++ (genCodeFromASTree nx h lid).out ∧
      Asm.render enc data junk (.sw (.a n) (wrapInt ((n + 2) * 4)) .fp) =
        "\tsw\ta" ++ toString n ++ ", " ++ toString (wrapInt ((n + 2) * 4)) ++ "(fp)\n" ∧
      (-2147483648 ≤ (n + 2) * 4 → (n + 2) * 4 < 2147483648 →
        wrapInt ((n + 2) * 4) = (n + 2) * 4)) ∧
    ((genCodeFromASTree (.node .AST_VARDECL .T_INT .V_GLARRAY 536870912 s c0 c1 c2 nx)
        h lid).out = [.space s (-2147483648)] ++ (genCodeFromASTree nx h lid).out ∧
      Asm.render enc data junk (.space s (-2147483648)) = s ++ ":\t.space\t-2147483648\n" ∧
      (536870912 : Int) * 4 = 2147483648) := by
  refine ⟨⟨?_, rfl⟩, ⟨?_, rfl, ?_⟩, ⟨?_, ?_, ?_, ?_⟩, ⟨?_, ?_, by decide⟩⟩
  · simp [genCodeFromASTree]
  · simp [genCodeFromASTree]
  · intro h0 h1
    exact wrapInt_eq _ h0 h1
  · simp [genCodeFromASTree]
  · simp [genCodeFromASTree]
  · simp only [Asm.render, Reg.render, String.append_assoc]
    rw [← String.append_assoc "\tsw\t" "a"]
    rfl
  · intro h0 h1
    exact wrapInt_eq _ h0 h1
  · have e : wrapInt 2147483648 = -2147483648 := by decide
    simp [genCodeFromASTree, e]
  · simp only [Asm.render, String.append_assoc]
    rfl

/-- C15 on an array of 10 words and on frame slot 1: within the range of an
`int` the lines are `s: .space 40` and `sw a1, 12(fp)`. -/
theorem vardecl_int_line_witness :
    wrapInt (10 * 4) = 40 ∧ wrapInt ((1 + 2) * 4) = 12 :=
  ⟨(vardecl_int_line (fun _ => 0) "" "" "s" 10 .null .null .null .null 0 100).2.1.2.2
      (by decide) (by decide),
    (vardecl_int_line (fun _ => 0) "" "" "s" 1 .null .null .null .null 0 100).2.2.1.2.2.2
      (by decide) (by decide)⟩

/-! ## Relational expressions -/

theorem gen_relexpr_out (vt : DataType) (vk : VarKind) (iv : Int) (sv : String)
    (c0 c1 c2 nx : ASTNode) (h lid : Int) :
    (genCodeFromASTree (.node .AST_RELEXPR vt vk iv sv c0 c1 c2 nx) h lid).out =
      [.cmtRelExpr iv] ++ (genCodeFromASTree c0 0 lid).out ++ pushT0 ++
      (genCodeFromASTree c1 0 (genCodeFromASTree c0 0 lid).lid).out ++
      [.lw .t1 0 .sp, .addi .sp .sp 4,
        .branch (if iv = 61 then "beq" else if iv = 33 then "bne" else if iv = 62 then "bgt"
          else if iv = 60 then "blt" else "unknown relop") .t1 .t0 h] ++
      (genCodeFromASTree nx h
        (genCodeFromASTree c1 0 (genCodeFromASTree c0 0 lid).lid).lid).out := by
  simp [genCodeFromASTree]

/-- The code of a relational expression up to its branch, on arithmetic
operands: `t1` gets the value of the left operand and `t0` that of the right. -/
theorem execSeq_relexpr_operands (addr : String → Word) (iv : Int) (l r : ASTNode)
    (lid : Int) (s : Machine) (hl : isArith l = true) (hr : isArith r = true)
    (hroom1 : stackWords l ≤ 1073741824) (hroom2 : 1 + stackWords r ≤ 1073741824) :
    ∃ s', execSeq addr ([.cmtRelExpr iv] ++ (genCodeFromASTree l 0 lid).out ++ pushT0 ++
        (genCodeFromASTree r 0 (genCodeFromASTree l 0 lid).lid).out ++
        [.lw .t1 0 .sp, .addi .sp .sp 4]) s = some s' ∧
      s'.reg .t1 = evalArith l ∧ s'.reg .t0 = evalArith r ∧ s'.reg .sp = s.reg .sp := by
  obtain ⟨sa, hsa, _, hta, hra, _⟩ := execSeq_arith addr l 0 lid s.advance hl hroom1
  have hspa : sa.reg .sp = s.reg .sp := hra .sp (by decide) (by decide)
  let sp1 : Word := (s.reg .sp).add (Word.ofInt (-4))
  have hsp1 : sp1.val = ((s.reg .sp).val + 4294967292) % 4294967296 := by
    simp only [sp1, Word.add_val, ofInt_neg4_val]
  let sb : Machine := ((sa.setReg .sp sp1).advance.store sp1 (sa.reg .t0)).advance
  have e2 : execSeq addr pushT0 sa = some sb := by
    simp only [pushT0, execSeq, execLine, Machine.advance_reg, Machine.setReg_reg,
      if_true, hspa, Word.add_ofInt_zero, sb, sp1]
    rfl
  obtain ⟨sc, hsc, _, htc, hrc, hmc⟩ :=
    execSeq_arith addr r 0 (genCodeFromASTree l 0 lid).lid sb hr (by omega)
  have hsb_sp : sb.reg .sp = sp1 := by simp [sb]
  have hspc : sc.reg .sp = sp1 := by rw [hrc .sp (by decide) (by decide), hsb_sp]
  have hsp := (s.reg .sp).isLt
  have hmem1 : sc.mem sp1 = evalArith l := by
    rw [hmc sp1]
    · simp [sb, hta]
    · intro k hk1 hk2
      rw [hsb_sp]
      have := sp1.isLt
      omega
  have hback : sp1.add (Word.ofInt 4) = s.reg .sp := by
    apply Fin.ext
    simp only [Word.add_val, ofInt_4_val, hsp1]
    omega
  let sd : Machine := ((sc.setReg .t1 (evalArith l)).advance.setReg .sp (s.reg .sp)).advance
  have e3 : execSeq addr [.lw .t1 0 .sp, .addi .sp .sp 4] sc = some sd := by
    simp only [execSeq, execLine, Machine.advance_reg, Machine.setReg_reg, if_true, hspc,
      Word.add_ofInt_zero, hmem1, sd]
    rw [if_neg (by decide), hback]
  have e0 : execSeq addr [.cmtRelExpr iv] s = some s.advance := rfl
  refine ⟨sd, ?_, ?_, ?_, ?_⟩
  · simp only [execSeq_append, e0, hsa, e2, hsc, e3]
  · simp [sd]
  · simp [sd, htc]
  · simp [sd]

/-- C14: the code of a `RelationalExpr` node with operator `=`, `!`, `>` or `<`
generated with helper value `h` is (after its comment line) the code of the
left operand generated with helper value 0, the push of `t0`, the code of the
right operand generated with helper value 0, the pop into `t1`, and the branch
`beq`, `bne`, `bgt` or `blt` on `t1, t0` to the label numbered `h`; on
arithmetic operands (nesting within the word stack) the code up to the branch
leaves the left value in `t1` and the right value in `t0`. -/
theorem relexpr_code (addr : String → Word) (vt : DataType) (vk : VarKind) (iv : Int)
    (sv : String) (l r c2 nx : ASTNode) (h lid : Int)
    (hop : iv = 61 ∨ iv = 33 ∨ iv = 62 ∨ iv = 60) :
    (genCodeFromASTree (.node .AST_RELEXPR vt vk iv sv l r c2 nx) h lid).out =
      ([.cmtRelExpr iv] ++ (genCodeFromASTree l 0 lid).out ++ pushT0 ++
        (genCodeFromASTree r 0 (genCodeFromASTree l 0 lid).lid).out ++
        [.lw .t1 0 .sp, .addi .sp .sp 4]) ++
      [.branch (if iv = 61 then "beq" else if iv = 33 then "bne" else if iv = 62 then "bgt"
        else "blt") .t1 .t0 h] ++
      (genCodeFromASTree nx h
        (genCodeFromASTree r 0 (genCodeFromASTree l 0 lid).lid).lid).out ∧
    ∀ s : Machine, isArith l = true → isArith r = true →
      stackWords l ≤ 1073741824 → 1 + stackWords r ≤ 1073741824 →
      ∃ s', execSeq addr ([.cmtRelExpr iv] ++ (genCodeFromASTree l 0 lid).out ++ pushT0 ++
          (genCodeFromASTree r 0 (genCodeFromASTree l 0 lid).lid).out ++
          [.lw .t1 0 .sp, .addi .sp .sp 4]) s = some s' ∧
        s'.reg .t1 = evalArith l ∧ s'.reg .t0 = evalArith r ∧ s'.reg .sp = s.reg .sp := by
  refine ⟨?_, fun s hl hr h1 h2 => execSeq_relexpr_operands addr iv l r lid s hl hr h1 h2⟩
  rw [gen_relexpr_out]
  rcases hop with rfl | rfl | rfl | rfl <;> simp

/-- C14 at `1 < 2` generated with helper value 100: the branch is
`blt t1, t0, .LL100`, reached with 1 in `t1` and 2 in `t0`. -/
theorem relexpr_code_witness :
    (genCodeFromASTree (relExpr 60 (intConst 1) (intConst 2)) 100 7).out =
      [.cmtRelExpr 60, .li .t0 1, .addi .sp .sp (-4), .sw .t0 0 .sp, .li .t0 2,
        .lw .t1 0 .sp, .addi .sp .sp 4, .branch "blt" .t1 .t0 100] ∧
    ∃ s', execSeq (fun _ => 0)
        [.cmtRelExpr 60, .li .t0 1, .addi .sp .sp (-4), .sw .t0 0 .sp, .li .t0 2,
          .lw .t1 0 .sp, .addi .sp .sp 4]
        ⟨0, fun r => if r = .sp then 2147479552 else 0, fun _ => 0⟩ = some s' ∧
      s'.reg .t1 = 1 ∧ s'.reg .t0 = 2 ∧ s'.reg .sp = 2147479552 :=
  have w := relexpr_code (fun _ => 0) .T_INT .V_GLOBAL 60 "" (intConst 1) (intConst 2) .null
    .null 100 7 (by decide)
  ⟨w.1, w.2 ⟨0, fun r => if r = .sp then 2147479552 else 0, fun _ => 0⟩ (by decide) (by decide)
    (by decide) (by decide)⟩

/-! ## While loops -/

theorem gen_while_out (vt : DataType) (vk : VarKind) (iv : Int) (sv : String)
    (c0 c1 c2 nx : ASTNode) (h lid : Int) :
    (genCodeFromASTree (.node .AST_WHILE vt vk iv sv c0 c1 c2 nx) h lid).out =
      [.comment "\t#--While loop--\n", .b (lid + 1), .label lid, .comment "\t#--body--\n"] ++
      (genCodeFromASTree c1 h (lid + 2)).out ++
      [.comment "\t#--condition--\n", .label (lid + 1)] ++
      (genCodeFromASTree c0 lid (genCodeFromASTree c1 h (lid + 2)).lid).out ++
      [.comment "\t#--endloop--\n"] ++
      (genCodeFromASTree nx h
        (genCodeFromASTree c0 lid (genCodeFromASTree c1 h (lid + 2)).lid).lid).out := by
  simp [genCodeFromASTree, add_assoc]

/-- C13: the code of a `WhileLoop` node. Its body label `B = lid` and its
condition label `C = lid + 1` are the next two values of `getUniqueLabelID` and
differ; the output is `b C`, the line of `B`, the body (child 1) generated with
the caller's helper value, the line of `C`, the condition (child 0) generated
with helper value `B`, then the siblings; `b C` is resolved to the line of `C`
after the body and a branch to `B` to line 2; and a `RelationalExpr` generated
with helper value `B` ends with a branch to `.LL<B>`. -/
theorem while_layout (vt : DataType) (vk : VarKind) (iv : Int)
    (sv : String) (c0 c1 c2 nx : ASTNode) (h lid : Int) :
    lid ≠ lid + 1 ∧
    (genCodeFromASTree (.node .AST_WHILE vt vk iv sv c0 c1 c2 nx) h lid).issued =
      lid :: (lid + 1) ::
      ((genCodeFromASTree c1 h (lid + 2)).issued ++
      (genCodeFromASTree c0 lid (genCodeFromASTree c1 h (lid + 2)).lid).issued ++
      (genCodeFromASTree nx h
        (genCodeFromASTree c0 lid (genCodeFromASTree c1 h (lid + 2)).lid).lid).issued) ∧
    (genCodeFromASTree (.node .AST_WHILE vt vk iv sv c0 c1 c2 nx) h lid).out =
      [.comment "\t#--While loop--\n", .b (lid + 1), .label lid, .comment "\t#--body--\n"] ++
      (genCodeFromASTree c1 h (lid + 2)).out ++
      [.comment "\t#--condition--\n", .label (lid + 1)] ++
      (genCodeFromASTree c0 lid (genCodeFromASTree c1 h (lid + 2)).lid).out ++
      [.comment "\t#--endloop--\n"] ++
      (genCodeFromASTree nx h
        (genCodeFromASTree c0 lid (genCodeFromASTree c1 h (lid + 2)).lid).lid).out ∧
    findLine (.label (lid + 1))
        (genCodeFromASTree (.node .AST_WHILE vt vk iv sv c0 c1 c2 nx) h lid).out =
      some (5 + (genCodeFromASTree c1 h (lid + 2)).out.length) ∧
    findLine (.label lid)
        (genCodeFromASTree (.node .AST_WHILE vt vk iv sv c0 c1 c2 nx) h lid).out = some 2 ∧
    ∀ (vt1 : DataType) (vk1 : VarKind) (op : Int) (sv1 : String) (l r d2 : ASTNode) (k : Int),
      ∃ pre code, (genCodeFromASTree (.node .AST_RELEXPR vt1 vk1 op sv1 l r d2 .null) lid k).out =
        pre ++ [.branch code .t1 .t0 lid] := by
  refine ⟨by omega, gen_while_issued vt vk iv sv c0 c1 c2 nx h lid,
    gen_while_out vt vk iv sv c0 c1 c2 nx h lid, ?_, ?_, ?_⟩
  · rw [gen_while_out]
    have hb := gen_labelDefs_mem c1 h (lid + 2) (lid + 1)
    have e : [Asm.comment "\t#--While loop--\n", .b (lid + 1), .label lid,
        .comment "\t#--body--\n"] ++ (genCodeFromASTree c1 h (lid + 2)).out ++
        [.comment "\t#--condition--\n", .label (lid + 1)] ++
        (genCodeFromASTree c0 lid (genCodeFromASTree c1 h (lid + 2)).lid).out ++
        [.comment "\t#--endloop--\n"] ++
        (genCodeFromASTree nx h
          (genCodeFromASTree c0 lid (genCodeFromASTree c1 h (lid + 2)).lid).lid).out =
        ([Asm.comment "\t#--While loop--\n", .b (lid + 1), .label lid,
          .comment "\t#--body--\n"] ++ (genCodeFromASTree c1 h (lid + 2)).out ++
          [.comment "\t#--condition--\n"]) ++ .label (lid + 1) ::
        ((genCodeFromASTree c0 lid (genCodeFromASTree c1 h (lid + 2)).lid).out ++
        [.comment "\t#--endloop--\n"] ++
        (genCodeFromASTree nx h
          (genCodeFromASTree c0 lid (genCodeFromASTree c1 h (lid + 2)).lid).lid).out) := by
      simp
    rw [e, findLine_label]
    · simp only [List.length_append, List.length_cons, List.length_nil]
      congr 1
      omega
    · simp only [labelDefs_append, labelDefs_cons, labelDefs_nil, Asm.labelId, List.mem_append,
        List.nil_append, List.append_nil, List.mem_singleton]
      intro hm
      rcases hm with hm | hm
      · omega
      · have := hb hm; omega
  · rw [gen_while_out]
    simp [findLine]
  · intro vt1 vk1 op sv1 l r d2 k
    refine ⟨[.cmtRelExpr op] ++ (genCodeFromASTree l 0 k).out ++ pushT0 ++
      (genCodeFromASTree r 0 (genCodeFromASTree l 0 k).lid).out ++
      [.lw .t1 0 .sp, .addi .sp .sp 4],
      (if op = 61 then "beq" else if op = 33 then "bne" else if op = 62 then "bgt"
        else if op = 60 then "blt" else "unknown relop"), ?_⟩
    rw [gen_relexpr_out]
    simp [genCodeFromASTree, Gen.skip]

/-! ## Unrecognized operators, types and storage kinds -/

/-- C11: what is emitted for a node with an unrecognized combination. A
`RelationalExpr` with an operator other than `=`, `!`, `>`, `<` still has both
operands generated and gets `unknown relop` in the place of the branch
mnemonic; a `VarDecl` of a value type other than Int and String gets
` Unknown Variable type (..)`; an `Assignment` (after its right-hand side) and
a `VarRef` of a storage kind other than the four named ones get
`Unknown variable kind assignment`; in these four cases the output for the
next sibling follows, and the node itself does nothing undefined (a run that
is undefined is so by an operand or a sibling). A `BinaryExpr` with an
operator other than `+` and `-` has both operands generated and gets the
marker `unknown ADDOP`, but then prints its operation line from the variable
`code`, which no statement has assigned on this path: the behaviour of the
run is undefined from there, so C does not give it a sibling output. -/
theorem unrecognized_diagnostics (enc : DataType → Int) (data junk : String)
    (vt : DataType) (vk : VarKind) (iv : Int) (sv : String)
    (c0 c1 c2 nx : ASTNode) (h lid : Int) :
    (iv ≠ 43 → iv ≠ 45 →
      (genCodeFromASTree (.node .AST_EXPRESSION vt vk iv sv c0 c1 c2 nx) h lid).undefined =
        true ∧
      ∃ rest,
        (genCodeFromASTree (.node .AST_EXPRESSION vt vk iv sv c0 c1 c2 nx) h lid).out =
          [.comment "\t#--Binary OP Expression: ", .comment "(-)--\n"] ++
          (genCodeFromASTree c0 h lid).out ++ pushT0 ++
          (genCodeFromASTree c1 h (genCodeFromASTree c0 h lid).lid).out ++
          [.lw .t1 0 .sp, .addi .sp .sp 4] ++
          [.diag "unknown ADDOP\n", .arith none .t0 .t1 .t0] ++ rest) ∧
    (iv ≠ 61 → iv ≠ 33 → iv ≠ 62 → iv ≠ 60 →
      (genCodeFromASTree (.node .AST_RELEXPR vt vk iv sv c0 c1 c2 nx) h lid).out =
        [.cmtRelExpr iv] ++ (genCodeFromASTree c0 0 lid).out ++ pushT0 ++
        (genCodeFromASTree c1 0 (genCodeFromASTree c0 0 lid).lid).out ++
        [.lw .t1 0 .sp, .addi .sp .sp 4, .branch "unknown relop" .t1 .t0 h] ++
        (genCodeFromASTree nx h
          (genCodeFromASTree c1 0 (genCodeFromASTree c0 0 lid).lid).lid).out ∧
      Asm.render enc data junk (.branch "unknown relop" .t1 .t0 h) =
        "\tunknown relop\tt1, t0, .LL" ++ toString h ++ "\n" ∧
      (genCodeFromASTree (.node .AST_RELEXPR vt vk iv sv c0 c1 c2 nx) h lid).undefined =
        ((genCodeFromASTree c0 0 lid).undefined ||
          (genCodeFromASTree c1 0 (genCodeFromASTree c0 0 lid).lid).undefined ||
          (genCodeFromASTree nx h
            (genCodeFromASTree c1 0 (genCodeFromASTree c0 0 lid).lid).lid).undefined)) ∧
    (vt ≠ .T_INT → vt ≠ .T_STRING →
      (genCodeFromASTree (.node .AST_VARDECL vt vk iv sv c0 c1 c2 nx) h lid).out =
        [.unknownVarType vt] ++ (genCodeFromASTree nx h lid).out ∧
      Asm.render enc data junk (.unknownVarType vt) =
        " Unknown Variable type (" ++ toString (enc vt) ++ ")\n" ∧
      (genCodeFromASTree (.node .AST_VARDECL vt vk iv sv c0 c1 c2 nx) h lid).undefined =
        (genCodeFromASTree nx h lid).undefined) ∧
    (∀ n : Int,
      (genCodeFromASTree (.node .AST_ASSIGNMENT vt (.other n) iv sv c0 c1 c2 nx) h lid).out =
        [.comment "\t#--assignment--\n"] ++ (genCodeFromASTree c0 0 lid).out ++
        [.diag "Unknown variable kind assignment\n"] ++
        (genCodeFromASTree nx h (genCodeFromASTree c0 0 lid).lid).out ∧
      (genCodeFromASTree (.node .AST_ASSIGNMENT vt (.other n) iv sv c0 c1 c2 nx)
          h lid).undefined =
        ((genCodeFromASTree c0 0 lid).undefined ||
          (genCodeFromASTree nx h (genCodeFromASTree c0 0 lid).lid).undefined)) ∧
    (∀ n : Int,
      (genCodeFromASTree (.node .AST_VARREF vt (.other n) iv sv c0 c1 c2 nx) h lid).out =
        [.diag "Unknown variable kind assignment\n"] ++ (genCodeFromASTree nx h lid).out ∧
      (genCodeFromASTree (.node .AST_VARREF vt (.other n) iv sv c0 c1 c2 nx) h lid).undefined =
        (genCodeFromASTree nx h lid).undefined) := by
  refine ⟨?_, ?_, ?_, ?_, ?_⟩
  · intro h1 h2
    refine ⟨?_, (genCodeFromASTree nx h
      (genCodeFromASTree c1 h (genCodeFromASTree c0 h lid).lid).lid).out, ?_⟩
    · simp [genCodeFromASTree, h1, h2]
    · simp [genCodeFromASTree, h1, h2]
  · intro h1 h2 h3 h4
    refine ⟨?_, ?_, ?_⟩
    · simp [genCodeFromASTree, h1, h2, h3, h4]
    · simp only [Asm.render, Reg.render, String.append_assoc]
      rfl
    · simp [genCodeFromASTree]
  · intro h1 h2
    refine ⟨?_, rfl, ?_⟩
    · cases vt <;> simp_all [genCodeFromASTree]
    · cases vt <;> simp_all [genCodeFromASTree]
  · intro n
    refine ⟨?_, ?_⟩ <;> simp [genCodeFromASTree]
  · intro n
    refine ⟨?_, ?_⟩ <;> simp [genCodeFromASTree]

/-- C11 at the expression `1 * 2` (operator code 42): the run of the generator
on it is undefined. -/
theorem unrecognized_diagnostics_witness :
    (genCodeFromASTree (.node .AST_EXPRESSION .T_INT .V_GLOBAL 42 "" (intConst 1) (intConst 2)
        .null (intConst 3)) 0 100).undefined = true :=
  ((unrecognized_diagnostics (fun _ => 0) "" "" .T_INT .V_GLOBAL 42 "" (intConst 1) (intConst 2)
    .null (intConst 3) 0 100).1 (by decide) (by decide)).1

/-! ## Stack balance of the generated code -/

theorem balance_append (push pop : Asm) (a b : List Asm) : ∀ d : Nat,
    balance push pop (a ++ b) d =
      (match balance push pop a d with
        | some d1 => balance push pop b d1
        | none => none) := by
  induction a with
  | nil => intro d; rfl
  | cons i a ih =>
    intro d
    simp only [List.cons_append, balance]
    split_ifs <;> simp [ih]

theorem balance_count (push pop : Asm) (hne : push ≠ pop) (l : List Asm) :
    ∀ d d1 : Nat, balance push pop l d = some d1 →
      d + l.count push = d1 + l.count pop := by
  induction l with
  | nil => intro d d1 h; simp [balance] at h; simp [h]
  | cons i l ih =>
    intro d d1 h
    simp only [balance] at h
    by_cases h1 : i = push
    · subst h1
      simp only [if_true] at h
      have := ih _ _ h
      simp [List.count_cons, hne]
      omega
    · by_cases h2 : i = pop
      · subst h2
        simp only [h1, if_false, if_true] at h
        by_cases h0 : d = 0
        · simp [h0] at h
        · simp only [h0, if_false] at h
          have := ih _ _ h
          simp [List.count_cons, Ne.symm hne]
          omega
      · simp only [h1, h2, if_false] at h
        have := ih _ _ h
        have e1 : ¬ (i == push) = true := by simpa using h1
        have e2 : ¬ (i == pop) = true := by simpa using h2
        simp [List.count_cons, e1, e2]
        omega

theorem balance_prefix (push pop : Asm) (hne : push ≠ pop) (l : List Asm) :
    ∀ (d d1 : Nat), balance push pop l d = some d1 →
      ∀ k, (l.take k).count pop ≤ d + (l.take k).count push := by
  induction l with
  | nil => intro d d1 _ k; simp
  | cons i l ih =>
    intro d d1 h k
    cases k with
    | zero => simp
    | succ k =>
      simp only [balance] at h
      by_cases h1 : i = push
      · subst h1
        simp only [if_true] at h
        have := ih _ _ h k
        simp [List.take_succ_cons, List.count_cons, hne]
        omega
      · by_cases h2 : i = pop
        · subst h2
          simp only [h1, if_false, if_true] at h
          by_cases h0 : d = 0
          · simp [h0] at h
          · simp only [h0, if_false] at h
            have := ih _ _ h k
            simp [List.take_succ_cons, List.count_cons, Ne.symm hne]
            omega
        · simp only [h1, h2, if_false] at h
          have := ih _ _ h k
          have e1 : ¬ (i == push) = true := by simpa using h1
          have e2 : ¬ (i == pop) = true := by simpa using h2
          simp [List.take_succ_cons, List.count_cons, e1, e2]
          omega


theorem spStep_eq_iff (i : Asm) (k : Int) (hk : k ≠ 0) :
    i.spStep = k ↔ i = .addi .sp .sp k := by
  constructor
  · intro h
    cases i <;> simp [Asm.spStep] at h <;> try (exact absurd h.symm hk)
    rename_i rd rs imm
    cases rd <;> cases rs <;> simp [Asm.spStep] at h <;> try (exact absurd h.symm hk)
    rw [h]
  · rintro rfl; rfl

theorem balanceBy_eq (k : Int) (hk : k ≠ 0) (l : List Asm) : ∀ d : Nat,
    balanceBy k l d = balance (.addi .sp .sp (-k)) (.addi .sp .sp k) l d := by
  induction l with
  | nil => intro d; rfl
  | cons i l ih =>
    intro d
    simp only [balanceBy, balance, ih, spStep_eq_iff i k hk,
      spStep_eq_iff i (-k) (neg_ne_zero.mpr hk)]

theorem balanceBy_append (k : Int) (a b : List Asm) : ∀ d : Nat,
    balanceBy k (a ++ b) d =
      (match balanceBy k a d with
        | some d1 => balanceBy k b d1
        | none => none) := by
  induction a with
  | nil => intro d; rfl
  | cons i a ih =>
    intro d
    simp only [List.cons_append, balanceBy]
    split_ifs <;> simp [ih]

theorem balanceBy_neutral (k : Int) (hk : k ≠ 0) (l : List Asm) :
    l.all (fun i => decide (i.spStep = 0)) = true → ∀ d, balanceBy k l d = some d := by
  induction l with
  | nil => intro _ d; rfl
  | cons i l ih =>
    intro hl d
    simp only [List.all_cons, Bool.and_eq_true, decide_eq_true_eq] at hl
    have h1 : ¬ i.spStep = -k := by rw [hl.1]; omega
    have h2 : ¬ i.spStep = k := by rw [hl.1]; omega
    simp only [balanceBy, h1, h2, if_false]
    exact ih hl.2 d

theorem gen_program_out (vt : DataType) (vk : VarKind) (iv : Int) (sv : String)
    (c0 c1 c2 nx : ASTNode) (h lid : Int) :
    (genCodeFromASTree (.node .AST_PROGRAM vt vk iv sv c0 c1 c2 nx) h lid).out =
      [.comment "#\n# RISC-V assembly output\n#\n",
        .comment "\n#\n# data section\n#\n", .directive "\t.data\n",
        .comment "#--string constants--\n", .dataSection,
        .comment "\n#--Globals Declarations--\n"] ++
      (genCodeFromASTree c0 h lid).out ++
      [.comment "\n\n#\n# Program Instructions\n#\n", .directive "\t.text\n",
        .symLabel "program"] ++
      (genCodeFromASTree c2 h (genCodeFromASTree c0 h lid).lid).out ++
      [.li (.a 0) 0, .li (.a 7) 93, .ecall, .comment "\n#\n# Functions\n#\n\n"] ++
      (genCodeFromASTree c1 h
        (genCodeFromASTree c2 h (genCodeFromASTree c0 h lid).lid).lid).out ++
      [.comment "\n#\n# Library functions\n#\n\n",
        .comment "# Print a null-terminated string: arg: a0 == string address\n",
        .symLabel "printStr", .li (.a 7) 4, .ecall, .ret,
        .comment "\n# Print a decimal integer: arg: a0 == value\n",
        .symLabel "printInt", .li (.a 7) 1, .ecall, .ret,
        .comment "\n#Read in a decimal integer: return: a0 == value\n",
        .symLabel "readInt", .li (.a 7) 5, .ecall, .ret] ++
      (genCodeFromASTree nx h
        (genCodeFromASTree c1 h
          (genCodeFromASTree c2 h (genCodeFromASTree c0 h lid).lid).lid).lid).out := by
  simp [genCodeFromASTree]

theorem balanceBy_ite_diag (k : Int) (hk : k ≠ 0) (c : Prop) [Decidable c] (t : String)
    (d : Nat) : balanceBy k (if c then [] else [Asm.diag t]) d = some d := by
  apply balanceBy_neutral k hk
  split_ifs <;> rfl

/-- The code of a tree keeps the number of open 4-byte pushes. -/
theorem gen_balance_push (t : ASTNode) : ∀ (h lid : Int) (d : Nat),
    balanceBy 4 (genCodeFromASTree t h lid).out d = some d := by
  induction t with
  | null => intro h lid d; simp [genCodeFromASTree, Gen.skip, balanceBy]
  | node ty vt vk iv sv c0 c1 c2 nx ih0 ih1 ih2 ihn =>
    intro h lid d
    cases ty
    case AST_VARDECL =>
      cases vt <;> cases vk <;>
        simp [genCodeFromASTree, balanceBy_append, balanceBy, Asm.spStep, ihn]
    case AST_ASSIGNMENT =>
      cases vk <;>
        simp [genCodeFromASTree, balanceBy_append, balanceBy, Asm.spStep, ih0, ih1, ihn, pushT0]
    case AST_VARREF =>
      cases vk <;> simp [genCodeFromASTree, balanceBy_append, balanceBy, Asm.spStep, ih0, ihn]
    case AST_CONSTANT =>
      cases vt <;> simp [genCodeFromASTree, balanceBy_append, balanceBy, Asm.spStep, ihn]
    case AST_EXPRESSION =>
      simp [genCodeFromASTree, balanceBy_append, balanceBy, Asm.spStep, ih0, ih1, ihn, pushT0,
        balanceBy_ite_diag 4 (show (4 : Int) ≠ 0 by decide)]
    case AST_PROGRAM =>
      rw [gen_program_out]
      simp only [balanceBy_append, ih0, ih1, ih2, ihn]
      simp [Asm.spStep, balanceBy_neutral 4 (show (4 : Int) ≠ 0 by decide)]
    all_goals
      simp [genCodeFromASTree, balanceBy_append, balanceBy, Asm.spStep, ih0, ih1, ih2, ihn,
        pushT0]

/-- The code of a tree keeps the number of open 128-byte frames. -/
theorem gen_balance_frame (t : ASTNode) : ∀ (h lid : Int) (d : Nat),
    balanceBy 128 (genCodeFromASTree t h lid).out d = some d := by
  induction t with
  | null => intro h lid d; simp [genCodeFromASTree, Gen.skip, balanceBy]
  | node ty vt vk iv sv c0 c1 c2 nx ih0 ih1 ih2 ihn =>
    intro h lid d
    cases ty
    case AST_VARDECL =>
      cases vt <;> cases vk <;>
        simp [genCodeFromASTree, balanceBy_append, balanceBy, Asm.spStep, ihn]
    case AST_ASSIGNMENT =>
      cases vk <;>
        simp [genCodeFromASTree, balanceBy_append, balanceBy, Asm.spStep, ih0, ih1, ihn, pushT0]
    case AST_VARREF =>
      cases vk <;> simp [genCodeFromASTree, balanceBy_append, balanceBy, Asm.spStep, ih0, ihn]
    case AST_CONSTANT =>
      cases vt <;> simp [genCodeFromASTree, balanceBy_append, balanceBy, Asm.spStep, ihn]
    case AST_EXPRESSION =>
      simp [genCodeFromASTree, balanceBy_append, balanceBy, Asm.spStep, ih0, ih1, ihn, pushT0,
        balanceBy_ite_diag 128 (show (128 : Int) ≠ 0 by decide)]
    case AST_PROGRAM =>
      rw [gen_program_out]
      simp only [balanceBy_append, ih0, ih1, ih2, ihn]
      simp [Asm.spStep, balanceBy_neutral 128 (show (128 : Int) ≠ 0 by decide)]
    all_goals
      simp [genCodeFromASTree, balanceBy_append, balanceBy, Asm.spStep, ih0, ih1, ih2, ihn,
        pushT0]

/-- The code of a tree has one frame allocation for each `Function` node the
generator is invoked on. -/
theorem gen_frame_count (t : ASTNode) : ∀ (h lid : Int),
    (genCodeFromASTree t h lid).out.count (.addi .sp .sp (-128)) = functionCount t := by
  induction t with
  | null => intro h lid; simp [genCodeFromASTree, Gen.skip, functionCount]
  | node ty vt vk iv sv c0 c1 c2 nx ih0 ih1 ih2 ihn =>
    intro h lid
    cases ty
    case AST_VARDECL =>
      cases vt <;> cases vk <;>
        simp [genCodeFromASTree, functionCount, ihn, List.count_cons]
    case AST_ASSIGNMENT =>
      cases vk <;>
        simp [genCodeFromASTree, functionCount, ih0, ih1, ihn, pushT0, List.count_cons] <;>
        omega
    case AST_VARREF =>
      cases vk <;> simp [genCodeFromASTree, functionCount, ih0, ihn, List.count_cons]
    case AST_CONSTANT =>
      cases vt <;> simp [genCodeFromASTree, functionCount, ihn, List.count_cons]
    case AST_EXPRESSION =>
      simp [genCodeFromASTree, functionCount, ih0, ih1, ihn, pushT0, List.count_cons]
      split_ifs <;> simp <;> omega
    case AST_FUNCTION =>
      simp [genCodeFromASTree, functionCount, ih1, ihn, List.count_cons]
      omega
    all_goals
      simp [genCodeFromASTree, functionCount, ih0, ih1, ih2, ihn, pushT0, List.count_cons]
      try omega

theorem countP_map_cons (t : ASTNode) (d : Dir) (v : List (List Dir)) :
    (v.map (fun p => d :: p)).countP (fun p => isFunction (t.at p)) =
      v.countP (fun p => isFunction ((t.follow d).at p)) := by
  rw [List.countP_map]
  rfl

theorem at_nil (t : ASTNode) : t.at [] = t := rfl

/-- The `Function` nodes counted by `functionCount` are those among the nodes
the generator visits. -/
theorem functionCount_eq (t : ASTNode) :
    functionCount t = (traversal t).countP (fun p => isFunction (t.at p)) := by
  induction t with
  | null => simp [functionCount, traversal]
  | node ty vt vk iv sv c0 c1 c2 nx ih0 ih1 ih2 ihn =>
    cases ty
    case AST_ASSIGNMENT =>
      cases vk <;>
        simp only [functionCount, traversal, List.countP_cons, List.countP_append,
          List.countP_nil, countP_map_cons, ASTNode.follow, at_nil, ← ih0, ← ih1, ← ihn] <;>
        simp [isFunction]
    case AST_VARREF =>
      cases vk <;>
        simp only [functionCount, traversal, List.countP_cons, List.countP_append,
          List.countP_nil, countP_map_cons, ASTNode.follow, at_nil, ← ih0, ← ihn] <;>
        simp [isFunction]
    all_goals
      simp only [functionCount, traversal, List.countP_cons, List.countP_append,
        List.countP_nil, countP_map_cons, ASTNode.follow, at_nil, ← ih0, ← ih1, ← ih2, ← ihn]
    all_goals simp [isFunction]
    all_goals omega

/-- C16: the code of every tree is stack-balanced. It has as many 4-byte pushes
`addi sp, sp, -4` as 4-byte pops `addi sp, sp, 4`, and no prefix of it has more
pops than pushes; the 128-byte frame allocations `addi sp, sp, -128` and the
deallocations `addi sp, sp, 128` are each as many as the `Function` nodes the
generator visits, and no prefix has more deallocations than allocations. -/
theorem stack_balanced (t : ASTNode) (h lid : Int) :
    (genCodeFromASTree t h lid).out.count (.addi .sp .sp (-4)) =
        (genCodeFromASTree t h lid).out.count (.addi .sp .sp 4) ∧
      (∀ k : Nat, ((genCodeFromASTree t h lid).out.take k).count (.addi .sp .sp 4) ≤
        ((genCodeFromASTree t h lid).out.take k).count (.addi .sp .sp (-4))) ∧
      (genCodeFromASTree t h lid).out.count (.addi .sp .sp (-128)) =
        (genCodeFromASTree t h lid).visited.countP (fun p => isFunction (t.at p)) ∧
      (genCodeFromASTree t h lid).out.count (.addi .sp .sp 128) =
        (genCodeFromASTree t h lid).visited.countP (fun p => isFunction (t.at p)) ∧
      (∀ k : Nat, ((genCodeFromASTree t h lid).out.take k).count (.addi .sp .sp 128) ≤
        ((genCodeFromASTree t h lid).out.take k).count (.addi .sp .sp (-128))) := by
  have h4 : (Asm.addi .sp .sp (-4)) ≠ Asm.addi .sp .sp 4 := by decide
  have h128 : (Asm.addi .sp .sp (-128)) ≠ Asm.addi .sp .sp 128 := by decide
  have b4 := gen_balance_push t h lid 0
  have b128 := gen_balance_frame t h lid 0
  rw [balanceBy_eq 4 (by decide)] at b4
  rw [balanceBy_eq 128 (by decide)] at b128
  have c4 := balance_count _ _ h4 _ _ _ b4
  have c128 := balance_count _ _ h128 _ _ _ b128
  have p4 := balance_prefix _ _ h4 _ _ _ b4
  have p128 := balance_prefix _ _ h128 _ _ _ b128
  have fc := gen_frame_count t h lid
  rw [gen_visited, ← functionCount_eq]
  refine ⟨by omega, fun k => by have := p4 k; omega, fc, by omega,
    fun k => by have := p128 k; omega⟩

/-! ## Branch targets and their label lines -/

theorem infix_left (x a b : List Asm) (h : x <:+: a) : x <:+: a ++ b :=
  h.trans (List.prefix_append a b).isInfix

theorem infix_last (x a : List Asm) : x <:+: a ++ x := (List.suffix_append a x).isInfix

/-- A call of the generator on the node behind a link it follows writes its
output as one block of the output of the calling activation. -/
theorem gen_call_block (ty : ASTNodeType) (vt : DataType) (vk : VarKind) (iv : Int) (sv : String)
    (c0 c1 c2 nx : ASTNode) (d : Dir) (hd : descends ty vk d = true) (h lid : Int) :
    ∃ h1 l1 : Int,
      (genCodeFromASTree ((ASTNode.node ty vt vk iv sv c0 c1 c2 nx).follow d) h1 l1).out <:+:
        (genCodeFromASTree (.node ty vt vk iv sv c0 c1 c2 nx) h lid).out := by
  cases ty <;> cases d <;> cases vk <;> simp [descends] at hd <;>
    (constructor; constructor)
  all_goals
    simp only [genCodeFromASTree, ASTNode.follow, Gen.call_out, Gen.fprintf_out,
      Gen.fprintfCode_out, Gen.enter_out]
    repeat (first | with_reducible exact infix_last _ _ | with_reducible apply infix_left)

/-- The code of a node the generator reaches is one block of the output. -/
theorem reached_block (p : List Dir) : ∀ (t : ASTNode) (h lid : Int), reached t p = true →
    ∃ h1 l1 : Int,
      (genCodeFromASTree (t.at p) h1 l1).out <:+: (genCodeFromASTree t h lid).out := by
  induction p with
  | nil => intro t h lid _; exact ⟨h, lid, List.infix_refl _⟩
  | cons d q ih =>
    intro t h lid hr
    cases t with
    | null => simp [reached] at hr
    | node ty vt vk iv sv c0 c1 c2 nx =>
      have hd : descends ty vk d = true := by
        simp only [reached, Bool.and_eq_true] at hr
        exact hr.1
      have hq : reached ((ASTNode.node ty vt vk iv sv c0 c1 c2 nx).follow d) q = true := by
        simp only [reached, Bool.and_eq_true] at hr
        cases d <;> exact hr.2
      obtain ⟨h1, l1, hin⟩ := gen_call_block ty vt vk iv sv c0 c1 c2 nx d hd h lid
      obtain ⟨h2, l2, hin2⟩ := ih _ h1 l1 hq
      exact ⟨h2, l2, hin2.trans hin⟩

/-- The target of every `b` line of the output has its label line in the
output. -/
theorem gen_b_label (x : Int) (t : ASTNode) : ∀ h lid : Int,
    Asm.b x ∈ (genCodeFromASTree t h lid).out → Asm.label x ∈ (genCodeFromASTree t h lid).out := by
  induction t with
  | null => intro h lid; simp [genCodeFromASTree, Gen.skip]
  | node ty vt vk iv sv c0 c1 c2 nx ih0 ih1 ih2 ihn =>
    intro h lid
    cases ty
    case AST_VARDECL =>
      cases vt <;> cases vk <;> simp [genCodeFromASTree] <;> exact ihn _ _
    case AST_CONSTANT =>
      cases vt <;> simp [genCodeFromASTree] <;> exact ihn _ _
    case AST_ASSIGNMENT =>
      cases vk <;> simp [genCodeFromASTree, pushT0] <;> intro hx <;> (try casesm* _ ∨ _) <;>
        first
          | (have hq := ih0 _ _ ‹_›; simp [hq])
          | (have hq := ih1 _ _ ‹_›; simp [hq])
          | (have hq := ihn _ _ ‹_›; simp [hq])
    case AST_VARREF =>
      cases vk <;> simp [genCodeFromASTree] <;> intro hx <;> (try casesm* _ ∨ _) <;>
        first
          | (have hq := ih0 _ _ ‹_›; simp [hq])
          | (have hq := ihn _ _ ‹_›; simp [hq])
    case AST_EXPRESSION =>
      simp [genCodeFromASTree, pushT0]
      intro hx
      casesm* _ ∨ _
      all_goals first
        | (have hq := ih0 _ _ ‹_›; simp [hq])
        | (have hq := ih1 _ _ ‹_›; simp [hq])
        | (have hq := ihn _ _ ‹_›; simp [hq])
    all_goals
      simp [genCodeFromASTree, pushT0]
      intro hx
      try casesm* _ ∨ _
      all_goals first
        | (have hq := ih0 _ _ ‹_›; simp [hq])
        | (have hq := ih1 _ _ ‹_›; simp [hq])
        | (have hq := ih2 _ _ ‹_›; simp [hq])
        | (have hq := ihn _ _ ‹_›; simp [hq])
        | (subst_vars; simp)

theorem mem_labelDefs (x : Int) (l : List Asm) : x ∈ labelDefs l ↔ Asm.label x ∈ l := by
  simp only [labelDefs, List.mem_filterMap]
  constructor
  · rintro ⟨a, ha, hx⟩
    cases a <;> simp [Asm.labelId] at hx
    subst hx
    exact ha
  · intro hx
    exact ⟨_, hx, rfl⟩

/-- A label line inside a block of the output: its id was issued in the run
and the output has no other line defining it. -/
theorem block_label (t : ASTNode) (h lid x : Int) (b : List Asm)
    (hb : b <:+: (genCodeFromASTree t h lid).out) (hx : Asm.label x ∈ b) :
    x ∈ (genCodeFromASTree t h lid).issued ∧
      (labelDefs (genCodeFromASTree t h lid).out).count x = 1 := by
  have hm : x ∈ labelDefs (genCodeFromASTree t h lid).out :=
    (mem_labelDefs x _).mpr (hb.subset hx)
  have hi : x ∈ (genCodeFromASTree t h lid).issued := (gen_labelDefs_perm t h lid).mem_iff.mp hm
  have hn : (genCodeFromASTree t h lid).issued.Nodup := by
    rw [gen_issued]
    exact (labelRange_pairwise _ _).imp (fun hlt => ne_of_lt hlt)
  exact ⟨hi, List.count_eq_one_of_mem ((gen_labelDefs_perm t h lid).nodup_iff.mpr hn) hm⟩

/-- C17: in the output of one run on a tree, the target of every unconditional
branch `b` was issued by `getUniqueLabelID` in the run and has exactly one
label line in the output. For every `WhileLoop` and every `IfThenElse` node the
generator reaches, the code of the node is a block of the output, generated at
some label counter `l1`: the node takes the ids `l1` and `l1 + 1`, both issued
in the run and each defined by exactly one label line of the whole output,
which is the line the node itself writes; its `b` goes to `l1 + 1`; and when
child 0 is a `RelationalExpr`, the conditional branch of that node goes to
`l1`. -/
theorem branch_targets_defined (t : ASTNode) (h lid : Int) :
    (∀ x : Int, Asm.b x ∈ (genCodeFromASTree t h lid).out →
      x ∈ (genCodeFromASTree t h lid).issued ∧
      (labelDefs (genCodeFromASTree t h lid).out).count x = 1) ∧
    (∀ (p : List Dir) (vt : DataType) (vk : VarKind) (iv : Int) (sv : String)
        (c0 c1 c2 nx : ASTNode),
      reached t p = true → t.at p = .node .AST_WHILE vt vk iv sv c0 c1 c2 nx →
      ∃ (h1 l1 : Int) (pre post : List Asm),
        (genCodeFromASTree t h lid).out =
          pre ++ (genCodeFromASTree (.node .AST_WHILE vt vk iv sv c0 c1 c2 nx) h1 l1).out ++
            post ∧
        (genCodeFromASTree (.node .AST_WHILE vt vk iv sv c0 c1 c2 nx) h1 l1).out =
          [.comment "\t#--While loop--\n", .b (l1 + 1), .label l1, .comment "\t#--body--\n"] ++
          (genCodeFromASTree c1 h1 (l1 + 2)).out ++
          [.comment "\t#--condition--\n", .label (l1 + 1)] ++
          (genCodeFromASTree c0 l1 (genCodeFromASTree c1 h1 (l1 + 2)).lid).out ++
          [.comment "\t#--endloop--\n"] ++
          (genCodeFromASTree nx h1
            (genCodeFromASTree c0 l1 (genCodeFromASTree c1 h1 (l1 + 2)).lid).lid).out ∧
        (∃ rest, (genCodeFromASTree (.node .AST_WHILE vt vk iv sv c0 c1 c2 nx) h1 l1).issued =
          l1 :: (l1 + 1) :: rest) ∧
        l1 ∈ (genCodeFromASTree t h lid).issued ∧
        l1 + 1 ∈ (genCodeFromASTree t h lid).issued ∧
        (labelDefs (genCodeFromASTree t h lid).out).count l1 = 1 ∧
        (labelDefs (genCodeFromASTree t h lid).out).count (l1 + 1) = 1 ∧
        ∀ (vt1 : DataType) (vk1 : VarKind) (op : Int) (sv1 : String) (l r d2 nx1 : ASTNode)
          (k : Int), c0 = .node .AST_RELEXPR vt1 vk1 op sv1 l r d2 nx1 →
          ∃ code, (genCodeFromASTree c0 l1 k).out =
            [.cmtRelExpr op] ++ (genCodeFromASTree l 0 k).out ++ pushT0 ++
            (genCodeFromASTree r 0 (genCodeFromASTree l 0 k).lid).out ++
            [.lw .t1 0 .sp, .addi .sp .sp 4, .branch code .t1 .t0 l1] ++
            (genCodeFromASTree nx1 l1
              (genCodeFromASTree r 0 (genCodeFromASTree l 0 k).lid).lid).out) ∧
    (∀ (p : List Dir) (vt : DataType) (vk : VarKind) (iv : Int) (sv : String)
        (c0 c1 c2 nx : ASTNode),
      reached t p = true → t.at p = .node .AST_IFTHEN vt vk iv sv c0 c1 c2 nx →
      ∃ (h1 l1 : Int) (pre post : List Asm),
        (genCodeFromASTree t h lid).out =
          pre ++ (genCodeFromASTree (.node .AST_IFTHEN vt vk iv sv c0 c1 c2 nx) h1 l1).out ++
            post ∧
        (genCodeFromASTree (.node .AST_IFTHEN vt vk iv sv c0 c1 c2 nx) h1 l1).out =
          [.comment "\t#--ifthenelse--\n"] ++
          (genCodeFromASTree c0 l1 (l1 + 2)).out ++
          [.comment "\t#--elsepart--\n"] ++
          (genCodeFromASTree c2 h1 (genCodeFromASTree c0 l1 (l1 + 2)).lid).out ++
          [.b (l1 + 1), .label l1, .comment "\t#--ifpart--\n"] ++
          (genCodeFromASTree c1 h1
            (genCodeFromASTree c2 h1 (genCodeFromASTree c0 l1 (l1 + 2)).lid).lid).out ++
          [.label (l1 + 1), .comment "\t#--endif--\n"] ++
          (genCodeFromASTree nx h1 (genCodeFromASTree c1 h1
            (genCodeFromASTree c2 h1 (genCodeFromASTree c0 l1 (l1 + 2)).lid).lid).lid).out ∧
        (∃ rest, (genCodeFromASTree (.node .AST_IFTHEN vt vk iv sv c0 c1 c2 nx) h1 l1).issued =
          l1 :: (l1 + 1) :: rest) ∧
        l1 ∈ (genCodeFromASTree t h lid).issued ∧
        l1 + 1 ∈ (genCodeFromASTree t h lid).issued ∧
        (labelDefs (genCodeFromASTree t h lid).out).count l1 = 1 ∧
        (labelDefs (genCodeFromASTree t h lid).out).count (l1 + 1) = 1 ∧
        ∀ (vt1 : DataType) (vk1 : VarKind) (op : Int) (sv1 : String) (l r d2 nx1 : ASTNode)
          (k : Int), c0 = .node .AST_RELEXPR vt1 vk1 op sv1 l r d2 nx1 →
          ∃ code, (genCodeFromASTree c0 l1 k).out =
            [.cmtRelExpr op] ++ (genCodeFromASTree l 0 k).out ++ pushT0 ++
            (genCodeFromASTree r 0 (genCodeFromASTree l 0 k).lid).out ++
            [.lw .t1 0 .sp, .addi .sp .sp 4, .branch code .t1 .t0 l1] ++
            (genCodeFromASTree nx1 l1
              (genCodeFromASTree r 0 (genCodeFromASTree l 0 k).lid).lid).out) := by
  refine ⟨?_, ?_, ?_⟩
  · intro x hx
    exact block_label t h lid x _ (List.infix_refl _) (gen_b_label x t h lid hx)
  · intro p vt vk iv sv c0 c1 c2 nx hr hat
    obtain ⟨h1, l1, hin⟩ := reached_block p t h lid hr
    rw [hat] at hin
    obtain ⟨pre, post, hpp⟩ := hin
    have hin : (genCodeFromASTree (.node .AST_WHILE vt vk iv sv c0 c1 c2 nx) h1 l1).out <:+:
        (genCodeFromASTree t h lid).out := ⟨pre, post, hpp⟩
    have m1 : Asm.label l1 ∈
        (genCodeFromASTree (.node .AST_WHILE vt vk iv sv c0 c1 c2 nx) h1 l1).out := by
      rw [gen_while_out]; simp
    have m2 : Asm.label (l1 + 1) ∈
        (genCodeFromASTree (.node .AST_WHILE vt vk iv sv c0 c1 c2 nx) h1 l1).out := by
      rw [gen_while_out]; simp
    have b1 := block_label t h lid l1 _ hin m1
    have b2 := block_label t h lid (l1 + 1) _ hin m2
    refine ⟨h1, l1, pre, post, hpp.symm, gen_while_out vt vk iv sv c0 c1 c2 nx h1 l1,
      ⟨_, gen_while_issued vt vk iv sv c0 c1 c2 nx h1 l1⟩, b1.1, b2.1, b1.2, b2.2, ?_⟩
    intro vt1 vk1 op sv1 l r d2 nx1 k hc
    subst hc
    exact ⟨_, gen_relexpr_out vt1 vk1 op sv1 l r d2 nx1 l1 k⟩
  · intro p vt vk iv sv c0 c1 c2 nx hr hat
    obtain ⟨h1, l1, hin⟩ := reached_block p t h lid hr
    rw [hat] at hin
    obtain ⟨pre, post, hpp⟩ := hin
    have hin : (genCodeFromASTree (.node .AST_IFTHEN vt vk iv sv c0 c1 c2 nx) h1 l1).out <:+:
        (genCodeFromASTree t h lid).out := ⟨pre, post, hpp⟩
    have m1 : Asm.label l1 ∈
        (genCodeFromASTree (.node .AST_IFTHEN vt vk iv sv c0 c1 c2 nx) h1 l1).out := by
      rw [gen_ifthen_out]; simp
    have m2 : Asm.label (l1 + 1) ∈
        (genCodeFromASTree (.node .AST_IFTHEN vt vk iv sv c0 c1 c2 nx) h1 l1).out := by
      rw [gen_ifthen_out]; simp
    have b1 := block_label t h lid l1 _ hin m1
    have b2 := block_label t h lid (l1 + 1) _ hin m2
    refine ⟨h1, l1, pre, post, hpp.symm, gen_ifthen_out vt vk iv sv c0 c1 c2 nx h1 l1,
      ⟨_, gen_ifthen_issued vt vk iv sv c0 c1 c2 nx h1 l1⟩, b1.1, b2.1, b1.2, b2.2, ?_⟩
    intro vt1 vk1 op sv1 l r d2 nx1 k hc
    subst hc
    exact ⟨_, gen_relexpr_out vt1 vk1 op sv1 l r d2 nx1 l1 k⟩

/-- C17 on the program whose main statement is the loop `while (i < 3) i = i + 1`,
generated from label counter 100: the loop is reached through child 2 of the
program; the ids of the loop are issued and each has one label line. -/
theorem branch_targets_defined_witness :
    reached (program .null .null (countingLoop "i" 3)) [.c2] = true ∧
    ∃ l1 : Int,
      l1 ∈ (genCodeFromASTree (program .null .null (countingLoop "i" 3)) 0 100).issued ∧
      l1 + 1 ∈ (genCodeFromASTree (program .null .null (countingLoop "i" 3)) 0 100).issued ∧
      (labelDefs (genCodeFromASTree (program .null .null (countingLoop "i" 3)) 0 100).out).count
        l1 = 1 ∧
      (labelDefs (genCodeFromASTree (program .null .null (countingLoop "i" 3)) 0 100).out).count
        (l1 + 1) = 1 :=
  ⟨rfl, by
    obtain ⟨_, l1, _, _, _, _, _, a, b, c, d, _⟩ :=
      (branch_targets_defined (program .null .null (countingLoop "i" 3)) 0 100).2.1 [.c2]
        .T_INT .V_GLOBAL 0 "" (relExpr 60 (globalRef "i") (intConst 3))
        (globalAssign "i" (binExpr 43 (globalRef "i") (intConst 1))) .null .null rfl rfl
    exact ⟨l1, a, b, c, d⟩⟩

/-! ## Node allocation -/

/-- C12: for every node kind `k`, `newASTNode(k)` returns the null pointer when
the allocation fails, and otherwise, whatever the allocated block held, a node
of kind `k` with value type Int, storage kind Global, integer value 0, a null
string pointer with the ownership flag 0, a null `next` and three null child
slots. -/
theorem newASTNode_fields (k : ASTNodeType) (g : ASTNodeRec)
    (hg : g.child.length = ASTNUMCHILDREN) :
    newASTNode none k = none ∧
    newASTNode (some g) k =
      some ⟨k, .T_INT, .V_GLOBAL, 0, none, 0, .null, [.null, .null, .null]⟩ := by
  refine ⟨rfl, ?_⟩
  obtain ⟨ty, vt, vk, iv, sv, nf, nx, ch⟩ := g
  simp only [ASTNUMCHILDREN] at hg
  match ch, hg with
  | [a, b, c], _ => rfl

/-- C12 on a block whose fields all hold other values before the call. -/
theorem newASTNode_fields_witness :
    newASTNode (some ⟨.AST_WHILE, .T_STRING, .V_LOCAL, 7, some "x", 1, intConst 1,
        [intConst 2, intConst 3, intConst 4]⟩) .AST_CONSTANT =
      some ⟨.AST_CONSTANT, .T_INT, .V_GLOBAL, 0, none, 0, .null, [.null, .null, .null]⟩ :=
  (newASTNode_fields .AST_CONSTANT ⟨.AST_WHILE, .T_STRING, .V_LOCAL, 7, some "x", 1, intConst 1,
    [intConst 2, intConst 3, intConst 4]⟩ rfl).2

/-! ## The recursive parser -/

namespace RecursiveParser

theorem getchar_standingAt (c : Char) (l : List Char) (out : List ParseEvent) :
    (PState.standingAt (c :: l) out).getchar = PState.standingAt l out := rfl

theorem nontermA_run (rest : List Char) (out : List ParseEvent)
    (hr : rest.head? ≠ some 'a') : ∀ n fuel : Nat, n < fuel →
    nontermA fuel (PState.standingAt (List.replicate n 'a' ++ rest) out) =
      some (.ret n (PState.standingAt rest out)) := by
  intro n
  induction n with
  | zero =>
    intro fuel hf
    obtain ⟨f, rfl⟩ : ∃ f, fuel = f + 1 := ⟨fuel - 1, by omega⟩
    simp [nontermA, PState.standingAt, hr]
  | succ n ih =>
    intro fuel hf
    obtain ⟨f, rfl⟩ : ∃ f, fuel = f + 1 := ⟨fuel - 1, by omega⟩
    have e : List.replicate (n + 1) 'a' ++ rest = 'a' :: (List.replicate n 'a' ++ rest) := rfl
    rw [e]
    have hl : (PState.standingAt ('a' :: (List.replicate n 'a' ++ rest)) out).lookahead =
        some 'a' := rfl
    simp only [nontermA, match_, hl, if_true, getchar_standingAt, ih f (by omega)]
    simp
    omega

theorem nontermB_run (numA : Int) (rest : List Char) (out : List ParseEvent)
    (hr : rest.head? ≠ some 'b') : ∀ n fuel : Nat, n < fuel →
    nontermB fuel numA (PState.standingAt (List.replicate n 'b' ++ rest) out) =
      some (.ret n (PState.standingAt rest out)) := by
  intro n
  induction n with
  | zero =>
    intro fuel hf
    obtain ⟨f, rfl⟩ : ∃ f, fuel = f + 1 := ⟨fuel - 1, by omega⟩
    simp [nontermB, PState.standingAt, hr]
  | succ n ih =>
    intro fuel hf
    obtain ⟨f, rfl⟩ : ∃ f, fuel = f + 1 := ⟨fuel - 1, by omega⟩
    have e : List.replicate (n + 1) 'b' ++ rest = 'b' :: (List.replicate n 'b' ++ rest) := rfl
    rw [e]
    have hl : (PState.standingAt ('b' :: (List.replicate n 'b' ++ rest)) out).lookahead =
        some 'b' := rfl
    simp only [nontermB, match_, hl, if_true, getchar_standingAt, ih f (by omega)]
    simp
    omega

theorem head_replicate_append (n : Nat) (c d : Char) (rest : List Char) (hcd : c ≠ d)
    (hr : n = 0 → rest.head? ≠ some d) : (List.replicate n c ++ rest).head? ≠ some d := by
  cases n with
  | zero => simpa using hr rfl
  | succ n =>
    simp only [List.replicate_succ, List.cons_append, List.head?_cons, ne_eq, Option.some.injEq]
    exact hcd

/-- One round on `a^n b^m` followed by `rest`: the counts are printed, then
the newline is matched. -/
theorem nontermS_run (n m depth : Nat) (rest : List Char) (out : List ParseEvent)
    (hn : n < depth) (hm : m < depth)
    (hb : rest.head? ≠ some 'b') (ha : m = 0 → rest.head? ≠ some 'a') :
    nontermS depth
        (PState.standingAt (List.replicate n 'a' ++ (List.replicate m 'b' ++ rest)) out) =
      some (match_ '\n' (some ((n : Int) + m))
        (PState.standingAt rest (out ++ [.counts n m]))) := by
  have h1 := nontermA_run (List.replicate m 'b' ++ rest) out
    (head_replicate_append m 'b' 'a' rest (by decide) ha) n depth hn
  have h2 := nontermB_run n rest out hb m depth hm
  simp only [nontermS, h1, h2]
  rfl

/-- Every input starts with some `a`s, then some `b`s, and what follows does
not continue either run. -/
theorem leading_run (c : Char) : ∀ l : List Char,
    ∃ (n : Nat) (rest : List Char), l = List.replicate n c ++ rest ∧ rest.head? ≠ some c := by
  intro l
  induction l with
  | nil => exact ⟨0, [], rfl, by simp⟩
  | cons x l ih =>
    by_cases hx : x = c
    · obtain ⟨n, rest, hl, hr⟩ := ih
      exact ⟨n + 1, rest, by rw [hl, hx]; rfl, hr⟩
    · exact ⟨0, x :: l, rfl, by simpa using hx⟩

theorem leading_ab (l : List Char) :
    ∃ (n m : Nat) (rest : List Char),
      l = List.replicate n 'a' ++ (List.replicate m 'b' ++ rest) ∧
      rest.head? ≠ some 'b' ∧ (m = 0 → rest.head? ≠ some 'a') := by
  obtain ⟨n, l1, hl, h1⟩ := leading_run 'a' l
  obtain ⟨m, rest, hl1, h2⟩ := leading_run 'b' l1
  refine ⟨n, m, rest, by rw [hl, hl1], h2, ?_⟩
  intro hm
  subst hm
  simpa [hl1] using h1

theorem length_replicate_append (n m : Nat) (rest : List Char) :
    (List.replicate n 'a' ++ (List.replicate m 'b' ++ rest)).length = n + m + rest.length := by
  simp; omega

theorem abLine_append (nm : Nat × Nat) (rest : List Char) :
    abLine nm ++ rest =
      List.replicate nm.1 'a' ++ (List.replicate nm.2 'b' ++ '\n' :: rest) := by
  simp [abLine]

/-- The loop on well-formed lines: one report per line, then `return 0`. -/
theorem mainLoop_lines (depth : Nat) : ∀ (ls : List (Nat × Nat)) (nm : Nat × Nat) (fuel : Nat)
    (out : List ParseEvent), (abLines (nm :: ls)).length < depth → ls.length < fuel →
    mainLoop depth fuel (PState.standingAt (abLines (nm :: ls)) out) =
      some (.ret 0 (PState.standingAt [] (out ++ (nm :: ls).map report))) := by
  intro ls
  induction ls with
  | nil =>
    intro nm fuel out hd hf
    obtain ⟨f, rfl⟩ : ∃ f, fuel = f + 1 := ⟨fuel - 1, by omega⟩
    simp only [abLines, abLine_append, length_replicate_append, List.length_cons] at hd ⊢
    rw [mainLoop, nontermS_run nm.1 nm.2 depth _ out (by omega) (by omega) (by simp) (by simp)]
    simp [match_, PState.standingAt, PState.getchar, report]
  | cons x ls ih =>
    intro nm fuel out hd hf
    obtain ⟨f, rfl⟩ : ∃ f, fuel = f + 1 := ⟨fuel - 1, by simp at hf; omega⟩
    have e : abLines (nm :: x :: ls) = abLine nm ++ abLines (x :: ls) := rfl
    rw [e, abLine_append] at hd ⊢
    rw [length_replicate_append, List.length_cons] at hd
    rw [mainLoop, nontermS_run nm.1 nm.2 depth _ out (by omega) (by omega) (by simp) (by simp)]
    have hne : (PState.standingAt (abLines (x :: ls)) (out ++ [.counts nm.1 nm.2])).lookahead ≠
        none := by
      have e2 : abLines (x :: ls) = abLine x ++ abLines ls := rfl
      rw [e2, abLine_append]
      cases x.1 <;> cases x.2 <;> simp [PState.standingAt, List.replicate_succ]
    have hm : match_ '\n' (some ((nm.1 : Int) + nm.2))
        (PState.standingAt ('\n' :: abLines (x :: ls)) (out ++ [.counts nm.1 nm.2])) =
        .ret () (PState.standingAt (abLines (x :: ls)) (out ++ [.counts nm.1 nm.2])) := rfl
    simp only [hm, hne, if_true, ne_eq, not_false_eq_true]
    rw [ih x f _ (by omega) (by simp at hf; omega)]
    simp [report]

/-- The loop on an input that is not a sequence of well-formed lines: the
process exits with status 1, a syntax error being the last thing printed. -/
theorem mainLoop_error (depth : Nat) : ∀ (k : Nat) (l : List Char) (out : List ParseEvent)
    (fuel : Nat), l.length ≤ k → l.length < depth → l.length < fuel →
    (¬ ∃ nm ls, l = abLines (nm :: ls)) →
    ∃ out1 c num, mainLoop depth fuel (PState.standingAt l out) =
      some (.exit 1 (out1 ++ [.syntaxError c num])) := by
  intro k
  induction k with
  | zero =>
    intro l out fuel hk hd hf _
    obtain ⟨f, rfl⟩ : ∃ f, fuel = f + 1 := ⟨fuel - 1, by omega⟩
    have hl : l = [] := List.length_eq_zero.mp (by omega)
    subst hl
    have := nontermS_run 0 0 depth [] out (by omega) (by omega) (by simp) (by simp)
    simp only [List.replicate_zero, List.nil_append] at this
    rw [mainLoop, this]
    exact ⟨_, _, _, rfl⟩
  | succ k ih =>
    intro l out fuel hk hd hf hnot
    obtain ⟨f, rfl⟩ : ∃ f, fuel = f + 1 := ⟨fuel - 1, by omega⟩
    obtain ⟨n, m, rest, hl, hb, ha⟩ := leading_ab l
    subst hl
    rw [length_replicate_append] at hk hd hf
    rw [mainLoop, nontermS_run n m depth rest out (by omega) (by omega) hb ha]
    cases rest with
    | nil => exact ⟨_, _, _, rfl⟩
    | cons c r =>
      by_cases hc : c = '\n'
      · subst hc
        have hm : match_ '\n' (some ((n : Int) + m))
            (PState.standingAt ('\n' :: r) (out ++ [.counts n m])) =
            .ret () (PState.standingAt r (out ++ [.counts n m])) := rfl
        simp only [hm]
        cases r with
        | nil =>
          exfalso
          apply hnot
          exact ⟨(n, m), [], by simp [abLines, abLine]⟩
        | cons d r =>
          have hne : (PState.standingAt (d :: r) (out ++ [.counts n m])).lookahead ≠ none := by
            simp [PState.standingAt]
          simp only [hne, if_true, ne_eq, not_false_eq_true]
          simp only [List.length_cons] at hk hd hf
          apply ih (d :: r) _ f (by simp; omega) (by simp; omega) (by simp; omega)
          rintro ⟨x, ls, hx⟩
          apply hnot
          refine ⟨(n, m), x :: ls, ?_⟩
          have e : abLines ((n, m) :: x :: ls) = abLine (n, m) ++ abLines (x :: ls) := rfl
          rw [e, abLine_append, ← hx]
      · have hm : match_ '\n' (some ((n : Int) + m))
            (PState.standingAt (c :: r) (out ++ [.counts n m])) =
            .exit 1 ((out ++ [.counts n m]) ++ [.syntaxError (some c) (some ((n : Int) + m + 1))]) := by
          simp [match_, PState.standingAt, hc]
        simp only [hm]
        exact ⟨_, _, _, rfl⟩

/-- C18: on a standard input of finitely many characters (with bounds `depth`
and `fuel` above its length), `main` returns 0 when the input is one or more
lines `a^n b^m` each ended by a newline, having printed for each line the
report with `n` as the number of `a`s and `m` as the number of `b`s, and with
all input read; on every other input, the empty one included, the process
exits with status 1 and the last thing printed is the syntax error of `match`;
so `main` returns exactly on the inputs of the first sort. -/
theorem parser_accepts_ab_lines (input : List Char) (depth fuel : Nat)
    (hd : input.length < depth) (hf : input.length < fuel) :
    (∀ (nm : Nat × Nat) (ls : List (Nat × Nat)), input = abLines (nm :: ls) →
      main depth fuel input = some (.ret 0 ⟨none, [], (nm :: ls).map report⟩)) ∧
    ((¬ ∃ nm ls, input = abLines (nm :: ls)) →
      ∃ out c num, main depth fuel input = some (.exit 1 (out ++ [.syntaxError c num]))) ∧
    ((∃ v s, main depth fuel input = some (.ret v s)) ↔ ∃ nm ls, input = abLines (nm :: ls)) := by
  have hmain : main depth fuel input = mainLoop depth fuel (PState.standingAt input []) := rfl
  have h1 : ∀ (nm : Nat × Nat) (ls : List (Nat × Nat)), input = abLines (nm :: ls) →
      main depth fuel input = some (.ret 0 ⟨none, [], (nm :: ls).map report⟩) := by
    intro nm ls hi
    rw [hmain]
    subst hi
    have hlen : ls.length < fuel := by
      have : ∀ ls : List (Nat × Nat), ls.length ≤ (abLines ls).length := by
        intro ls
        induction ls with
        | nil => simp
        | cons x ls ih => simp [abLines, abLine]; omega
      have h2 := this (nm :: ls)
      simp only [List.length_cons] at h2
      omega
    rw [mainLoop_lines depth ls nm fuel [] hd hlen]
    rfl
  have h2 : (¬ ∃ nm ls, input = abLines (nm :: ls)) →
      ∃ out c num, main depth fuel input = some (.exit 1 (out ++ [.syntaxError c num])) := by
    intro hnot
    rw [hmain]
    exact mainLoop_error depth input.length input [] fuel le_rfl hd hf hnot
  refine ⟨h1, h2, ?_, ?_⟩
  · rintro ⟨v, s, hs⟩
    by_contra hnot
    obtain ⟨out, c, num, he⟩ := h2 hnot
    rw [he] at hs
    cases hs
  · rintro ⟨nm, ls, hi⟩
    exact ⟨_, _, h1 nm ls hi⟩

/-- C18 on the input `aab\nb\n`: the reports are (2, 1) and (0, 1), and `main`
returns 0. -/
theorem parser_accepts_ab_lines_witness :
    main 10 10 ['a', 'a', 'b', '\n', 'b', '\n'] =
      some (.ret 0 ⟨none, [], [.counts 2 1, .counts 0 1]⟩) :=
  (parser_accepts_ab_lines ['a', 'a', 'b', '\n', 'b', '\n'] 10 10 (by decide) (by decide)).1
    (2, 1) [(0, 1)] rfl

end RecursiveParser

/-! ## The word count of a line -/

namespace WordCount

theorem words_nil : words [] = [] := by
  simp [words, List.splitOnP_nil]

theorem words_delim (c : Char) (s : List Char) (hc : isDelim c = true) :
    words (c :: s) = words s := by
  simp [words, List.splitOnP_cons, hc]

theorem words_skip (s : List Char) : words (s.dropWhile isDelim) = words s := by
  induction s with
  | nil => rfl
  | cons c s ih =>
    by_cases hc : isDelim c = true
    · rw [List.dropWhile_cons_of_pos hc, ih, words_delim c s hc]
    · rw [List.dropWhile_cons_of_neg hc]

/-- A token and what follows it: the token is the first word, the others are
the words from the saved position on. -/
theorem words_token (r : List Char) : ∀ c : Char, isDelim c = false →
    words (c :: r) = (c :: r).takeWhile (fun x => !isDelim x) ::
      words ((c :: r).dropWhile (fun x => !isDelim x)).tail := by
  induction r with
  | nil =>
    intro c hc
    simp [words, List.splitOnP_cons, List.splitOnP_nil, hc, List.takeWhile, List.dropWhile]
  | cons d r ih =>
    intro c hc
    by_cases hd : isDelim d = true
    · simp [words, List.splitOnP_cons, hc, hd, List.takeWhile, List.dropWhile]
    · simp only [Bool.not_eq_true] at hd
      have h1 := ih d hd
      obtain ⟨p, ps, hps⟩ : ∃ p ps, r.splitOnP (fun c => isDelim c) = p :: ps := by
        cases hsp : r.splitOnP (fun c => isDelim c) with
        | nil => exact absurd hsp (List.splitOnP_ne_nil _ _)
        | cons p ps => exact ⟨p, ps, rfl⟩
      simp only [words, List.splitOnP_cons, hc, hd, hps, List.modifyHead] at h1 ⊢
      simp [List.takeWhile, List.dropWhile, hc, hd] at h1 ⊢
      exact h1

theorem dropWhile_head (s : List Char) (c : Char) (r : List Char)
    (h : s.dropWhile isDelim = c :: r) : isDelim c = false ∧ r.length < s.length := by
  induction s with
  | nil => simp at h
  | cons x s ih =>
    by_cases hx : isDelim x = true
    · rw [List.dropWhile_cons_of_pos hx] at h
      have := ih h
      exact ⟨this.1, by simp; omega⟩
    · rw [List.dropWhile_cons_of_neg hx] at h
      simp only [List.cons.injEq] at h
      obtain ⟨rfl, rfl⟩ := h
      exact ⟨by simpa using hx, by simp⟩

theorem length_save (l : List Char) :
    (l.dropWhile (fun x => !isDelim x)).tail.length ≤ l.length - 1 := by
  have h0 : l.dropWhile (fun x => !isDelim x) <:+ l := List.dropWhile_suffix _
  have h1 := h0.length_le
  simp only [List.length_tail]
  omega

/-- The loop counts the words from the position it starts at. -/
theorem countLoop_words : ∀ (k : Nat) (s : List Char) (fuel : Nat) (wordCount : Int),
    s.length ≤ k → s.length < fuel →
    countLoop fuel (strtok s) wordCount = some (wordCount + (words s).length) := by
  intro k
  induction k with
  | zero =>
    intro s fuel wc hk hf
    obtain ⟨f, rfl⟩ : ∃ f, fuel = f + 1 := ⟨fuel - 1, by omega⟩
    have hs : s = [] := List.length_eq_zero.mp (by omega)
    subst hs
    simp [strtok, countLoop, words_nil]
  | succ k ih =>
    intro s fuel wc hk hf
    obtain ⟨f, rfl⟩ : ∃ f, fuel = f + 1 := ⟨fuel - 1, by omega⟩
    cases hd : s.dropWhile isDelim with
    | nil =>
      have hw : words s = [] := by rw [← words_skip, hd, words_nil]
      simp [strtok, hd, countLoop, hw]
    | cons c r =>
      obtain ⟨hc, hr⟩ := dropWhile_head s c r hd
      have hw : words s = (c :: r).takeWhile (fun x => !isDelim x) ::
          words ((c :: r).dropWhile (fun x => !isDelim x)).tail := by
        rw [← words_skip, hd, words_token r c hc]
      have hl := length_save (c :: r)
      simp only [List.length_cons, Nat.add_sub_cancel] at hl
      have e : strtok s = some ((c :: r).takeWhile (fun x => !isDelim x),
          ((c :: r).dropWhile (fun x => !isDelim x)).tail) := by
        simp only [strtok, hd]
      rw [e]
      simp only [countLoop]
      rw [ih _ f (wc + 1) (by omega) (by omega), hw]
      simp only [List.length_cons, Nat.cast_add, Nat.cast_one]
      congr 1
      omega

theorem words_eq_nil (s : List Char) : words s = [] ↔ ∀ c ∈ s, isDelim c = true := by
  constructor
  · intro hw
    cases hd : s.dropWhile isDelim with
    | nil => exact List.dropWhile_eq_nil_iff.mp hd
    | cons c r =>
      obtain ⟨hc, _⟩ := dropWhile_head s c r hd
      rw [← words_skip, hd, words_token r c hc] at hw
      cases hw
  · intro hs
    rw [← words_skip, List.dropWhile_eq_nil_iff.mpr hs, words_nil]

/-- C19: with a bound `fuel` above the length of the string, `processLine(s)`
returns the number of maximal non-empty runs of characters of `s` that are none
of space, tab, newline and carriage return; it returns 0 exactly when every
character of `s` (if any) is one of these four. -/
theorem processLine_counts_words (s : List Char) (fuel : Nat) (hf : s.length < fuel) :
    processLine fuel s = some ((words s).length : Int) ∧
    (processLine fuel s = some 0 ↔ ∀ c ∈ s, isDelim c = true) := by
  have h1 : processLine fuel s = some ((words s).length : Int) := by
    unfold processLine
    have h := countLoop_words s.length s fuel 0 le_rfl hf
    simp only [zero_add] at h
    by_cases ht : strtok s = none
    · have hw : words s = [] := by
        cases hd : s.dropWhile isDelim with
        | nil => rw [← words_skip, hd, words_nil]
        | cons c r => simp [strtok, hd] at ht
      simp [ht, hw]
    · simp only [ht, if_false]
      exact h
  refine ⟨h1, ?_⟩
  rw [h1, ← words_eq_nil]
  simp

/-- C19 on the string `" ab\tc\n"`: two words. -/
theorem processLine_counts_words_witness :
    processLine 8 [' ', 'a', 'b', '\t', 'c', '\n'] = some 2 :=
  (processLine_counts_words [' ', 'a', 'b', '\t', 'c', '\n'] 8 (by decide)).1.trans
    (by decide)

end WordCount

end JCompiler
